import Mathlib

/-!
NetSh helper management (`base/applications/network/netsh/helper.c`): a shallow
embedding of the helper registry of the ReactOS network shell.

The C program keeps two pointer structures in process-wide variables: a doubly
linked list of loaded helper DLLs and a forest of registered helpers (sibling
chains linked through `pNext`, child chains hanging off `pSubHelperHead`).
Both are embedded here as explicit heaps: a heap is a list of records, an
address is an index into that list, and a C pointer is an `Option Nat`
(`none` is `NULL`).  All functions take the program state and return the new
one.  Loops that follow pointers take a step budget (fuel); running out of
fuel, or dereferencing an address that is not allocated, yields `none`.

What the platform decides (whether an allocation returns a block, what
`LoadLibraryW`, `GetProcAddress` and `GetLastError` return, what a callback of a
module returns) is a parameter of the function concerned.  Debug output
(`DPRINT`, `DPRINT1`) is not part of the embedding.
-/

namespace Netsh

/-! ## Basic types and constants -/

/-- A 32 bit status code. -/
abbrev DWORD := Nat

/-- A helper identity (the 128 bit `GUID`); only equality of identities is used. -/
abbrev GUID := Nat

/-- A wide character string. -/
abbrev WSTR := List Char

/-- A loaded module handle. -/
abbrev HMODULE := Nat

/-- The Win32 status `ERROR_SUCCESS`. -/
abbrev ERROR_SUCCESS : DWORD := 0

/-- The Win32 status `ERROR_OUTOFMEMORY`. -/
abbrev ERROR_OUTOFMEMORY : DWORD := 14

/-- The Win32 status `ERROR_INVALID_PARAMETER`. -/
abbrev ERROR_INVALID_PARAMETER : DWORD := 87

/-- Modelled from the spec: `NS_HELPER_ATTRIBUTES` is declared in a header that is not
among the sources.  It is the capability descriptor supplied by a module: the identity
of the helper, its optional start capability, and the rest of the descriptor, which
`helper.c` copies but never inspects.  The start capability is modelled by the status
that a call `pfnStart(NULL, 0)` returns (`none` is a null function pointer). -/
structure NS_HELPER_ATTRIBUTES where
  guidHelper : GUID
  pfnStart : Option DWORD
  other : Nat
deriving DecidableEq, Repr

/-- Modelled from the spec: `HELPER_ENTRY` is declared in `precomp.h`, which is not among
the sources; the fields are those that `helper.c` reads and writes. -/
structure HELPER_ENTRY where
  pPrev : Option Nat
  pNext : Option Nat
  Attributes : NS_HELPER_ATTRIBUTES
  pDllEntry : Option Nat
  pguidParentHelper : Option GUID
  pSubHelperHead : Option Nat
  pSubHelperTail : Option Nat
  bStarted : Bool
deriving DecidableEq, Repr

/-- Modelled from the spec: `DLL_LIST_ENTRY` is declared in `precomp.h`, which is not among
the sources; the fields are those that `helper.c` reads and writes. -/
structure DLL_LIST_ENTRY where
  pPrev : Option Nat
  pNext : Option Nat
  pszDllName : Option WSTR
  pszShortName : Option WSTR
  pszValueName : Option WSTR
  hModule : Option HMODULE
deriving DecidableEq, Repr

/-- The heap of helper entries: the entry at address `a` is the `a`-th element. -/
abbrev HelperHeap := List HELPER_ENTRY

/-- The heap of module entries; a cell that has been released holds `none`. -/
abbrev DllHeap := List (Option DLL_LIST_ENTRY)

/-- The process-wide variables of `helper.c`, the two heaps they point into, and the
values stored under the NetSh key of the persisted reference store. -/
structure State where
  helperHeap : HelperHeap
  dllHeap : DllHeap
  pDllListHead : Option Nat
  pDllListTail : Option Nat
  pHelperListHead : Option Nat
  pHelperListTail : Option Nat
  pCurrentDll : Option Nat
  regValues : List (WSTR × WSTR)
deriving DecidableEq, Repr

/-- The state at program start: every global is `NULL`, nothing is allocated. -/
def State.init : State :=
  { helperHeap := [], dllHeap := [], pDllListHead := none, pDllListTail := none,
    pHelperListHead := none, pHelperListTail := none, pCurrentDll := none,
    regValues := [] }

/-- A block returned by `HeapAlloc(..., HEAP_ZERO_MEMORY, sizeof(HELPER_ENTRY))`. -/
def HELPER_ENTRY.zero : HELPER_ENTRY :=
  { pPrev := none, pNext := none,
    Attributes := { guidHelper := 0, pfnStart := none, other := 0 },
    pDllEntry := none, pguidParentHelper := none,
    pSubHelperHead := none, pSubHelperTail := none, bStarted := false }

/-- Write through a pointer: replace the entry at address `a` by `f` of it. -/
def HelperHeap.upd (h : HelperHeap) (a : Nat) (f : HELPER_ENTRY → HELPER_ENTRY) : HelperHeap :=
  match h[a]? with
  | none => h
  | some e => h.set a (f e)

/-! ## The traversal stack -/

/-- Modelled from the spec: the traversal stack (`CreateStack`, `StackPush`, `StackPop`,
`IsStackEmpty`, `StackFree`) is implemented outside `helper.c`.  It is a LIFO container
of references; `helper.c` only ever pushes non-null helper pointers. -/
abbrev STACK := List Nat

/-- Modelled from the spec: a fresh, empty traversal stack. -/
def CreateStack : STACK := []

/-- Modelled from the spec: push a reference on top of the stack. -/
def StackPush (st : STACK) (p : Nat) : STACK := p :: st

/-- Modelled from the spec: remove and return the top of the stack
(`none` when `IsStackEmpty`). -/
def StackPop : STACK → Option (Nat × STACK)
  | [] => none
  | p :: st => some (p, st)

/-- The loop `while (p != NULL) { StackPush(stack, p); p = p->pNext; }`. -/
def pushSiblings (h : HelperHeap) : Nat → Option Nat → STACK → Option STACK
  | _, none, st => some st
  | 0, some _, _ => none
  | k + 1, some p, st =>
    match h[p]? with
    | none => none
    | some e => pushSiblings h k e.pNext (StackPush st p)

/-! ## FindHelper -/

/-- The `while (!IsStackEmpty(stack))` loop of `FindHelper`.  The result `some r` is the
value the function returns (`r = none` is `NULL`); `none` means that the step budget
was exhausted or an unallocated address was dereferenced. -/
def FindHelperLoop (h : HelperHeap) (g : GUID) : Nat → STACK → Option (Option Nat)
  | 0, _ => none
  | k + 1, st =>
    match StackPop st with
    | none => some none
    | some (pCurrent, st) =>
      match h[pCurrent]? with
      | none => none
      | some e =>
        if e.Attributes.guidHelper = g then some (some pCurrent)
        else
          match pushSiblings h k e.pSubHelperHead st with
          | none => none
          | some st1 =>
            match pushSiblings h k e.pNext st1 with
            | none => none
            | some st2 => FindHelperLoop h g k st2

/-- The step budget given to the traversals of a heap with `n` helper entries. -/
def traversalFuel (h : HelperHeap) : Nat := 2 ^ h.length

/-- `FindHelper(pguidHelper)`. -/
def FindHelper (s : State) (pguidHelper : Option GUID) : Option (Option Nat) :=
  match s.pHelperListHead with
  | none => some none
  | some pHelper =>
    match pguidHelper with
    | none => some none
    | some g =>
      FindHelperLoop s.helperHeap g (traversalFuel s.helperHeap) (StackPush CreateStack pHelper)

/-! ## The shape of a well-formed helper forest -/

/-- The shape of a forest of helpers in first-child / next-sibling form:
`node a sub next` is the helper at address `a`, whose child chain has shape `sub`
and whose following siblings have shape `next`. -/
inductive Forest where
  | nil : Forest
  | node (a : Nat) (sub next : Forest) : Forest
deriving DecidableEq, Repr

/-- The addresses of all helpers of a forest, in preorder. -/
def Forest.addrs : Forest → List Nat
  | .nil => []
  | .node a sub next => a :: (sub.addrs ++ next.addrs)

/-- The addresses along the top-level sibling chain of a forest. -/
def Forest.chain : Forest → List Nat
  | .nil => []
  | .node a _ next => a :: next.chain

/-- The address of the last helper of the top-level sibling chain. -/
def Forest.lastAddr : Forest → Option Nat
  | .nil => none
  | .node a _ .nil => some a
  | .node _ _ next => next.lastAddr

/-- The child chain of the helper at address `p`, if it occurs in the forest. -/
def Forest.childrenOf (p : Nat) : Forest → Option (List Nat)
  | .nil => none
  | .node a sub next =>
    if a = p then some sub.chain
    else match sub.childrenOf p with
      | some l => some l
      | none => next.childrenOf p

/-- The pointer `p` is the head of a sibling chain whose links in the heap `h` have
the shape `f`: every `pNext` and `pSubHelperHead` leads where the shape says, and every
`pSubHelperTail` points at the last child. -/
def Represents (h : HelperHeap) : Option Nat → Forest → Prop
  | p, .nil => p = none
  | p, .node a sub next =>
    p = some a ∧
      match h[a]? with
      | none => False
      | some e =>
        e.pSubHelperTail = sub.lastAddr ∧
          Represents h e.pSubHelperHead sub ∧ Represents h e.pNext next

instance Represents.instDecidable (h : HelperHeap) :
    (p : Option Nat) → (f : Forest) → Decidable (Represents h p f)
  | p, .nil => by unfold Represents; exact inferInstance
  | p, .node a sub next => by
    unfold Represents
    cases hx : h[a]? with
    | none => exact inferInstanceAs (Decidable (p = some a ∧ False))
    | some e =>
      have := Represents.instDecidable h e.pSubHelperHead sub
      have := Represents.instDecidable h e.pNext next
      exact inferInstanceAs (Decidable (p = some a ∧ _ ∧ _ ∧ _))

/-- The helper forest of the state is well formed with shape `f`: the root chain and
all child chains are null-terminated, no helper occurs twice, and `pHelperListTail`
points at the last root. -/
structure HelperWF (s : State) (f : Forest) : Prop where
  repr : Represents s.helperHeap s.pHelperListHead f
  tail : s.pHelperListTail = f.lastAddr
  nodup : f.addrs.Nodup

/-! ## Measures on forest shapes -/

/-- The number of helpers of a forest. -/
def Forest.size : Forest → Nat
  | .nil => 0
  | .node _ sub next => 1 + sub.size + next.size

/-- The number of pops the traversal spends on a sibling chain of shape `f` when every
helper of the chain has been pushed once: a popped helper pushes its children and its
following siblings again. -/
def Forest.weight : Forest → Nat
  | .nil => 0
  | .node _ sub next => 1 + sub.weight + 2 * next.weight

/-- The number of pops the traversal spends on one stack entry that heads the chain `f`. -/
def Forest.cost : Forest → Nat
  | .nil => 0
  | .node _ sub next => 1 + sub.weight + next.weight

/-- The non-empty tails of the top-level chain of a forest, the chain itself first. -/
def Forest.suffixes : Forest → List Forest
  | .nil => []
  | .node a sub next => .node a sub next :: next.suffixes

/-- The number of pops left for a stack whose entries head the chains `gs`. -/
def stackCost (gs : List Forest) : Nat := (gs.map Forest.cost).sum

/-- Every stack entry is the head of a represented chain. -/
def StackRep (h : HelperHeap) (st : STACK) (gs : List Forest) : Prop :=
  List.Forall₂ (fun p g => Represents h (some p) g) st gs

/-- The identity of the helper at address `a`, if that address is allocated. -/
def guidAt (h : HelperHeap) (a : Nat) : Option GUID :=
  (h[a]?).map fun e => e.Attributes.guidHelper

/-- The shape `f` with a childless helper `n` appended at the end of its top-level chain. -/
def Forest.snoc (n : Nat) : Forest → Forest
  | .nil => .node n .nil .nil
  | .node a sub next => .node a sub (next.snoc n)

/-- The shape `f` with a childless helper `n` appended at the end of the child chain of
the helper at address `p`. -/
def Forest.addChild (p n : Nat) : Forest → Forest
  | .nil => .nil
  | .node a sub next =>
    if a = p then .node a (sub.snoc n) next
    else .node a (sub.addChild p n) (next.addChild p n)

/-- The link fields of an entry, which determine the shape of the forest. -/
def HELPER_ENTRY.links (e : HELPER_ENTRY) : Option Nat × Option Nat × Option Nat :=
  (e.pNext, e.pSubHelperHead, e.pSubHelperTail)

/-! ## RegisterHelper -/

/-- `RegisterHelper(pguidParentHelper, pHelperAttributes)`; `heapAllocOk` tells whether
`HeapAlloc` returns a block.  The result is the returned status and the new state. -/
def RegisterHelper (s : State) (pguidParentHelper : Option GUID)
    (pHelperAttributes : NS_HELPER_ATTRIBUTES) (heapAllocOk : Bool) : Option (DWORD × State) :=
  match FindHelper s (some pHelperAttributes.guidHelper) with
  | none => none
  | some (some _) => some (1, s)
  | some none =>
    if heapAllocOk = false then some (ERROR_OUTOFMEMORY, s)
    else
      let pHelper := s.helperHeap.length
      let h := s.helperHeap ++ [HELPER_ENTRY.zero]
      let h := h.upd pHelper fun e => { e with Attributes := pHelperAttributes }
      let h := h.upd pHelper fun e => { e with pDllEntry := s.pCurrentDll }
      match pguidParentHelper with
      | none =>
        let h := h.upd pHelper fun e => { e with pguidParentHelper := none }
        if s.pHelperListTail = none ∧ s.pHelperListHead = none then
          some (ERROR_SUCCESS,
            { s with helperHeap := h, pHelperListHead := some pHelper,
                     pHelperListTail := some pHelper })
        else
          let h := h.upd pHelper fun e => { e with pNext := s.pHelperListHead }
          match s.pHelperListHead with
          | none => none
          | some pHead =>
            match h[pHead]? with
            | none => none
            | some _ =>
              let h := h.upd pHead fun e => { e with pPrev := some pHelper }
              some (ERROR_SUCCESS, { s with helperHeap := h, pHelperListHead := some pHelper })
      | some gParent =>
        let h := h.upd pHelper fun e => { e with pguidParentHelper := some gParent }
        match FindHelper { s with helperHeap := h } (some gParent) with
        | none => none
        | some none => some (ERROR_INVALID_PARAMETER, { s with helperHeap := h })
        | some (some pParentHelper) =>
          match h[pParentHelper]? with
          | none => none
          | some parent =>
            if parent.pSubHelperHead = none ∧ parent.pSubHelperTail = none then
              let h := h.upd pParentHelper fun e => { e with pSubHelperHead := some pHelper }
              let h := h.upd pParentHelper fun e => { e with pSubHelperTail := some pHelper }
              some (ERROR_SUCCESS, { s with helperHeap := h })
            else
              let h := h.upd pHelper fun e => { e with pPrev := parent.pSubHelperTail }
              match parent.pSubHelperTail with
              | none => none
              | some pTail =>
                match h[pTail]? with
                | none => none
                | some _ =>
                  let h := h.upd pTail fun e => { e with pNext := some pHelper }
                  let h := h.upd pParentHelper fun e => { e with pSubHelperTail := some pHelper }
                  some (ERROR_SUCCESS, { s with helperHeap := h })

/-- The heap `h'` keeps every entry of `h` allocated, with the same links and identity. -/
def HeapAgree (h h' : HelperHeap) : Prop :=
  ∀ (a : Nat) (e : HELPER_ENTRY), h[a]? = some e →
    ∃ e' : HELPER_ENTRY, h'[a]? = some e' ∧ e'.pNext = e.pNext ∧
      e'.pSubHelperHead = e.pSubHelperHead ∧
      e'.Attributes.guidHelper = e.Attributes.guidHelper

/-- What a call of `RegisterHelper` that allocated its entry leaves behind: one new entry
holding the descriptor and the current module, while the descriptors, started flags
and module attributions of the existing entries and the rest of the state are kept. -/
structure Allocated (s s' : State) (parent : Option GUID) (desc : NS_HELPER_ATTRIBUTES) :
    Prop where
  length : s'.helperHeap.length = s.helperHeap.length + 1
  entry : ∃ e : HELPER_ENTRY, s'.helperHeap[s.helperHeap.length]? = some e ∧
    e.Attributes = desc ∧ e.pDllEntry = s.pCurrentDll ∧ e.pguidParentHelper = parent ∧
    e.bStarted = false ∧ e.pSubHelperHead = none ∧ e.pSubHelperTail = none
  old : ∀ (a : Nat) (e : HELPER_ENTRY), s.helperHeap[a]? = some e →
    ∃ e' : HELPER_ENTRY, s'.helperHeap[a]? = some e' ∧ e'.Attributes = e.Attributes ∧
      e'.bStarted = e.bStarted ∧ e'.pDllEntry = e.pDllEntry ∧
      e'.pguidParentHelper = e.pguidParentHelper
  rest : s'.dllHeap = s.dllHeap ∧ s'.pDllListHead = s.pDllListHead ∧
    s'.pDllListTail = s.pDllListTail ∧ s'.pCurrentDll = s.pCurrentDll ∧
    s'.regValues = s.regValues

/-- One call of `RegisterHelper` made while `pCurrentDll` is the current module. -/
structure RegisterCall where
  pCurrentDll : Option Nat
  pguidParentHelper : Option GUID
  Attributes : NS_HELPER_ATTRIBUTES
  heapAllocOk : Bool
deriving DecidableEq, Repr

/-- A sequence of `RegisterHelper` calls, whatever each of them returns. -/
def runRegisterCalls (s : State) : List RegisterCall → Option State
  | [] => some s
  | c :: cs =>
    match RegisterHelper { s with pCurrentDll := c.pCurrentDll } c.pguidParentHelper
        c.Attributes c.heapAllocOk with
    | none => none
    | some (_, s') => runRegisterCalls s' cs

/-- No two helpers of the forest have the same identity. -/
def UniqueIds (h : HelperHeap) (f : Forest) : Prop :=
  ∀ a ∈ f.addrs, ∀ b ∈ f.addrs, guidAt h a = guidAt h b → a = b

/-! ## StartHelpers -/

/-- What `StartHelpers` did: the helpers it popped off the stack, and the helpers whose
start callback it invoked, both in the order of the events. -/
structure StartTrace where
  visited : List Nat
  invoked : List Nat
deriving DecidableEq, Repr

/-- The body of `if (pCurrent->bStarted == FALSE)` in `StartHelpers` for the popped entry
`e` at address `pCurrent`: the start callback, if there is one, is invoked, and the entry is
marked started when the callback returns `ERROR_SUCCESS`.  The result is the heap afterwards
and the list of invocations made (empty or `[pCurrent]`). -/
def startEntry (h : HelperHeap) (pCurrent : Nat) (e : HELPER_ENTRY) : HelperHeap × List Nat :=
  if e.bStarted = false then
    match e.Attributes.pfnStart with
    | none => (h, [])
    | some dwError =>
      if dwError = ERROR_SUCCESS then
        (h.upd pCurrent fun e => { e with bStarted := true }, [pCurrent])
      else (h, [pCurrent])
  else (h, [])

/-- The `while (!IsStackEmpty(stack))` loop of `StartHelpers`: pop an entry, start it, then
push its children and its following siblings. -/
def StartHelpersLoop : Nat → HelperHeap → STACK → Option (HelperHeap × StartTrace)
  | 0, _, _ => none
  | k + 1, h, st =>
    match StackPop st with
    | none => some (h, { visited := [], invoked := [] })
    | some (pCurrent, st) =>
      match h[pCurrent]? with
      | none => none
      | some e =>
        match pushSiblings (startEntry h pCurrent e).1 k e.pSubHelperHead st with
        | none => none
        | some st1 =>
          match pushSiblings (startEntry h pCurrent e).1 k e.pNext st1 with
          | none => none
          | some st2 =>
            match StartHelpersLoop k (startEntry h pCurrent e).1 st2 with
            | none => none
            | some (h', t) =>
              some (h', { visited := pCurrent :: t.visited,
                          invoked := (startEntry h pCurrent e).2 ++ t.invoked })

/-- `StartHelpers()`; `createStackOk` tells whether `CreateStack` returns a stack. -/
def StartHelpers (s : State) (createStackOk : Bool) : Option (State × StartTrace) :=
  match s.pHelperListHead with
  | none => some (s, { visited := [], invoked := [] })
  | some pHelper =>
    if createStackOk = false then some (s, { visited := [], invoked := [] })
    else
      match StartHelpersLoop (traversalFuel s.helperHeap) s.helperHeap
          (StackPush CreateStack pHelper) with
      | none => none
      | some (h', t) => some ({ s with helperHeap := h' }, t)


/-- The value of the started flag that `StartHelpers` aims at: started before, or equipped
with a start callback that returns `ERROR_SUCCESS`. -/
def HELPER_ENTRY.startedAfter (e : HELPER_ENTRY) : Bool :=
  e.bStarted || decide (e.Attributes.pfnStart = some ERROR_SUCCESS)

/-- The heap `h'` differs from `h` at most in started flags, which only went from false to
true, and only for helpers whose start callback returns `ERROR_SUCCESS`. -/
def StartedOnly (h h' : HelperHeap) : Prop :=
  h'.length = h.length ∧
    ∀ (a : Nat) (e : HELPER_ENTRY), h[a]? = some e →
      ∃ b : Bool, h'[a]? = some { e with bStarted := b } ∧
        (e.bStarted = true → b = true) ∧ (b = true → e.startedAfter = true)

/-- The helper at `a` needs no further start attempt to reach `startedAfter`. -/
def SettledAt (h : HelperHeap) (a : Nat) : Prop :=
  ∃ e : HELPER_ENTRY, h[a]? = some e ∧ e.bStarted = e.startedAfter

/-! ## LoadHelperDll -/

/-- A block returned by `HeapAlloc(..., HEAP_ZERO_MEMORY, sizeof(DLL_LIST_ENTRY))`. -/
def DLL_LIST_ENTRY.zero : DLL_LIST_ENTRY :=
  { pPrev := none, pNext := none, pszDllName := none, pszShortName := none,
    pszValueName := none, hModule := none }

/-- Read through a module pointer; `none` when the address is not allocated or released. -/
def DllHeap.get (h : DllHeap) (a : Nat) : Option DLL_LIST_ENTRY :=
  match h[a]? with
  | some (some e) => some e
  | _ => none

/-- Write through a module pointer; `none` when the address is not allocated or released. -/
def DllHeap.upd (h : DllHeap) (a : Nat) (f : DLL_LIST_ENTRY → DLL_LIST_ENTRY) :
    Option DllHeap :=
  match DllHeap.get h a with
  | none => none
  | some e => some (h.set a (some (f e)))

/-- The C library function `wcsrchr(s, c)`: the position of the last occurrence of `c` in
`s`, `none` when `c` does not occur (a null result). -/
def wcsrchr : WSTR → Char → Option Nat
  | [], _ => none
  | x :: xs, c =>
    match wcsrchr xs c with
    | some i => some (i + 1)
    | none => if x = c then some 0 else none

/-- The short name `LoadHelperDll` derives from the path: the copy of the string that starts
at `pszStart`, where `pszStart` is the result of `wcsrchr(pszDllName, L'\\')`, or
`pszDllName` when that result is null. -/
def shortNameOf (pszDllName : WSTR) : WSTR :=
  match wcsrchr pszDllName '\\' with
  | none => pszDllName
  | some i => pszDllName.drop i

/-- The value name `LoadHelperDll` derives from the short name: a copy of it, cut off by the
terminator written at `pszEnd`, the result of `wcsrchr(pszValueName, L'.')`, when that is
not null. -/
def valueNameOf (pszShortName : WSTR) : WSTR :=
  match wcsrchr pszShortName '.' with
  | none => pszShortName
  | some j => pszShortName.take j

/-- Modelled from the spec: the entry point `InitHelperDll` of a helper module lives in the
module, not in the sources.  It is modelled by what it does to this program: the
`RegisterHelper` calls it makes (parent identity, descriptor, outcome of the allocation of
the entry), in order, and the status it returns. -/
structure NS_DLL_INIT_FN where
  calls : List (Option GUID × NS_HELPER_ATTRIBUTES × Bool)
  dwError : DWORD
deriving DecidableEq, Repr

/-- What the platform does during one call of `LoadHelperDll`: whether each `HeapAlloc`
returns a block, the result of `LoadLibraryW` and of `GetProcAddress` (`none` is a null
result) with the value `GetLastError` reports after a null result, and the outcomes of
the registry calls of `RegisterHelperDll` (the status of `RegCreateKeyExW`, and whether
`RegSetValueExW` stores the value). -/
structure LoadEnv where
  allocEntry : Bool
  allocDllName : Bool
  allocShortName : Bool
  allocValueName : Bool
  hModule : Option HMODULE
  loadLibraryError : DWORD
  pInitHelperDll : Option NS_DLL_INIT_FN
  getProcAddressError : DWORD
  regCreateKey : DWORD
  regSetValueStores : Bool
deriving DecidableEq, Repr

/-- `RegSetValueExW` on the NetSh key: the value `name` now holds `data`. -/
def regSetValue (vals : List (WSTR × WSTR)) (name data : WSTR) : List (WSTR × WSTR) :=
  (name, data) :: vals.filter fun v => !decide (v.1 = name)

/-- `RegisterHelperDll(pEntry)`: when the key opens, store the module path under the value
name of the entry. -/
def RegisterHelperDll (s : State) (pEntry : Nat) (env : LoadEnv) : Option State :=
  match DllHeap.get s.dllHeap pEntry with
  | none => none
  | some e =>
    if env.regCreateKey = ERROR_SUCCESS then
      match e.pszValueName, e.pszDllName with
      | some name, some data =>
        if env.regSetValueStores then
          some { s with regValues := regSetValue s.regValues name data }
        else some s
      | _, _ => none
    else some s

/-- `FreeHelperDll(pEntry)`: the library, the three strings and the entry are released. -/
def FreeHelperDll (s : State) (pEntry : Nat) : Option State :=
  match DllHeap.get s.dllHeap pEntry with
  | none => none
  | some _ => some { s with dllHeap := s.dllHeap.set pEntry none }

/-- The unlinking of `pEntry` from the module list, as written in `LoadHelperDll` (label
`done`) and in `DeleteHelperCommand`. -/
def unlinkDll (s : State) (pEntry : Nat) : Option State :=
  match DllHeap.get s.dllHeap pEntry with
  | none => none
  | some e =>
    -- if (pEntry->pPrev != NULL) pEntry->pPrev->pNext = pEntry->pNext;
    match (match e.pPrev with
           | none => some s.dllHeap
           | some p => DllHeap.upd s.dllHeap p fun x => { x with pNext := e.pNext }) with
    | none => none
    | some h1 =>
      match DllHeap.get h1 pEntry with
      | none => none
      | some e1 =>
        -- if (pEntry->pNext != NULL) pEntry->pNext->pPrev = pEntry->pPrev;
        match (match e1.pNext with
               | none => some h1
               | some n => DllHeap.upd h1 n fun x => { x with pPrev := e1.pPrev }) with
        | none => none
        | some h2 =>
          match DllHeap.get h2 pEntry with
          | none => none
          | some e2 =>
            let tail := if s.pDllListTail = some pEntry then e2.pPrev else s.pDllListTail
            let head := if s.pDllListHead = some pEntry then e2.pNext else s.pDllListHead
            match DllHeap.upd h2 pEntry fun x => { x with pPrev := none, pNext := none } with
            | none => none
            | some h3 =>
              some { s with dllHeap := h3, pDllListHead := head, pDllListTail := tail }

/-- The code at the label `done` of `LoadHelperDll`. -/
def loadHelperDllDone (s : State) (pEntry : Nat) (bInserted : Bool) (dwError : DWORD) :
    Option (DWORD × State) :=
  if dwError ≠ ERROR_SUCCESS then
    match (if bInserted then unlinkDll s pEntry else some s) with
    | none => none
    | some s1 =>
      match FreeHelperDll s1 pEntry with
      | none => none
      | some s2 => some (dwError, s2)
  else some (dwError, s)

/-- The speculative insertion of `pEntry` at the head of the module list. -/
def insertDllAtHead (s : State) (pEntry : Nat) : Option State :=
  if s.pDllListTail = none then
    match DllHeap.upd s.dllHeap pEntry fun x => { x with pPrev := none, pNext := none } with
    | none => none
    | some h => some { s with dllHeap := h, pDllListHead := some pEntry,
                              pDllListTail := some pEntry }
  else
    match DllHeap.upd s.dllHeap pEntry fun x =>
        { x with pPrev := none, pNext := s.pDllListHead } with
    | none => none
    | some h =>
      match s.pDllListHead with
      | none => none
      | some pHead =>
        match DllHeap.upd h pHead fun x => { x with pPrev := some pEntry } with
        | none => none
        | some h => some { s with dllHeap := h, pDllListHead := some pEntry }

/-- The call of the entry point between `pCurrentDll = pEntry` and `pCurrentDll = NULL`:
its `RegisterHelper` calls are made while `pCurrentDll` is set. -/
def callInitHelperDll (s : State) (init : NS_DLL_INIT_FN) : Option State :=
  runRegisterCalls s (init.calls.map fun c =>
    { pCurrentDll := s.pCurrentDll, pguidParentHelper := c.1, Attributes := c.2.1,
      heapAllocOk := c.2.2 })

/-- `LoadHelperDll(pszDllName, bRegister)`. -/
def LoadHelperDll (s : State) (pszDllName : WSTR) (bRegister : Bool) (env : LoadEnv) :
    Option (DWORD × State) :=
  if env.allocEntry = false then some (ERROR_OUTOFMEMORY, s)
  else
    let pEntry := s.dllHeap.length
    let s := { s with dllHeap := s.dllHeap ++ [some DLL_LIST_ENTRY.zero] }
    if env.allocDllName = false then loadHelperDllDone s pEntry false ERROR_OUTOFMEMORY
    else
      match DllHeap.upd s.dllHeap pEntry fun x => { x with pszDllName := some pszDllName } with
      | none => none
      | some h =>
        let s := { s with dllHeap := h }
        if env.allocShortName = false then loadHelperDllDone s pEntry false ERROR_OUTOFMEMORY
        else
          match DllHeap.upd s.dllHeap pEntry fun x =>
              { x with pszShortName := some (shortNameOf pszDllName) } with
          | none => none
          | some h =>
            let s := { s with dllHeap := h }
            if env.allocValueName = false then
              loadHelperDllDone s pEntry false ERROR_OUTOFMEMORY
            else
              match DllHeap.upd s.dllHeap pEntry fun x =>
                  { x with pszValueName := some (valueNameOf (shortNameOf pszDllName)) } with
              | none => none
              | some h =>
                let s := { s with dllHeap := h }
                match insertDllAtHead s pEntry with
                | none => none
                | some s =>
                  match DllHeap.upd s.dllHeap pEntry fun x =>
                      { x with hModule := env.hModule } with
                  | none => none
                  | some h =>
                    let s := { s with dllHeap := h }
                    match env.hModule with
                    | none => loadHelperDllDone s pEntry true env.loadLibraryError
                    | some _ =>
                      match env.pInitHelperDll with
                      | none => loadHelperDllDone s pEntry true env.getProcAddressError
                      | some init =>
                        match callInitHelperDll { s with pCurrentDll := some pEntry } init with
                        | none => none
                        | some s =>
                          let s := { s with pCurrentDll := none }
                          if init.dwError ≠ ERROR_SUCCESS then
                            loadHelperDllDone s pEntry true init.dwError
                          else
                            match (if bRegister then RegisterHelperDll s pEntry env
                                   else some s) with
                            | none => none
                            | some s => loadHelperDllDone s pEntry true init.dwError


/-- The pointer `p` heads a null-terminated chain of live module entries with addresses `l`,
each entry pointing back at its predecessor (`prev` for the first one). -/
def DllChain (h : DllHeap) : Option Nat → Option Nat → List Nat → Prop
  | _, p, [] => p = none
  | prev, p, a :: l =>
    p = some a ∧
      match DllHeap.get h a with
      | none => False
      | some e => e.pPrev = prev ∧ DllChain h (some a) e.pNext l

instance DllChain.instDecidable (h : DllHeap) :
    (prev p : Option Nat) → (l : List Nat) → Decidable (DllChain h prev p l)
  | _, p, [] => by unfold DllChain; exact inferInstance
  | prev, p, a :: l => by
    unfold DllChain
    cases hx : DllHeap.get h a with
    | none => exact inferInstanceAs (Decidable (p = some a ∧ False))
    | some e =>
      have := DllChain.instDecidable h (some a) e.pNext l
      exact inferInstanceAs (Decidable (p = some a ∧ _ ∧ _))

/-- The module list of the state is a well-formed doubly linked list with entries `l`, in
head-to-tail order: `pDllListHead` heads the chain, `pDllListTail` is its last entry, and
no entry occurs twice. -/
structure DllWF (s : State) (l : List Nat) : Prop where
  chain : DllChain s.dllHeap none s.pDllListHead l
  tail : s.pDllListTail = l.getLast?
  nodup : l.Nodup

/-- All four allocations of `LoadHelperDll` return a block. -/
def LoadEnv.allocsOk (env : LoadEnv) : Prop :=
  env.allocEntry = true ∧ env.allocDllName = true ∧ env.allocShortName = true ∧
    env.allocValueName = true

instance (env : LoadEnv) : Decidable env.allocsOk := by
  unfold LoadEnv.allocsOk; exact inferInstance

/-- The dynamic load or the resolution of the entry point fails, and `GetLastError` reports
`err` for that failure. -/
def LoadEnv.loadFails (env : LoadEnv) (err : DWORD) : Prop :=
  (env.hModule = none ∧ env.loadLibraryError = err) ∨
    (env.hModule ≠ none ∧ env.pInitHelperDll = none ∧ env.getProcAddressError = err)

instance (env : LoadEnv) (err : DWORD) : Decidable (env.loadFails err) := by
  unfold LoadEnv.loadFails; exact inferInstance

/-! ## The module list: link surgery and the outcome of a load -/

/-- The heap `h` with the live entry at `a` replaced by `f` of it; `h` itself when there is
no live entry at `a`. -/
def DllHeap.modify (h : DllHeap) (a : Nat) (f : DLL_LIST_ENTRY → DLL_LIST_ENTRY) : DllHeap :=
  match DllHeap.get h a with
  | none => h
  | some e => h.set a (some (f e))

/-- `DllHeap.modify` through a pointer that may be null. -/
def DllHeap.modifyOpt (h : DllHeap) (p : Option Nat) (f : DLL_LIST_ENTRY → DLL_LIST_ENTRY) :
    DllHeap :=
  match p with
  | none => h
  | some a => DllHeap.modify h a f

/-- The heap after `a`, whose entry is `ea`, has been unlinked: the neighbours of `a` are
linked to each other and the links of `a` are cleared. -/
def DllHeap.unlinked (h : DllHeap) (a : Nat) (ea : DLL_LIST_ENTRY) : DllHeap :=
  DllHeap.modify
    (DllHeap.modifyOpt
      (DllHeap.modifyOpt h ea.pPrev fun x => { x with pNext := ea.pNext })
      ea.pNext fun x => { x with pPrev := ea.pPrev })
    a fun x => { x with pPrev := none, pNext := none }

/-- The two link fields of a module entry. -/
def DLL_LIST_ENTRY.links (e : DLL_LIST_ENTRY) : Option Nat × Option Nat := (e.pPrev, e.pNext)

/-- The entry `LoadHelperDll` has built for the module at `pszDllName` when it calls
`LoadLibraryW`, before it is linked. -/
def loadEntry (pszDllName : WSTR) (env : LoadEnv) : DLL_LIST_ENTRY :=
  { pPrev := none, pNext := none, pszDllName := some pszDllName,
    pszShortName := some (shortNameOf pszDllName),
    pszValueName := some (valueNameOf (shortNameOf pszDllName)), hModule := env.hModule }

/-- The state in which a freshly allocated entry `e` is linked at the head of the module
list. -/
def linkedAtHead (s : State) (e : DLL_LIST_ENTRY) : State :=
  { s with
    dllHeap :=
      (DllHeap.modifyOpt s.dllHeap s.pDllListHead fun x =>
        { x with pPrev := some s.dllHeap.length }) ++
        [some { e with pPrev := none, pNext := s.pDllListHead }],
    pDllListHead := some s.dllHeap.length,
    pDllListTail := if s.pDllListTail = none then some s.dllHeap.length else s.pDllListTail }

/-- The part of `LoadHelperDll` that follows the insertion of the entry and the call of
`LoadLibraryW`. -/
def loadAfterInsert (s : State) (pEntry : Nat) (bRegister : Bool) (env : LoadEnv) :
    Option (DWORD × State) :=
  match env.hModule with
  | none => loadHelperDllDone s pEntry true env.loadLibraryError
  | some _ =>
    match env.pInitHelperDll with
    | none => loadHelperDllDone s pEntry true env.getProcAddressError
    | some init =>
      match callInitHelperDll { s with pCurrentDll := some pEntry } init with
      | none => none
      | some s =>
        let s := { s with pCurrentDll := none }
        if init.dwError ≠ ERROR_SUCCESS then loadHelperDllDone s pEntry true init.dwError
        else
          match (if bRegister then RegisterHelperDll s pEntry env else some s) with
          | none => none
          | some s => loadHelperDllDone s pEntry true init.dwError

/-- What a run of `RegisterHelper` calls made for the module `d` leaves behind: existing
helper entries keep their descriptor, started flag and module attribution, every new entry
is attributed to `d`, and nothing but the helper forest changes. -/
structure EntryPointRan (s s' : State) (d : Option Nat) : Prop where
  length : s.helperHeap.length ≤ s'.helperHeap.length
  old : ∀ (a : Nat) (e : HELPER_ENTRY), s.helperHeap[a]? = some e →
    ∃ e' : HELPER_ENTRY, s'.helperHeap[a]? = some e' ∧ e'.Attributes = e.Attributes ∧
      e'.bStarted = e.bStarted ∧ e'.pDllEntry = e.pDllEntry
  new : ∀ (a : Nat) (e : HELPER_ENTRY), s.helperHeap.length ≤ a → s'.helperHeap[a]? = some e →
    e.pDllEntry = d
  rest : s'.dllHeap = s.dllHeap ∧ s'.pDllListHead = s.pDllListHead ∧
    s'.pDllListTail = s.pDllListTail ∧ s'.pCurrentDll = s.pCurrentDll ∧
    s'.regValues = s.regValues

/-- The status `LoadHelperDll` ends with, as the platform determines it. -/
def LoadEnv.status (env : LoadEnv) : DWORD :=
  if env.allocEntry = true ∧ env.allocDllName = true ∧ env.allocShortName = true ∧
      env.allocValueName = true then
    match env.hModule with
    | none => env.loadLibraryError
    | some _ =>
      match env.pInitHelperDll with
      | none => env.getProcAddressError
      | some init => init.dwError
  else ERROR_OUTOFMEMORY

/-- The entry point `LoadHelperDll` calls, when it gets that far: every allocation has
succeeded, the library is loaded and `InitHelperDll` is resolved. -/
def LoadEnv.entryPoint (env : LoadEnv) : Option NS_DLL_INIT_FN :=
  if env.allocEntry = true ∧ env.allocDllName = true ∧ env.allocShortName = true ∧
      env.allocValueName = true then
    match env.hModule with
    | none => none
    | some _ => env.pInitHelperDll
  else none

/-- The load succeeds: the entry point is called and returns `ERROR_SUCCESS`. -/
def LoadEnv.succeeds (env : LoadEnv) : Prop :=
  env.entryPoint.map (fun init => init.dwError) = some ERROR_SUCCESS

instance (env : LoadEnv) : Decidable env.succeeds := by
  unfold LoadEnv.succeeds; exact inferInstance

/-- Two module entries carry the same strings and the same library handle. -/
def DLL_LIST_ENTRY.SameModule (e e' : DLL_LIST_ENTRY) : Prop :=
  e'.pszDllName = e.pszDllName ∧ e'.pszShortName = e.pszShortName ∧
    e'.pszValueName = e.pszValueName ∧ e'.hModule = e.hModule

/-- What `LoadHelperDll s pszDllName bRegister env` leaves behind in `s'`, on a module list
with entries `l`. -/
structure Loaded (s : State) (l : List Nat) (pszDllName : WSTR) (bRegister : Bool)
    (env : LoadEnv) (s' : State) : Prop where
  list : DllWF s' (if env.status = ERROR_SUCCESS then s.dllHeap.length :: l else l)
  entry : env.status = ERROR_SUCCESS →
    ∃ e : DLL_LIST_ENTRY, DllHeap.get s'.dllHeap s.dllHeap.length = some e ∧
      e.pszDllName = some pszDllName ∧ e.pszShortName = some (shortNameOf pszDllName) ∧
      e.pszValueName = some (valueNameOf (shortNameOf pszDllName)) ∧ e.hModule = env.hModule
  kept : ∀ (a : Nat) (e : DLL_LIST_ENTRY), DllHeap.get s.dllHeap a = some e →
    ∃ e' : DLL_LIST_ENTRY, DllHeap.get s'.dllHeap a = some e' ∧ e.SameModule e'
  unwound : env.status ≠ ERROR_SUCCESS →
    s'.pDllListHead = s.pDllListHead ∧ s'.pDllListTail = s.pDllListTail ∧
      (∀ a, a < s.dllHeap.length → s'.dllHeap[a]? = s.dllHeap[a]?) ∧
      (env.allocEntry = true → s'.dllHeap[s.dllHeap.length]? = some none)
  helpersOld : ∀ (a : Nat) (e : HELPER_ENTRY), s.helperHeap[a]? = some e →
    ∃ e' : HELPER_ENTRY, s'.helperHeap[a]? = some e' ∧ e'.Attributes = e.Attributes ∧
      e'.bStarted = e.bStarted ∧ e'.pDllEntry = e.pDllEntry
  helpersNew : ∀ (a : Nat) (e : HELPER_ENTRY), s.helperHeap.length ≤ a →
    s'.helperHeap[a]? = some e → e.pDllEntry = some s.dllHeap.length
  store : s'.regValues =
    if env.succeeds ∧ bRegister = true ∧ env.regCreateKey = ERROR_SUCCESS ∧
        env.regSetValueStores = true then
      regSetValue s.regValues (valueNameOf (shortNameOf pszDllName)) pszDllName
    else s.regValues
  current : s'.pCurrentDll = if env.entryPoint = none then s.pCurrentDll else none

/-! ## DeleteHelperCommand and AddHelperCommand -/

/-- What the platform does during one call of `DeleteHelperCommand`: the status of
`RegOpenKeyExW`, and whether `RegDeleteValue` removes the value. -/
structure DeleteEnv where
  regOpenKey : DWORD
  regDeleteValueRemoves : Bool
deriving DecidableEq, Repr

/-- `RegDeleteValue` on the NetSh key: the value `name` is gone. -/
def regDeleteValue (vals : List (WSTR × WSTR)) (name : WSTR) : List (WSTR × WSTR) :=
  vals.filter fun v => !decide (v.1 = name)

/-- The body of the `if` in the loop of `DeleteHelperCommand`, for the matching entry
`pEntry`: unlink it, delete its value from the registry when the key opens, release it,
and `return 1`.  The call of `RegDeleteValue` with a null value name is left undefined:
`LoadHelperDll` links an entry only after it has set its three strings. -/
def deleteHelperDll (s : State) (pEntry : Nat) (env : DeleteEnv) : Option (DWORD × State) :=
  match unlinkDll s pEntry with
  | none => none
  | some s =>
    match DllHeap.get s.dllHeap pEntry with
    | none => none
    | some e =>
      match (if env.regOpenKey = ERROR_SUCCESS then
               match e.pszValueName with
               | none => none
               | some name =>
                 if env.regDeleteValueRemoves then
                   some { s with regValues := regDeleteValue s.regValues name }
                 else some s
             else some s) with
      | none => none
      | some s =>
        match FreeHelperDll s pEntry with
        | none => none
        | some s => some (1, s)

/-- The `while (pEntry != NULL)` loop of `DeleteHelperCommand` and the `return` after it;
`psz` is `ppwcArguments[2]`, and `wcscmp(...) == 0` is equality of the two strings. -/
def DeleteHelperLoop (s : State) (psz : Option WSTR) (env : DeleteEnv) :
    Nat → Option Nat → Option (DWORD × State)
  | _, none => some (ERROR_SUCCESS, s)
  | 0, some _ => none
  | fuel + 1, some pEntry =>
    match DllHeap.get s.dllHeap pEntry with
    | none => none
    | some e =>
      match e.pszShortName, psz with
      | some short, some arg =>
        if short = arg then deleteHelperDll s pEntry env
        else DeleteHelperLoop s psz env fuel e.pNext
      | _, _ => none

/-- `DeleteHelperCommand(pwszMachine, ppwcArguments, dwCurrentIndex, dwArgCount, ...)`; only
`ppwcArguments` and `dwArgCount` are used.  The loop visits each entry of the module list
at most once, so the number of allocated cells is enough fuel. -/
def DeleteHelperCommand (s : State) (ppwcArguments : List WSTR) (dwArgCount : DWORD)
    (env : DeleteEnv) : Option (DWORD × State) :=
  if dwArgCount = 2 then some (1, s)
  else DeleteHelperLoop s ppwcArguments[2]? env s.dllHeap.length s.pDllListHead

/-- The short name of the module entry at `a`. -/
def shortNameAt (s : State) (a : Nat) : Option WSTR :=
  (DllHeap.get s.dllHeap a).bind fun e => e.pszShortName

/-- Every entry of the module list has its short name and its value name, as every entry
that `LoadHelperDll` links has. -/
def DllNamed (s : State) (l : List Nat) : Prop :=
  ∀ a ∈ l, ∃ e : DLL_LIST_ENTRY, DllHeap.get s.dllHeap a = some e ∧
    e.pszShortName ≠ none ∧ e.pszValueName ≠ none

/-- `AddHelperCommand(pwszMachine, ppwcArguments, dwCurrentIndex, dwArgCount, ...)`. -/
def AddHelperCommand (s : State) (ppwcArguments : List WSTR) (dwArgCount : DWORD)
    (env : LoadEnv) (createStackOk : Bool) : Option (DWORD × State) :=
  if dwArgCount = 2 then some (1, s)
  else
    match ppwcArguments[2]? with
    | none => none
    | some pszDllName =>
      match LoadHelperDll s pszDllName true env with
      | none => none
      | some (dwError, s) =>
        if dwError ≠ ERROR_SUCCESS then some (dwError, s)
        else
          match StartHelpers s createStackOk with
          | none => none
          | some (s, _) => some (ERROR_SUCCESS, s)

/-- What the deletion of the module entry `a` by `DeleteHelperCommand` leaves behind in
`s'`: the module list `l'`, the cell of `a` released, every other entry with its strings,
the helper forest and `pCurrentDll` untouched, and the value of the module deleted from the
registry when the registry lets it. -/
structure Deleted (s : State) (a : Nat) (l' : List Nat) (env : DeleteEnv) (s' : State) :
    Prop where
  list : DllWF s' l'
  freed : s'.dllHeap[a]? = some none
  kept : ∀ (b : Nat) (e : DLL_LIST_ENTRY), b ≠ a → DllHeap.get s.dllHeap b = some e →
    ∃ e' : DLL_LIST_ENTRY, DllHeap.get s'.dllHeap b = some e' ∧ e.SameModule e'
  helpers : s'.helperHeap = s.helperHeap ∧ s'.pHelperListHead = s.pHelperListHead ∧
    s'.pHelperListTail = s.pHelperListTail ∧ s'.pCurrentDll = s.pCurrentDll
  store : ∃ name : WSTR,
    ((DllHeap.get s.dllHeap a).bind fun e => e.pszValueName) = some name ∧
      s'.regValues =
        if env.regOpenKey = ERROR_SUCCESS ∧ env.regDeleteValueRemoves = true then
          regDeleteValue s.regValues name
        else s.regValues

/-! ## LoadHelpers -/

/-- What the platform does during one call of `LoadHelpers`: the statuses of
`RegOpenKeyExW` and `RegQueryInfoKeyW`, whether the two buffers are allocated, the status
of `RegEnumValueW` for each index, the platform during the call of `LoadHelperDll` for
each index, and whether `CreateStack` returns a stack in `StartHelpers`. -/
structure LoadHelpersEnv where
  regOpenKey : DWORD
  regQueryInfoKey : DWORD
  allocNameBuffer : Bool
  allocValueBuffer : Bool
  regEnumValue : Nat → DWORD
  load : Nat → LoadEnv
  createStackOk : Bool

/-- What `LoadHelpers` did: its calls of `LoadHelperDll` (path, `bRegister`, returned
status) in order, and the traces of its calls of `StartHelpers`. -/
structure LoadHelpersTrace where
  loads : List (WSTR × Bool × DWORD)
  starts : List StartTrace
deriving DecidableEq, Repr

/-- The loop `for (dwIndex = 0; dwIndex < dwValueCount; dwIndex++)` of `LoadHelpers`.
`RegEnumValueW` yields the value with index `dwIndex` of the key; it fails when the
platform says so, and when the key has no value with that index.  The status that
`LoadHelperDll` returns is ignored by the code; it is recorded in the trace. -/
def LoadHelpersLoop (env : LoadHelpersEnv) (dwValueCount : Nat) :
    Nat → Nat → State → Option (State × List (WSTR × Bool × DWORD))
  | 0, _, _ => none
  | fuel + 1, dwIndex, s =>
    if dwIndex < dwValueCount then
      if env.regEnumValue dwIndex ≠ ERROR_SUCCESS then some (s, [])
      else
        match s.regValues[dwIndex]? with
        | none => some (s, [])
        | some (_, pszValueBuffer) =>
          match LoadHelperDll s pszValueBuffer false (env.load dwIndex) with
          | none => none
          | some (dwError, s) =>
            match LoadHelpersLoop env dwValueCount fuel (dwIndex + 1) s with
            | none => none
            | some (s, loads) => some (s, (pszValueBuffer, false, dwError) :: loads)
    else some (s, [])

/-- `LoadHelpers()`.  `dwValueCount` is the number of values of the key; the loop makes at
most that many passes, and one more step sees the end. -/
def LoadHelpers (s : State) (env : LoadHelpersEnv) : Option (State × LoadHelpersTrace) :=
  if env.regOpenKey ≠ ERROR_SUCCESS then some (s, { loads := [], starts := [] })
  else
    match (if env.regQueryInfoKey ≠ ERROR_SUCCESS then some (s, [])
           else if env.allocNameBuffer = false then some (s, [])
           else if env.allocValueBuffer = false then some (s, [])
           else LoadHelpersLoop env s.regValues.length (s.regValues.length + 1) 0 s) with
    | none => none
    | some (s, loads) =>
      match StartHelpers s env.createStackOk with
      | none => none
      | some (s, t) => some (s, { loads := loads, starts := [t] })

/-- The path of the module entry at `a`. -/
def dllNameAt (s : State) (a : Nat) : Option WSTR :=
  (DllHeap.get s.dllHeap a).bind fun e => e.pszDllName

/-- The paths of the calls of `LoadHelperDll` that returned `ERROR_SUCCESS`, in order. -/
def loadedPaths (loads : List (WSTR × Bool × DWORD)) : List WSTR :=
  (loads.filter fun c => decide (c.2.2 = ERROR_SUCCESS)).map fun c => c.1

/-- The modules of `s` are still there in `s'`, with their strings and handles. -/
def ModulesKept (s s' : State) : Prop :=
  ∀ (a : Nat) (e : DLL_LIST_ENTRY), DllHeap.get s.dllHeap a = some e →
    ∃ e' : DLL_LIST_ENTRY, DllHeap.get s'.dllHeap a = some e' ∧ e.SameModule e'

/-- The platform keeps the contract of `GetLastError`: when `LoadLibraryW` or
`GetProcAddress` fails, the last-error code it reports for the failure is an error code,
not `ERROR_SUCCESS`. -/
def LoadEnv.reportsErrors (env : LoadEnv) : Prop :=
  ¬ env.loadFails ERROR_SUCCESS

instance (env : LoadEnv) : Decidable env.reportsErrors := by
  unfold LoadEnv.reportsErrors; exact inferInstance

/-- The paths of the values `vals`, which have the indices `i`, `i + 1`, ... in the key, whose
load succeeds on the platform of `LoadHelpers`. -/
def succeededPaths (env : LoadHelpersEnv) (i : Nat) (vals : List (WSTR × WSTR)) : List WSTR :=
  ((vals.enumFrom i).filter fun p => decide (env.load p.1).succeeds).map fun p => p.2.2

/-! ## Sample states -/

/-- A sample state: one loaded module (entry 0), which is the current module, and three
helpers registered by it; helpers 1 and 0 are roots, helper 2 is the child of helper 0. -/
def exampleState : State :=
  { helperHeap :=
      [ { pPrev := some 1, pNext := none,
          Attributes := { guidHelper := 1, pfnStart := some 0, other := 0 },
          pDllEntry := some 0, pguidParentHelper := none,
          pSubHelperHead := some 2, pSubHelperTail := some 2, bStarted := false },
        { pPrev := none, pNext := some 0,
          Attributes := { guidHelper := 2, pfnStart := some 1, other := 0 },
          pDllEntry := some 0, pguidParentHelper := none,
          pSubHelperHead := none, pSubHelperTail := none, bStarted := false },
        { pPrev := none, pNext := none,
          Attributes := { guidHelper := 3, pfnStart := none, other := 0 },
          pDllEntry := some 0, pguidParentHelper := some 1,
          pSubHelperHead := none, pSubHelperTail := none, bStarted := false } ],
    dllHeap :=
      [ some { pPrev := none, pNext := none,
               pszDllName := some ['i', 'f', '.', 'd', 'l', 'l'],
               pszShortName := some ['i', 'f', '.', 'd', 'l', 'l'],
               pszValueName := some ['i', 'f'], hModule := some 1 } ],
    pDllListHead := some 0, pDllListTail := some 0,
    pHelperListHead := some 1, pHelperListTail := some 0,
    pCurrentDll := some 0, regValues := [] }

/-- The shape of the helper forest of `exampleState`. -/
def exampleShape : Forest :=
  .node 1 .nil (.node 0 (.node 2 .nil .nil) .nil)

/-- A descriptor that is not registered in `exampleState`. -/
def exampleDescriptor : NS_HELPER_ATTRIBUTES :=
  { guidHelper := 4, pfnStart := some 0, other := 7 }

/-- The state after `RegisterHelper` has registered `exampleDescriptor` in `exampleState`
under the helper with identity 1. -/
def exampleStateChild : State :=
  { exampleState with
    helperHeap :=
      [ { pPrev := some 1, pNext := none,
          Attributes := { guidHelper := 1, pfnStart := some 0, other := 0 },
          pDllEntry := some 0, pguidParentHelper := none,
          pSubHelperHead := some 2, pSubHelperTail := some 3, bStarted := false },
        { pPrev := none, pNext := some 0,
          Attributes := { guidHelper := 2, pfnStart := some 1, other := 0 },
          pDllEntry := some 0, pguidParentHelper := none,
          pSubHelperHead := none, pSubHelperTail := none, bStarted := false },
        { pPrev := none, pNext := some 3,
          Attributes := { guidHelper := 3, pfnStart := none, other := 0 },
          pDllEntry := some 0, pguidParentHelper := some 1,
          pSubHelperHead := none, pSubHelperTail := none, bStarted := false },
        { pPrev := some 2, pNext := none,
          Attributes := exampleDescriptor,
          pDllEntry := some 0, pguidParentHelper := some 1,
          pSubHelperHead := none, pSubHelperTail := none, bStarted := false } ] }

/-- Three root helpers registered in the order 1, 2, 3 on the empty registry; the first one
has a start callback that fails, the other two have callbacks that succeed. -/
def threeRootsCalls : List RegisterCall :=
  [ { pCurrentDll := none, pguidParentHelper := none,
      Attributes := { guidHelper := 1, pfnStart := some 1, other := 0 }, heapAllocOk := true },
    { pCurrentDll := none, pguidParentHelper := none,
      Attributes := { guidHelper := 2, pfnStart := some 0, other := 0 }, heapAllocOk := true },
    { pCurrentDll := none, pguidParentHelper := none,
      Attributes := { guidHelper := 3, pfnStart := some 0, other := 0 }, heapAllocOk := true } ]

/-- The registry that `threeRootsCalls` builds: the root chain is 2, 1, 0. -/
def threeRootsState : State :=
  { State.init with
    helperHeap :=
      [ { pPrev := some 1, pNext := none,
          Attributes := { guidHelper := 1, pfnStart := some 1, other := 0 },
          pDllEntry := none, pguidParentHelper := none,
          pSubHelperHead := none, pSubHelperTail := none, bStarted := false },
        { pPrev := some 2, pNext := some 0,
          Attributes := { guidHelper := 2, pfnStart := some 0, other := 0 },
          pDllEntry := none, pguidParentHelper := none,
          pSubHelperHead := none, pSubHelperTail := none, bStarted := false },
        { pPrev := none, pNext := some 1,
          Attributes := { guidHelper := 3, pfnStart := some 0, other := 0 },
          pDllEntry := none, pguidParentHelper := none,
          pSubHelperHead := none, pSubHelperTail := none, bStarted := false } ],
    pHelperListHead := some 2, pHelperListTail := some 0 }

/-- The shape of the helper forest of `threeRootsState`. -/
def threeRootsShape : Forest :=
  .node 2 .nil (.node 1 .nil (.node 0 .nil .nil))

/-- A platform on which every allocation succeeds and `LoadLibraryW` fails, `GetLastError`
reporting `err`. -/
def loadLibraryFails (err : DWORD) : LoadEnv :=
  { allocEntry := true, allocDllName := true, allocShortName := true, allocValueName := true,
    hModule := none, loadLibraryError := err, pInitHelperDll := none,
    getProcAddressError := 0, regCreateKey := 0, regSetValueStores := true }

/-- A module path with two separators and an extension. -/
def samplePath : WSTR := ['C', ':', '\\', 'n', '\\', 'i', 'f', '.', 'd', 'l', 'l']

/-- An entry point that registers `exampleDescriptor` as a root helper and returns `err`. -/
def initRegistersOne (err : DWORD) : NS_DLL_INIT_FN :=
  { calls := [(none, exampleDescriptor, true)], dwError := err }

/-- A platform on which every allocation succeeds, the library loads, `InitHelperDll` is
found and returns `err`, and the registry accepts the value. -/
def entryPointReturns (err : DWORD) : LoadEnv :=
  { allocEntry := true, allocDllName := true, allocShortName := true, allocValueName := true,
    hModule := some 7, loadLibraryError := 0, pInitHelperDll := some (initRegistersOne err),
    getProcAddressError := 0, regCreateKey := 0, regSetValueStores := true }

/-- A sample state with three loaded modules and no helpers: the module list is 2, 1, 0;
entry 2 has the short name `a.dll`, entries 1 and 0 both have the short name `b.dll`. -/
def threeModulesState : State :=
  { State.init with
    dllHeap :=
      [ some { pPrev := some 1, pNext := none,
               pszDllName := some ['b', '.', 'd', 'l', 'l'],
               pszShortName := some ['b', '.', 'd', 'l', 'l'],
               pszValueName := some ['b'], hModule := some 1 },
        some { pPrev := some 2, pNext := some 0,
               pszDllName := some ['D', ':', 'b', '.', 'd', 'l', 'l'],
               pszShortName := some ['b', '.', 'd', 'l', 'l'],
               pszValueName := some ['b'], hModule := some 2 },
        some { pPrev := none, pNext := some 1,
               pszDllName := some ['a', '.', 'd', 'l', 'l'],
               pszShortName := some ['a', '.', 'd', 'l', 'l'],
               pszValueName := some ['a'], hModule := some 3 } ],
    pDllListHead := some 2, pDllListTail := some 0,
    regValues := [(['a'], ['a', '.', 'd', 'l', 'l']), (['b'], ['b', '.', 'd', 'l', 'l'])] }

/-- The command line `delete helper <name>`. -/
def deleteHelperArgs (name : WSTR) : List WSTR :=
  [['d', 'e', 'l', 'e', 't', 'e'], ['h', 'e', 'l', 'p', 'e', 'r'], name]

/-- A state with two persisted references and nothing loaded. -/
def twoReferencesState : State :=
  { State.init with
    regValues := [(['M', '1'], ['a', '.', 'd', 'l', 'l']),
                  (['M', '2'], ['b', '.', 'd', 'l', 'l'])] }

/-- A platform on which the registry can be read, the load of the first reference fails
(`LoadLibraryW` fails with error 126) and the load of every other one succeeds, its entry
point registering one root helper. -/
def firstLoadFails : LoadHelpersEnv :=
  { regOpenKey := 0, regQueryInfoKey := 0, allocNameBuffer := true, allocValueBuffer := true,
    regEnumValue := fun _ => 0,
    load := fun i => if i = 0 then loadLibraryFails 126 else entryPointReturns 0,
    createStackOk := true }

/-! # Theorems -/

theorem Forest.sum_cost_suffixes (f : Forest) : stackCost f.suffixes = f.weight := by
  induction f with
  | nil => rfl
  | node a sub next _ ih =>
    simp only [stackCost, Forest.suffixes, List.map_cons, List.sum_cons, Forest.cost, Forest.weight] at ih ⊢
    omega

theorem Forest.length_chain_le_weight (f : Forest) : f.chain.length ≤ f.weight := by
  induction f with
  | nil => simp [Forest.chain]
  | node a sub next _ ih => simp only [Forest.chain, List.length_cons, Forest.weight]; omega

theorem Forest.length_addrs (f : Forest) : f.addrs.length = f.size := by
  induction f with
  | nil => rfl
  | node a sub next ih1 ih2 => simp [Forest.addrs, Forest.size, ih1, ih2]; omega

theorem Forest.weight_lt_two_pow (f : Forest) : f.weight < 2 ^ f.size := by
  induction f with
  | nil => simp [Forest.weight, Forest.size]
  | node a sub next ih1 ih2 =>
    simp only [Forest.weight, Forest.size]
    have h1 : 2 ^ (1 + sub.size + next.size) = 2 ^ sub.size * (2 * 2 ^ next.size) := by
      rw [Nat.pow_add, Nat.pow_add]; ring
    rw [h1]
    have hx : 1 ≤ 2 ^ sub.size := Nat.one_le_two_pow
    have hy : 1 ≤ 2 ^ next.size := Nat.one_le_two_pow
    nlinarith [Nat.mul_le_mul ih1 ih2]

theorem Forest.cost_le_weight (f : Forest) : f.cost ≤ f.weight := by
  cases f <;> simp [Forest.cost, Forest.weight]; omega

theorem Represents.chain_suffixes {h : HelperHeap} :
    ∀ {f : Forest} {p : Option Nat}, Represents h p f → StackRep h f.chain f.suffixes := by
  intro f
  induction f with
  | nil => intro p _; exact List.Forall₂.nil
  | node a sub next _ ih =>
    intro p hp
    have hp' := hp
    unfold Represents at hp
    obtain ⟨rfl, hp⟩ := hp
    cases hx : h[a]? with
    | none => simp [hx] at hp
    | some e =>
      simp only [hx] at hp
      exact List.Forall₂.cons hp' (ih hp.2.2)

theorem pushSiblings_eq {h : HelperHeap} :
    ∀ {f : Forest} {p : Option Nat} (k : Nat) (st : STACK), Represents h p f →
      f.chain.length ≤ k → pushSiblings h k p st = some (f.chain.reverse ++ st) := by
  intro f
  induction f with
  | nil =>
    intro p k st hp _
    unfold Represents at hp
    subst hp
    cases k <;> simp [pushSiblings, Forest.chain]
  | node a sub next _ ih =>
    intro p k st hp hk
    unfold Represents at hp
    obtain ⟨rfl, hp⟩ := hp
    cases hx : h[a]? with
    | none => simp [hx] at hp
    | some e =>
      simp only [hx] at hp
      cases k with
      | zero => simp [Forest.chain] at hk
      | succ k =>
        simp only [Forest.chain, List.length_cons, Nat.add_le_add_iff_right] at hk
        simp only [pushSiblings, hx, StackPush, Forest.chain, List.reverse_cons, List.append_assoc,
          List.singleton_append]
        exact ih k (a :: st) hp.2.2 hk

theorem Forest.mem_addrs_of_suffix {f' : Forest} {a : Nat} :
    ∀ {f : Forest}, f' ∈ f.suffixes → a ∈ f'.addrs → a ∈ f.addrs := by
  intro f
  induction f with
  | nil => intro hf; simp [Forest.suffixes] at hf
  | node b sub next _ ih =>
    intro hf ha
    simp only [Forest.suffixes, List.mem_cons] at hf
    rcases hf with rfl | hf
    · exact ha
    · simp only [Forest.addrs, List.mem_cons, List.mem_append]
      exact Or.inr (Or.inr (ih hf ha))

theorem Forest.exists_suffix_of_mem {a : Nat} {f : Forest} (ha : a ∈ f.addrs) :
    ∃ f' ∈ f.suffixes, a ∈ f'.addrs := by
  cases f with
  | nil => simp [Forest.addrs] at ha
  | node b sub next => exact ⟨_, by simp [Forest.suffixes], ha⟩

theorem stackCost_append (xs ys : List Forest) :
    stackCost (xs ++ ys) = stackCost xs + stackCost ys := by
  simp [stackCost]

theorem stackCost_reverse (xs : List Forest) : stackCost xs.reverse = stackCost xs := by
  simp [stackCost, List.map_reverse, List.sum_reverse]

theorem StackRep.push {h : HelperHeap} {f : Forest} {p : Option Nat} {st : STACK}
    {gs : List Forest} (hp : Represents h p f) (hst : StackRep h st gs) :
    StackRep h (f.chain.reverse ++ st) (f.suffixes.reverse ++ gs) :=
  List.rel_append (List.rel_reverse hp.chain_suffixes) hst

theorem FindHelperLoop_spec {h : HelperHeap} {g : GUID} :
    ∀ (k : Nat) (st : STACK) (gs : List Forest), StackRep h st gs → stackCost gs < k →
      ∃ r, FindHelperLoop h g k st = some r ∧
        (∀ p, r = some p → (∃ f ∈ gs, p ∈ f.addrs) ∧ guidAt h p = some g) ∧
        (r = none → ∀ f ∈ gs, ∀ a ∈ f.addrs, guidAt h a ≠ some g) := by
  intro k
  induction k with
  | zero => intro st gs _ hk; omega
  | succ k ih =>
    intro st gs hst hk
    cases hst with
    | nil => exact ⟨none, by simp [FindHelperLoop, StackPop], by simp, by simp⟩
    | @cons p f st' gs' hp hst' =>
      cases f with
      | nil => simp [Represents] at hp
      | node a sub next =>
        unfold Represents at hp
        obtain ⟨hpa, hp⟩ := hp
        have hpa' : a = p := (Option.some.inj hpa).symm
        subst hpa'
        cases hx : h[a]? with
        | none => simp [hx] at hp
        | some e =>
          simp only [hx] at hp
          obtain ⟨_, hsub, hnext⟩ := hp
          simp only [stackCost, List.map_cons, List.sum_cons, Forest.cost] at hk
          have hws := sub.length_chain_le_weight
          have hwn := next.length_chain_le_weight
          by_cases hg : e.Attributes.guidHelper = g
          · refine ⟨some a, by simp [FindHelperLoop, StackPop, hx, hg], ?_, by simp⟩
            intro p hp
            cases hp
            exact ⟨⟨_, List.mem_cons_self _ _, by simp [Forest.addrs]⟩, by simp [guidAt, hx, hg]⟩
          · have hrep := StackRep.push hnext (StackRep.push hsub hst')
            have hcost : stackCost (next.suffixes.reverse ++ (sub.suffixes.reverse ++ gs')) < k := by
              simp only [stackCost_append, stackCost_reverse, Forest.sum_cost_suffixes]
              simp only [stackCost]
              omega
            obtain ⟨r, hr, hsome, hnone⟩ := ih _ _ hrep hcost
            refine ⟨r, ?_, ?_, ?_⟩
            · simp only [FindHelperLoop, StackPop, hx, hg, if_false]
              rw [pushSiblings_eq k st' hsub (by omega)]
              simp only
              rw [pushSiblings_eq k _ hnext (by omega)]
              exact hr
            · intro p hp
              obtain ⟨⟨f, hf, hpf⟩, hgp⟩ := hsome p hp
              refine ⟨?_, hgp⟩
              simp only [List.mem_append, List.mem_reverse] at hf
              rcases hf with hf | hf | hf
              · exact ⟨_, List.mem_cons_self _ _, by
                  simp only [Forest.addrs, List.mem_cons, List.mem_append]
                  exact Or.inr (Or.inr (Forest.mem_addrs_of_suffix hf hpf))⟩
              · exact ⟨_, List.mem_cons_self _ _, by
                  simp only [Forest.addrs, List.mem_cons, List.mem_append]
                  exact Or.inr (Or.inl (Forest.mem_addrs_of_suffix hf hpf))⟩
              · exact ⟨f, List.mem_cons_of_mem _ hf, hpf⟩
            · intro hrn f hf b hb
              have hall := hnone hrn
              simp only [List.mem_cons] at hf
              rcases hf with rfl | hf
              · simp only [Forest.addrs, List.mem_cons, List.mem_append] at hb
                rcases hb with rfl | hb | hb
                · simp [guidAt, hx, hg]
                · obtain ⟨f', hf', hbf'⟩ := Forest.exists_suffix_of_mem hb
                  exact hall f' (by simp [hf']) b hbf'
                · obtain ⟨f', hf', hbf'⟩ := Forest.exists_suffix_of_mem hb
                  exact hall f' (by simp [hf']) b hbf'
              · exact hall f (by simp [hf]) b hb

theorem Represents.lt_length {h : HelperHeap} :
    ∀ {f : Forest} {p : Option Nat}, Represents h p f → ∀ a ∈ f.addrs, a < h.length := by
  intro f
  induction f with
  | nil => intro p _ a ha; simp [Forest.addrs] at ha
  | node b sub next ih1 ih2 =>
    intro p hp a ha
    unfold Represents at hp
    obtain ⟨_, hp⟩ := hp
    cases hx : h[b]? with
    | none => simp [hx] at hp
    | some e =>
      simp only [hx] at hp
      simp only [Forest.addrs, List.mem_cons, List.mem_append] at ha
      rcases ha with rfl | ha | ha
      · exact (List.getElem?_eq_some.mp hx).1
      · exact ih1 hp.2.1 a ha
      · exact ih2 hp.2.2 a ha

theorem length_le_of_nodup_lt {l : List Nat} {n : Nat} (hnd : l.Nodup) (hlt : ∀ a ∈ l, a < n) :
    l.length ≤ n := by
  have hsub : l ⊆ List.range n := fun a ha => List.mem_range.mpr (hlt a ha)
  simpa using (hnd.subperm hsub).length_le

theorem Represents.nil_of_none {h : HelperHeap} {f : Forest} (hp : Represents h none f) :
    f = .nil := by
  cases f with
  | nil => rfl
  | node a sub next => simp [Represents] at hp

theorem HelperWF.cost_lt_fuel {s : State} {f : Forest} (hwf : HelperWF s f) :
    f.cost < traversalFuel s.helperHeap := by
  have h1 := f.cost_le_weight
  have h2 := f.weight_lt_two_pow
  have h3 : f.size ≤ s.helperHeap.length := by
    rw [← Forest.length_addrs]
    exact length_le_of_nodup_lt hwf.nodup hwf.repr.lt_length
  have h4 : 2 ^ f.size ≤ 2 ^ s.helperHeap.length := Nat.pow_le_pow_right (by decide) h3
  unfold traversalFuel
  omega

theorem FindHelper_spec {s : State} {f : Forest} (hwf : HelperWF s f) (g : GUID) :
    ∃ r, FindHelper s (some g) = some r ∧
      (∀ p, r = some p → p ∈ f.addrs ∧ guidAt s.helperHeap p = some g) ∧
      (r = none → ∀ a ∈ f.addrs, guidAt s.helperHeap a ≠ some g) := by
  cases hh : s.pHelperListHead with
  | none =>
    have hr := hwf.repr
    rw [hh] at hr
    have hf := hr.nil_of_none
    subst hf
    exact ⟨none, by simp [FindHelper, hh], by simp, by simp [Forest.addrs]⟩
  | some p =>
    have hr := hwf.repr
    rw [hh] at hr
    have hst : StackRep s.helperHeap [p] [f] := List.Forall₂.cons hr List.Forall₂.nil
    have hc : stackCost [f] < traversalFuel s.helperHeap := by
      simpa [stackCost] using hwf.cost_lt_fuel
    obtain ⟨r, hr1, hr2, hr3⟩ := FindHelperLoop_spec (g := g) _ _ _ hst hc
    refine ⟨r, by simpa [FindHelper, hh, StackPush, CreateStack] using hr1, ?_, ?_⟩
    · intro q hq
      obtain ⟨⟨f', hf', hqf⟩, hgq⟩ := hr2 q hq
      simp only [List.mem_singleton] at hf'
      subst hf'
      exact ⟨hqf, hgq⟩
    · intro hn a ha
      exact hr3 hn f (by simp) a ha

/-- C1: on a well-formed forest `FindHelper(g)` returns a helper of the forest whose
identity is `g` whenever some helper of the forest (root or descendant) has identity
`g`, it returns `NULL` exactly when no helper of the forest has identity `g`, and on
the empty registry it returns `NULL` for every identity. -/
theorem FindHelper_finds_iff_present (s : State) (f : Forest) (g : GUID)
    (hwf : HelperWF s f) :
    ((∃ a ∈ f.addrs, guidAt s.helperHeap a = some g) →
        ∃ p, FindHelper s (some g) = some (some p) ∧ p ∈ f.addrs ∧
          guidAt s.helperHeap p = some g) ∧
      (FindHelper s (some g) = some none ↔
        ∀ a ∈ f.addrs, guidAt s.helperHeap a ≠ some g) ∧
      (∀ g', FindHelper State.init (some g') = some none) := by
  obtain ⟨r, hr1, hr2, hr3⟩ := FindHelper_spec hwf g
  refine ⟨?_, ?_, ?_⟩
  · rintro ⟨a, ha, hga⟩
    cases r with
    | none => exact absurd hga (hr3 rfl a ha)
    | some p => exact ⟨p, hr1, hr2 p rfl⟩
  · constructor
    · intro hn
      rw [hr1] at hn
      cases r with
      | none => exact hr3 rfl
      | some p => simp at hn
    · intro hall
      cases r with
      | none => exact hr1
      | some p => exact absurd (hr2 p rfl).2 (hall p (hr2 p rfl).1)
  · intro g'
    rfl

theorem HelperHeap.getElem?_upd (h : HelperHeap) (a : Nat) (f : HELPER_ENTRY → HELPER_ENTRY)
    (b : Nat) : (h.upd a f)[b]? = if a = b then (h[b]?).map f else h[b]? := by
  unfold HelperHeap.upd
  cases hx : h[a]? with
  | none =>
    by_cases hab : a = b
    · subst hab; simp [hx]
    · simp [hab]
  | some e =>
    by_cases hab : a = b
    · subst hab; simp [hx, List.getElem?_set]
      exact (List.getElem?_eq_some.mp hx).1
    · simp [hab, List.getElem?_set]

theorem HelperHeap.length_upd (h : HelperHeap) (a : Nat) (f : HELPER_ENTRY → HELPER_ENTRY) :
    (h.upd a f).length = h.length := by
  unfold HelperHeap.upd
  cases h[a]? <;> simp

theorem Represents.unfold_node {h : HelperHeap} {p : Option Nat} {a : Nat} {sub next : Forest} :
    Represents h p (.node a sub next) ↔
      p = some a ∧ ∃ e, h[a]? = some e ∧ e.pSubHelperTail = sub.lastAddr ∧
        Represents h e.pSubHelperHead sub ∧ Represents h e.pNext next := by
  rw [Represents]
  cases hx : h[a]? with
  | none => simp
  | some e => simp

/-- A heap and a head pointer determine the shape they represent. -/
theorem Represents.unique {h : HelperHeap} :
    ∀ {f f' : Forest} {p : Option Nat}, Represents h p f → Represents h p f' → f = f' := by
  intro f
  induction f with
  | nil =>
    intro f' p hp hp'
    have : p = none := hp
    subst this
    exact hp'.nil_of_none.symm
  | node a sub next ih1 ih2 =>
    intro f' p hp hp'
    rw [Represents.unfold_node] at hp
    obtain ⟨hpa, e, hx, -, hsub, hnext⟩ := hp
    subst hpa
    cases f' with
    | nil => simp [Represents] at hp'
    | node a' sub' next' =>
      rw [Represents.unfold_node] at hp'
      obtain ⟨hpa', e', hx', -, hsub', hnext'⟩ := hp'
      have haa : a = a' := Option.some.inj hpa'
      subst haa
      rw [hx] at hx'
      cases hx'
      rw [ih1 hsub hsub', ih2 hnext hnext']

/-- The shape of a chain only depends on the link fields of its own entries. -/
theorem Represents.frame {h h' : HelperHeap} :
    ∀ {f : Forest} {p : Option Nat}, Represents h p f →
      (∀ a ∈ f.addrs, (h'[a]?).map HELPER_ENTRY.links = (h[a]?).map HELPER_ENTRY.links) →
      Represents h' p f := by
  intro f
  induction f with
  | nil => intro p hp _; exact hp
  | node b sub next ih1 ih2 =>
    intro p hp hfr
    rw [Represents.unfold_node] at hp ⊢
    obtain ⟨hpb, e, hx, htail, hsub, hnext⟩ := hp
    have hb := hfr b (by simp [Forest.addrs])
    rw [hx] at hb
    cases hx' : h'[b]? with
    | none => simp [hx'] at hb
    | some e' =>
      simp only [hx', Option.map_some', Option.some.injEq, HELPER_ENTRY.links, Prod.mk.injEq] at hb
      obtain ⟨h1, h2, h3⟩ := hb
      refine ⟨hpb, e', rfl, by rw [h3]; exact htail, ?_, ?_⟩
      · rw [h2]
        exact ih1 hsub fun a ha => hfr a (by simp [Forest.addrs, ha])
      · rw [h1]
        exact ih2 hnext fun a ha => hfr a (by simp [Forest.addrs, ha])

theorem Forest.lastAddr_mem : ∀ {f : Forest} {t : Nat}, f.lastAddr = some t → t ∈ f.chain := by
  intro f
  induction f with
  | nil => intro t ht; simp [Forest.lastAddr] at ht
  | node a sub next _ ih =>
    intro t ht
    cases next with
    | nil => simp [Forest.lastAddr] at ht; simp [Forest.chain, ht]
    | node b sub' next' =>
      simp only [Forest.lastAddr] at ht
      rw [Forest.chain, List.mem_cons]
      right
      exact ih ht

theorem Forest.chain_subset_addrs : ∀ {f : Forest} {a : Nat}, a ∈ f.chain → a ∈ f.addrs := by
  intro f
  induction f with
  | nil => intro a ha; simp [Forest.chain] at ha
  | node b sub next _ ih =>
    intro a ha
    simp only [Forest.chain, List.mem_cons] at ha
    simp only [Forest.addrs, List.mem_cons, List.mem_append]
    rcases ha with rfl | ha
    · exact Or.inl rfl
    · exact Or.inr (Or.inr (ih ha))

theorem Forest.lastAddr_eq_none {f : Forest} : f.lastAddr = none ↔ f = .nil := by
  induction f with
  | nil => simp [Forest.lastAddr]
  | node a sub next _ ih =>
    cases next with
    | nil => simp [Forest.lastAddr]
    | node b sub' next' => simp [Forest.lastAddr] at ih ⊢; exact ih

theorem Forest.lastAddr_snoc (n : Nat) (f : Forest) : (f.snoc n).lastAddr = some n := by
  induction f with
  | nil => rfl
  | node a sub next _ ih =>
    cases next with
    | nil => simp [Forest.snoc, Forest.lastAddr]
    | node b sub' next' =>
      simp only [Forest.snoc, Forest.lastAddr] at ih ⊢
      exact ih

theorem Forest.chain_snoc (n : Nat) (f : Forest) : (f.snoc n).chain = f.chain ++ [n] := by
  induction f with
  | nil => rfl
  | node a sub next _ ih => simp [Forest.snoc, Forest.chain, ih]

theorem Forest.addrs_snoc (n : Nat) (f : Forest) : (f.snoc n).addrs = f.addrs ++ [n] := by
  induction f with
  | nil => rfl
  | node a sub next _ ih => simp [Forest.snoc, Forest.addrs, ih]


theorem Represents.tail_mem {h : HelperHeap} {P t : Nat} {eP : HELPER_ENTRY}
    (hP : h[P]? = some eP) (ht : eP.pSubHelperTail = some t) :
    ∀ {g : Forest} {q : Option Nat}, Represents h q g → P ∈ g.addrs → t ∈ g.addrs := by
  intro g
  induction g with
  | nil => intro q _ hPg; simp [Forest.addrs] at hPg
  | node a sub next ih1 ih2 =>
    intro q hq hPg
    rw [Represents.unfold_node] at hq
    obtain ⟨_, e, hx, htail, hsub, hnext⟩ := hq
    simp only [Forest.addrs, List.mem_cons, List.mem_append] at hPg ⊢
    rcases hPg with rfl | hPg | hPg
    · rw [hP] at hx
      cases hx
      rw [ht] at htail
      exact Or.inr (Or.inl (Forest.chain_subset_addrs (Forest.lastAddr_mem htail.symm)))
    · exact Or.inr (Or.inl (ih1 hsub hPg))
    · exact Or.inr (Or.inr (ih2 hnext hPg))

theorem Represents.single {h' : HelperHeap} {n : Nat}
    (hn : (h'[n]?).map HELPER_ENTRY.links = some (none, none, none)) :
    Represents h' (some n) (.node n .nil .nil) := by
  rw [Represents.unfold_node]
  cases hx : h'[n]? with
  | none => simp [hx] at hn
  | some en =>
    simp only [hx, Option.map_some', Option.some.injEq, HELPER_ENTRY.links, Prod.mk.injEq] at hn
    refine ⟨rfl, en, rfl, ?_, ?_, ?_⟩
    · simp [hn.2.2, Forest.lastAddr]
    · rw [hn.2.1]; rfl
    · rw [hn.1]; rfl

theorem Represents.snoc {h h' : HelperHeap} {n : Nat}
    (hn : (h'[n]?).map HELPER_ENTRY.links = some (none, none, none)) :
    ∀ {c : Forest} {pc : Option Nat}, Represents h pc c → c ≠ .nil → c.addrs.Nodup →
      (∀ t, c.lastAddr = some t → (h'[t]?).map HELPER_ENTRY.links =
        (h[t]?).map fun e => (some n, e.pSubHelperHead, e.pSubHelperTail)) →
      (∀ a ∈ c.addrs, c.lastAddr ≠ some a →
        (h'[a]?).map HELPER_ENTRY.links = (h[a]?).map HELPER_ENTRY.links) →
      Represents h' pc (c.snoc n) := by
  intro c
  induction c with
  | nil => intro pc _ hne; exact absurd rfl hne
  | node a sub next _ ih =>
    intro pc hp _ hnd hlast hfr
    rw [Represents.unfold_node] at hp
    obtain ⟨hpa, e, hx, htail, hsub, hnext⟩ := hp
    simp only [Forest.addrs, List.nodup_cons, List.mem_append, not_or, List.nodup_append] at hnd
    obtain ⟨⟨hasub, hanext⟩, hndsub, hndnext, hdisj⟩ := hnd
    simp only [Forest.snoc]
    rw [Represents.unfold_node]
    cases next with
    | nil =>
      have hl := hlast a (by simp [Forest.lastAddr])
      rw [hx] at hl
      cases hx' : h'[a]? with
      | none => simp [hx'] at hl
      | some e' =>
        simp only [hx', Option.map_some', Option.some.injEq, HELPER_ENTRY.links,
          Prod.mk.injEq] at hl
        refine ⟨hpa, e', rfl, by rw [hl.2.2]; exact htail, ?_, ?_⟩
        · rw [hl.2.1]
          refine hsub.frame fun b hb => hfr b (by simp [Forest.addrs, hb]) ?_
          simp only [Forest.lastAddr, ne_eq, Option.some.injEq]
          rintro rfl
          exact hasub hb
        · rw [hl.1]
          exact Represents.single hn
    | node b sub' next' =>
      have hane : (Forest.node a sub (.node b sub' next')).lastAddr ≠ some a := by
        intro hc
        simp only [Forest.lastAddr] at hc
        exact hanext (Forest.chain_subset_addrs (Forest.lastAddr_mem hc))
      have hl := hfr a (by simp [Forest.addrs]) hane
      rw [hx] at hl
      cases hx' : h'[a]? with
      | none => simp [hx'] at hl
      | some e' =>
        simp only [hx', Option.map_some', Option.some.injEq, HELPER_ENTRY.links,
          Prod.mk.injEq] at hl
        refine ⟨hpa, e', rfl, by rw [hl.2.2]; exact htail, ?_, ?_⟩
        · rw [hl.2.1]
          refine hsub.frame fun c hc => hfr c (by simp [Forest.addrs, hc]) ?_
          intro hcl
          simp only [Forest.lastAddr] at hcl
          exact hdisj hc (Forest.chain_subset_addrs (Forest.lastAddr_mem hcl))
        · rw [hl.1]
          refine ih hnext (by simp) hndnext ?_ ?_
          · intro t ht
            exact hlast t (by simpa [Forest.lastAddr] using ht)
          · intro c hc hcl
            exact hfr c (by simp [Forest.addrs] at hc ⊢; tauto) (by simpa [Forest.lastAddr] using hcl)


theorem Forest.lastAddr_node (a : Nat) (sub next : Forest) :
    (Forest.node a sub next).lastAddr = some (next.lastAddr.getD a) := by
  induction next generalizing a sub with
  | nil => rfl
  | node b sub' next' _ ih =>
    rw [Forest.lastAddr, ih]
    · simp
    · simp

theorem Forest.lastAddr_addChild (P n : Nat) (f : Forest) :
    (f.addChild P n).lastAddr = f.lastAddr := by
  induction f with
  | nil => rfl
  | node a sub next _ ih =>
    by_cases haP : a = P
    · simp [Forest.addChild, haP, Forest.lastAddr_node]
    · simp [Forest.addChild, haP, Forest.lastAddr_node, ih]

theorem Represents.addChild {h h' : HelperHeap} {P n : Nat} {eP : HELPER_ENTRY}
    (hP : h[P]? = some eP)
    (hn : (h'[n]?).map HELPER_ENTRY.links = some (none, none, none))
    (hP' : (h'[P]?).map HELPER_ENTRY.links =
      some (eP.pNext, (if eP.pSubHelperHead = none then some n else eP.pSubHelperHead), some n))
    (ht : ∀ t, eP.pSubHelperTail = some t → (h'[t]?).map HELPER_ENTRY.links =
      (h[t]?).map fun e => (some n, e.pSubHelperHead, e.pSubHelperTail))
    (hfr : ∀ a, a ≠ P → a ≠ n → eP.pSubHelperTail ≠ some a →
      (h'[a]?).map HELPER_ENTRY.links = (h[a]?).map HELPER_ENTRY.links) :
    ∀ {f : Forest} {p : Option Nat}, Represents h p f → f.addrs.Nodup → n ∉ f.addrs →
      (∀ t, eP.pSubHelperTail = some t → t ∈ f.addrs → P ∈ f.addrs) →
      Represents h' p (f.addChild P n) := by
  intro f
  induction f with
  | nil => intro p hp _ _ _; exact hp
  | node a sub next ih1 ih2 =>
    intro p hp hnd hnf htP
    have hp0 := hp
    rw [Represents.unfold_node] at hp
    obtain ⟨hpa, e, hx, htail, hsub, hnext⟩ := hp
    simp only [Forest.addrs, List.nodup_cons, List.mem_append, not_or, List.nodup_append] at hnd
    obtain ⟨⟨hasub, hanext⟩, hndsub, hndnext, hdisj⟩ := hnd
    simp only [Forest.addrs, List.mem_cons, List.mem_append, not_or] at hnf
    obtain ⟨hna, hnsub, hnnext⟩ := hnf
    by_cases haP : a = P
    · subst haP
      rw [hP] at hx
      cases hx
      simp only [Forest.addChild, if_true]
      rw [Represents.unfold_node]
      cases hx' : h'[a]? with
      | none => simp [hx'] at hP'
      | some e' =>
        simp only [hx', Option.map_some', Option.some.injEq, HELPER_ENTRY.links,
          Prod.mk.injEq] at hP'
        refine ⟨hpa, e', rfl, by rw [hP'.2.2, Forest.lastAddr_snoc], ?_, ?_⟩
        · rw [hP'.2.1]
          cases sub with
          | nil =>
            have : eP.pSubHelperHead = none := hsub
            simp only [this, if_true, Forest.snoc]
            exact Represents.single hn
          | node b sub' next' =>
            have hb : eP.pSubHelperHead = some b := by
              rw [Represents.unfold_node] at hsub
              exact hsub.1
            have hne : eP.pSubHelperHead ≠ none := by rw [hb]; simp
            rw [if_neg hne]
            refine Represents.snoc hn hsub (by simp) hndsub ?_ ?_
            · intro t ht'
              exact ht t (by rw [htail, ht'])
            · intro c hc hcl
              refine hfr c ?_ ?_ (by rw [htail]; exact hcl)
              · rintro rfl; exact hasub hc
              · rintro rfl; exact hnsub hc
        · rw [hP'.1]
          refine hnext.frame fun c hc => hfr c ?_ ?_ ?_
          · rintro rfl; exact hanext hc
          · rintro rfl; exact hnnext hc
          · intro hcl
            rw [htail] at hcl
            exact hdisj (Forest.chain_subset_addrs (Forest.lastAddr_mem hcl)) hc
    · simp only [Forest.addChild, haP, if_false]
      rw [Represents.unfold_node]
      -- the tail of `P` is not `a`, and lies on the same side as `P`
      have hside : ∀ t, eP.pSubHelperTail = some t →
          (t ∈ sub.addrs → P ∈ sub.addrs) ∧ (t ∈ next.addrs → P ∈ next.addrs) ∧ t ≠ a := by
        intro t htt
        have hin : t ∈ (Forest.node a sub next).addrs → P ∈ sub.addrs ∨ P ∈ next.addrs := by
          intro htin
          have := htP t htt htin
          simp only [Forest.addrs, List.mem_cons, List.mem_append] at this
          rcases this with h1 | h1
          · exact absurd h1.symm haP
          · exact h1
        refine ⟨?_, ?_, ?_⟩
        · intro hts
          rcases hin (by simp [Forest.addrs, hts]) with h1 | h1
          · exact h1
          · exact absurd (Represents.tail_mem hP htt hnext h1) (fun h2 => hdisj hts h2)
        · intro htn
          rcases hin (by simp [Forest.addrs, htn]) with h1 | h1
          · exact absurd htn (fun h2 => hdisj (Represents.tail_mem hP htt hsub h1) h2)
          · exact h1
        · rintro rfl
          rcases hin (by simp [Forest.addrs]) with h1 | h1
          · exact hasub (Represents.tail_mem hP htt hsub h1)
          · exact hanext (Represents.tail_mem hP htt hnext h1)
      have hl := hfr a haP (fun hc => hna hc.symm) (fun hc => (hside a hc).2.2 rfl)
      rw [hx] at hl
      cases hx' : h'[a]? with
      | none => simp [hx'] at hl
      | some e' =>
        simp only [hx', Option.map_some', Option.some.injEq, HELPER_ENTRY.links,
          Prod.mk.injEq] at hl
        refine ⟨hpa, e', rfl, by rw [hl.2.2, Forest.lastAddr_addChild]; exact htail, ?_, ?_⟩
        · rw [hl.2.1]
          exact ih1 hsub hndsub hnsub fun t htt hts => (hside t htt).1 hts
        · rw [hl.1]
          exact ih2 hnext hndnext hnnext fun t htt htn => (hside t htt).2.1 htn


theorem Forest.mem_addrs_addChild {P n a : Nat} (f : Forest) :
    a ∈ (f.addChild P n).addrs ↔ a ∈ f.addrs ∨ (a = n ∧ P ∈ f.addrs) := by
  induction f with
  | nil => simp [Forest.addChild, Forest.addrs]
  | node b sub next ih1 ih2 =>
    by_cases hbP : b = P
    · subst hbP
      simp only [Forest.addChild, if_true, Forest.addrs, Forest.addrs_snoc, List.mem_cons,
        List.mem_append, List.mem_singleton, true_or, and_true]
      tauto
    · simp only [Forest.addChild, hbP, if_false, Forest.addrs, List.mem_cons, List.mem_append,
        ih1, ih2]
      have : ¬ P = b := fun h => hbP h.symm
      simp only [this, false_or]
      tauto

theorem Forest.nodup_addChild {P n : Nat} :
    ∀ (f : Forest), f.addrs.Nodup → n ∉ f.addrs → (f.addChild P n).addrs.Nodup := by
  intro f
  induction f with
  | nil => intro h _; exact h
  | node b sub next ih1 ih2 =>
    intro hnd hn
    simp only [Forest.addrs, List.nodup_cons, List.mem_append, not_or, List.nodup_append] at hnd
    obtain ⟨⟨hbsub, hbnext⟩, hndsub, hndnext, hdisj⟩ := hnd
    simp only [Forest.addrs, List.mem_cons, List.mem_append, not_or] at hn
    obtain ⟨hnb, hnsub, hnnext⟩ := hn
    by_cases hbP : b = P
    · subst hbP
      simp only [Forest.addChild, if_true, Forest.addrs, Forest.addrs_snoc]
      rw [List.nodup_cons, List.nodup_append, List.nodup_append]
      refine ⟨?_, ⟨hndsub, List.nodup_singleton n, ?_⟩, hndnext, ?_⟩
      · simp only [List.mem_append, List.mem_singleton, not_or]
        exact ⟨⟨hbsub, fun h => hnb h.symm⟩, hbnext⟩
      · intro c hc hcn
        simp only [List.mem_singleton] at hcn
        subst hcn
        exact hnsub hc
      · intro c hc hcn
        simp only [List.mem_append, List.mem_singleton] at hc
        rcases hc with hc | rfl
        · exact hdisj hc hcn
        · exact hnnext hcn
    · simp only [Forest.addChild, hbP, if_false, Forest.addrs]
      rw [List.nodup_cons, List.nodup_append]
      refine ⟨?_, ih1 hndsub hnsub, ih2 hndnext hnnext, ?_⟩
      · rw [List.mem_append, Forest.mem_addrs_addChild, Forest.mem_addrs_addChild]
        rintro ((h | ⟨h, _⟩) | (h | ⟨h, _⟩))
        · exact hbsub h
        · exact hnb h.symm
        · exact hbnext h
        · exact hnb h.symm
      · intro c hc1 hc2
        rw [Forest.mem_addrs_addChild] at hc1 hc2
        rcases hc1 with h1 | ⟨h1, hP1⟩ <;> rcases hc2 with h2 | ⟨h2, hP2⟩
        · exact hdisj h1 h2
        · subst h2; exact hnsub h1
        · subst h1; exact hnnext h2
        · exact hdisj hP1 hP2

theorem Forest.chain_addChild (P n : Nat) (f : Forest) : (f.addChild P n).chain = f.chain := by
  induction f with
  | nil => rfl
  | node a sub next _ ih =>
    by_cases haP : a = P
    · simp [Forest.addChild, haP, Forest.chain]
    · simp [Forest.addChild, haP, Forest.chain, ih]

theorem Forest.childrenOf_eq_none {q : Nat} (f : Forest) :
    f.childrenOf q = none ↔ q ∉ f.addrs := by
  induction f with
  | nil => simp [Forest.childrenOf, Forest.addrs]
  | node a sub next ih1 ih2 =>
    by_cases haq : a = q
    · simp [Forest.childrenOf, haq, Forest.addrs]
    · have : ¬ q = a := fun h => haq h.symm
      simp only [Forest.childrenOf, haq, if_false, Forest.addrs, List.mem_cons, List.mem_append,
        this, false_or, not_or, ← ih1, ← ih2]
      cases h1 : sub.childrenOf q <;> simp

theorem Forest.childrenOf_addChild_self {P n : Nat} :
    ∀ (f : Forest), f.addrs.Nodup →
      (f.addChild P n).childrenOf P = (f.childrenOf P).map fun l => l ++ [n] := by
  intro f
  induction f with
  | nil => intro _; rfl
  | node a sub next ih1 ih2 =>
    intro hnd
    simp only [Forest.addrs, List.nodup_cons, List.mem_append, not_or, List.nodup_append] at hnd
    obtain ⟨⟨hasub, hanext⟩, hndsub, hndnext, hdisj⟩ := hnd
    by_cases haP : a = P
    · simp [Forest.addChild, haP, Forest.childrenOf, Forest.chain_snoc]
    · simp only [Forest.addChild, haP, if_false, Forest.childrenOf, ih1 hndsub, ih2 hndnext]
      cases h1 : sub.childrenOf P <;> simp

theorem Forest.childrenOf_snoc_of_ne {n q : Nat} (hqn : q ≠ n) (f : Forest) :
    (f.snoc n).childrenOf q = f.childrenOf q := by
  induction f with
  | nil =>
    have : ¬ n = q := fun h => hqn h.symm
    simp [Forest.snoc, Forest.childrenOf, this]
  | node a sub next _ ih => simp only [Forest.snoc, Forest.childrenOf, ih]

theorem Forest.childrenOf_addChild_of_ne {P n q : Nat} (hqP : q ≠ P) (hqn : q ≠ n) (f : Forest) :
    (f.addChild P n).childrenOf q = f.childrenOf q := by
  induction f with
  | nil => rfl
  | node a sub next ih1 ih2 =>
    by_cases haP : a = P
    · subst haP
      have : ¬ a = q := fun h => hqP h.symm
      simp only [Forest.addChild, if_true, Forest.childrenOf, this, if_false,
        Forest.childrenOf_snoc_of_ne hqn]
    · simp only [Forest.addChild, haP, if_false, Forest.childrenOf, ih1, ih2,
        Forest.chain_addChild]

theorem pushSiblings_agree {h h' : HelperHeap} (hag : HeapAgree h h') :
    ∀ (k k' : Nat) (p : Option Nat) (st r : STACK), pushSiblings h k p st = some r → k ≤ k' →
      pushSiblings h' k' p st = some r := by
  intro k
  induction k with
  | zero =>
    intro k' p st r hr _
    cases p with
    | none =>
      simp only [pushSiblings] at hr
      cases k' <;> simpa [pushSiblings] using hr
    | some p => simp [pushSiblings] at hr
  | succ k ih =>
    intro k' p st r hr hk
    cases p with
    | none =>
      simp only [pushSiblings] at hr
      cases k' <;> simpa [pushSiblings] using hr
    | some p =>
      cases k' with
      | zero => omega
      | succ k' =>
        simp only [pushSiblings] at hr ⊢
        cases hx : h[p]? with
        | none => simp [hx] at hr
        | some e =>
          obtain ⟨e', hx', hn, _, _⟩ := hag p e hx
          simp only [hx] at hr
          simp only [hx', hn]
          exact ih k' _ _ _ hr (by omega)

theorem FindHelperLoop_agree {h h' : HelperHeap} (hag : HeapAgree h h') (g : GUID) :
    ∀ (k k' : Nat) (st : STACK) (r : Option Nat), FindHelperLoop h g k st = some r → k ≤ k' →
      FindHelperLoop h' g k' st = some r := by
  intro k
  induction k with
  | zero => intro k' st r hr _; simp [FindHelperLoop] at hr
  | succ k ih =>
    intro k' st r hr hk
    cases k' with
    | zero => omega
    | succ k' =>
      cases st with
      | nil => simpa [FindHelperLoop, StackPop] using hr
      | cons p st =>
        simp only [FindHelperLoop, StackPop] at hr ⊢
        cases hx : h[p]? with
        | none => simp [hx] at hr
        | some e =>
          obtain ⟨e', hx', hn, hs, hgd⟩ := hag p e hx
          simp only [hx] at hr
          simp only [hx', hn, hs, hgd]
          by_cases hg : e.Attributes.guidHelper = g
          · simpa [hg] using hr
          · simp only [hg, if_false] at hr ⊢
            cases h1 : pushSiblings h k e.pSubHelperHead st with
            | none => simp [h1] at hr
            | some st1 =>
              simp only [h1] at hr
              rw [pushSiblings_agree hag k k' _ _ _ h1 (by omega)]
              simp only
              cases h2 : pushSiblings h k e.pNext st1 with
              | none => simp [h2] at hr
              | some st2 =>
                simp only [h2] at hr
                rw [pushSiblings_agree hag k k' _ _ _ h2 (by omega)]
                exact ih k' _ _ hr (by omega)

theorem FindHelper_agree {s s' : State} {g : Option GUID} {r : Option Nat}
    (hr : FindHelper s g = some r) (hhead : s'.pHelperListHead = s.pHelperListHead)
    (hag : HeapAgree s.helperHeap s'.helperHeap)
    (hlen : s.helperHeap.length ≤ s'.helperHeap.length) : FindHelper s' g = some r := by
  unfold FindHelper at hr ⊢
  rw [hhead]
  cases hh : s.pHelperListHead with
  | none => simpa [hh] using hr
  | some p =>
    cases g with
    | none => simpa [hh] using hr
    | some g =>
      simp only [hh] at hr ⊢
      exact FindHelperLoop_agree hag g _ _ _ _ hr (Nat.pow_le_pow_right (by decide) hlen)


theorem Represents.head_eq_none {h : HelperHeap} {p : Option Nat} {f : Forest}
    (hp : Represents h p f) : p = none ↔ f = .nil := by
  cases f with
  | nil => simpa [Represents] using hp
  | node a sub next =>
    rw [Represents.unfold_node] at hp
    simp [hp.1]

theorem getElem?_lt_of_some {h : HelperHeap} {a : Nat} {e : HELPER_ENTRY}
    (hx : h[a]? = some e) : a < h.length := (List.getElem?_eq_some.mp hx).1

theorem HelperHeap.upd_concat (h : HelperHeap) (z : HELPER_ENTRY)
    (f : HELPER_ENTRY → HELPER_ENTRY) : HelperHeap.upd (h ++ [z]) h.length f = h ++ [f z] := by
  simp [HelperHeap.upd]

theorem HelperHeap.upd_concat_lt (h : HelperHeap) (z : HELPER_ENTRY)
    (f : HELPER_ENTRY → HELPER_ENTRY) {a : Nat} (ha : a < h.length) :
    HelperHeap.upd (h ++ [z]) a f = HelperHeap.upd h a f ++ [z] := by
  simp only [HelperHeap.upd, List.getElem?_append_left ha]
  cases hx : h[a]? with
  | none => rfl
  | some e => simp [List.set_append, ha]

theorem HelperHeap.getElem?_concat_length (h : HelperHeap) (z : HELPER_ENTRY) :
    (h ++ [z])[h.length]? = some z := by
  simp

theorem HelperHeap.getElem?_concat_length' (h : HelperHeap) (z : HELPER_ENTRY) {n : Nat}
    (hn : h.length = n) : (h ++ [z])[n]? = some z := by
  subst hn; simp

theorem HelperHeap.getElem?_concat_lt (h : HelperHeap) (z : HELPER_ENTRY) {a : Nat}
    (ha : a < h.length) : (h ++ [z])[a]? = h[a]? :=
  List.getElem?_append_left ha

theorem RegisterHelper_root {s : State} {f : Forest} (hwf : HelperWF s f)
    (desc : NS_HELPER_ATTRIBUTES) (hfree : FindHelper s (some desc.guidHelper) = some none) :
    ∃ s', RegisterHelper s none desc true = some (ERROR_SUCCESS, s') ∧
      HelperWF s' (.node s.helperHeap.length .nil f) ∧ Allocated s s' none desc := by
  have hlt := hwf.repr.lt_length
  cases hf : f with
  | nil =>
    subst hf
    have hh : s.pHelperListHead = none := (hwf.repr.head_eq_none).mpr rfl
    have ht : s.pHelperListTail = none := hwf.tail
    refine ⟨_, by simp [RegisterHelper, hfree, hh, ht, HelperHeap.upd_concat]; rfl, ?_, ?_⟩
    · refine ⟨?_, ?_, ?_⟩
      · simp only
        apply Represents.single
        simp [HELPER_ENTRY.links, HELPER_ENTRY.zero]
      · simp [Forest.lastAddr]
      · simp [Forest.addrs]
    · refine ⟨?_, ?_, ?_, ?_⟩
      · simp
      · simp [HELPER_ENTRY.zero]
      · intro a e hx
        have := getElem?_lt_of_some hx
        simp [List.getElem?_append_left this, hx]
      · simp
  | node b sub next =>
    subst hf
    have hrep := hwf.repr
    rw [Represents.unfold_node] at hrep
    obtain ⟨hh, eb, hxb, -, -, -⟩ := hrep
    have hbl := getElem?_lt_of_some hxb
    have ht : s.pHelperListTail ≠ none := by
      rw [hwf.tail, Forest.lastAddr_node]; simp
    refine ⟨_, by
      simp [RegisterHelper, hfree, hh, ht, HelperHeap.upd_concat, HelperHeap.upd_concat_lt, hbl,
        List.getElem?_append_left hbl, hxb]
      rfl, ?_, ?_⟩
    · refine ⟨?_, ?_, ?_⟩
      · simp only
        rw [Represents.unfold_node]
        refine ⟨rfl, _, HelperHeap.getElem?_concat_length' _ _ (by simp [HelperHeap.length_upd]), ?_, ?_, ?_⟩
        · simp [HELPER_ENTRY.zero, Forest.lastAddr]
        · simp [HELPER_ENTRY.zero, Represents]
        · simp only [HELPER_ENTRY.zero]
          rw [← hh]
          refine hwf.repr.frame fun a ha => ?_
          have hal := hlt a ha
          rw [List.getElem?_append_left (by simpa [HelperHeap.length_upd] using hal),
            HelperHeap.getElem?_upd]
          split
          · cases hxa : s.helperHeap[a]? <;> simp [HELPER_ENTRY.links]
          · rfl
      · simp only
        rw [hwf.tail, Forest.lastAddr_node _ _ (Forest.node b sub next), Forest.lastAddr_node b]
        simp
      · have hnd := hwf.nodup
        rw [Forest.addrs, Forest.addrs, List.nil_append, List.nodup_cons]
        exact ⟨fun hc => Nat.lt_irrefl _ (hlt _ hc), hnd⟩
    · refine ⟨?_, ?_, ?_, ?_⟩
      · simp [HelperHeap.length_upd]
      · refine ⟨_, HelperHeap.getElem?_concat_length' _ _ (by simp [HelperHeap.length_upd]), ?_⟩
        simp [HELPER_ENTRY.zero]
      · intro a e hx
        have hal := getElem?_lt_of_some hx
        simp only
        rw [List.getElem?_append_left (by simpa [HelperHeap.length_upd] using hal),
          HelperHeap.getElem?_upd, hx]
        split <;> simp
      · simp


theorem Represents.entry_of_mem {h : HelperHeap} {P : Nat} :
    ∀ {f : Forest} {p : Option Nat}, Represents h p f → f.addrs.Nodup → P ∈ f.addrs →
      ∃ (eP : HELPER_ENTRY) (c : Forest), h[P]? = some eP ∧
        Represents h eP.pSubHelperHead c ∧ eP.pSubHelperTail = c.lastAddr ∧
        P ∉ c.addrs ∧ ∀ a ∈ c.addrs, a ∈ f.addrs := by
  intro f
  induction f with
  | nil => intro p _ _ hP; simp [Forest.addrs] at hP
  | node a sub next ih1 ih2 =>
    intro p hp hnd hP
    rw [Represents.unfold_node] at hp
    obtain ⟨_, e, hx, htail, hsub, hnext⟩ := hp
    simp only [Forest.addrs, List.nodup_cons, List.mem_append, not_or, List.nodup_append] at hnd
    obtain ⟨⟨hasub, hanext⟩, hndsub, hndnext, hdisj⟩ := hnd
    simp only [Forest.addrs, List.mem_cons, List.mem_append] at hP
    rcases hP with rfl | hP | hP
    · exact ⟨e, sub, hx, hsub, htail, hasub, fun b hb => by simp [Forest.addrs, hb]⟩
    · obtain ⟨eP, c, h1, h2, h3, h4, h5⟩ := ih1 hsub hndsub hP
      exact ⟨eP, c, h1, h2, h3, h4, fun b hb => by simp [Forest.addrs, h5 b hb]⟩
    · obtain ⟨eP, c, h1, h2, h3, h4, h5⟩ := ih2 hnext hndnext hP
      exact ⟨eP, c, h1, h2, h3, h4, fun b hb => by simp [Forest.addrs, h5 b hb]⟩

theorem HeapAgree.concat (h : HelperHeap) (z : HELPER_ENTRY) : HeapAgree h (h ++ [z]) := by
  intro a e hx
  exact ⟨e, by rw [List.getElem?_append_left (getElem?_lt_of_some hx)]; exact hx, rfl, rfl, rfl⟩

theorem FindHelper_concat {s : State} {g : Option GUID} {r : Option Nat} (z : HELPER_ENTRY)
    (hr : FindHelper s g = some r) :
    FindHelper { s with helperHeap := s.helperHeap ++ [z] } g = some r :=
  FindHelper_agree hr rfl (HeapAgree.concat _ _) (by simp)

theorem RegisterHelper_orphan {s : State} {f : Forest} (hwf : HelperWF s f)
    (desc : NS_HELPER_ATTRIBUTES) (gp : GUID)
    (hfree : FindHelper s (some desc.guidHelper) = some none)
    (hpar : FindHelper s (some gp) = some none) :
    ∃ s', RegisterHelper s (some gp) desc true = some (ERROR_INVALID_PARAMETER, s') ∧
      HelperWF s' f ∧ Allocated s s' (some gp) desc := by
  have hlt := hwf.repr.lt_length
  refine ⟨_, by
    simp [RegisterHelper, hfree, HelperHeap.upd_concat, FindHelper_concat _ hpar]
    rfl, ?_, ?_⟩
  · refine ⟨?_, hwf.tail, hwf.nodup⟩
    refine hwf.repr.frame fun a ha => ?_
    simp only
    rw [List.getElem?_append_left (hlt a ha)]
  · refine ⟨?_, ?_, ?_, ?_⟩
    · simp
    · simp [HELPER_ENTRY.zero]
    · intro a e hx
      have := getElem?_lt_of_some hx
      simp [List.getElem?_append_left this, hx]
    · simp

theorem FindHelper_mem {s : State} {f : Forest} (hwf : HelperWF s f) {g : GUID} {P : Nat}
    (hP : FindHelper s (some g) = some (some P)) :
    P ∈ f.addrs ∧ guidAt s.helperHeap P = some g := by
  obtain ⟨r, hr1, hr2, _⟩ := FindHelper_spec hwf g
  rw [hP] at hr1
  cases hr1
  exact hr2 P rfl


theorem RegisterHelper_child {s : State} {f : Forest} (hwf : HelperWF s f)
    (desc : NS_HELPER_ATTRIBUTES) (gp : GUID) (P : Nat)
    (hfree : FindHelper s (some desc.guidHelper) = some none)
    (hpar : FindHelper s (some gp) = some (some P)) :
    ∃ s', RegisterHelper s (some gp) desc true = some (ERROR_SUCCESS, s') ∧
      HelperWF s' (f.addChild P s.helperHeap.length) ∧ Allocated s s' (some gp) desc := by
  have hlt := hwf.repr.lt_length
  have hPf := (FindHelper_mem hwf hpar).1
  have hPl := hlt P hPf
  have hnf : s.helperHeap.length ∉ f.addrs := fun hc => Nat.lt_irrefl _ (hlt _ hc)
  obtain ⟨eP, c, hxP, hc, htail, hPc, hcf⟩ := hwf.repr.entry_of_mem hwf.nodup hPf
  cases hcs : c with
  | nil =>
    subst hcs
    have hhead : eP.pSubHelperHead = none := hc
    have htl : eP.pSubHelperTail = none := htail
    refine ⟨_, by
      simp [RegisterHelper, hfree, HelperHeap.upd_concat, FindHelper_concat _ hpar,
        List.getElem?_append_left hPl, hxP, hhead, htl, HelperHeap.upd_concat_lt, hPl,
        HelperHeap.length_upd]
      rfl, ?_, ?_⟩
    · refine ⟨?_, ?_, Forest.nodup_addChild f hwf.nodup hnf⟩
      · simp only
        refine Represents.addChild hxP ?_ ?_ ?_ ?_ hwf.repr hwf.nodup hnf (fun _ _ _ => hPf)
        · rw [HelperHeap.getElem?_concat_length' _ _ (by simp [HelperHeap.length_upd])]
          simp [HELPER_ENTRY.links, HELPER_ENTRY.zero]
        · rw [List.getElem?_append_left (by simpa [HelperHeap.length_upd] using hPl)]
          simp [HelperHeap.getElem?_upd, hxP, HELPER_ENTRY.links, hhead]
        · intro t ht
          rw [htl] at ht
          cases ht
        · intro a haP han _
          by_cases hal : a < s.helperHeap.length
          · rw [List.getElem?_append_left (by simpa [HelperHeap.length_upd] using hal)]
            have : ¬ P = a := fun h => haP h.symm
            simp [HelperHeap.getElem?_upd, this]
          · have h1 : s.helperHeap[a]? = none := List.getElem?_eq_none (by omega)
            rw [h1, List.getElem?_eq_none (by simp [HelperHeap.length_upd]; omega)]
      · simp only
        rw [Forest.lastAddr_addChild]
        exact hwf.tail
    · refine ⟨?_, ?_, ?_, ?_⟩
      · simp [HelperHeap.length_upd]
      · refine ⟨_, HelperHeap.getElem?_concat_length' _ _ (by simp [HelperHeap.length_upd]), ?_⟩
        simp [HELPER_ENTRY.zero]
      · intro a e hx
        have hal := getElem?_lt_of_some hx
        simp only
        rw [List.getElem?_append_left (by simpa [HelperHeap.length_upd] using hal)]
        simp only [HelperHeap.getElem?_upd, hx]
        split <;> simp
      · simp
  | node b sub' next' =>
    subst hcs
    have hhead : eP.pSubHelperHead = some b := by
      rw [Represents.unfold_node] at hc
      exact hc.1
    obtain ⟨t, htl⟩ : ∃ t, eP.pSubHelperTail = some t := by
      rw [htail, Forest.lastAddr_node]; exact ⟨_, rfl⟩
    have htc : t ∈ (Forest.node b sub' next').addrs :=
      Forest.chain_subset_addrs (Forest.lastAddr_mem (htail ▸ htl))
    have htP : ¬ t = P := by rintro rfl; exact hPc htc
    have htlt : t < s.helperHeap.length := hlt t (hcf t htc)
    obtain ⟨et, hxt⟩ : ∃ et, s.helperHeap[t]? = some et :=
      ⟨_, List.getElem?_eq_getElem htlt⟩
    refine ⟨_, by
      simp [RegisterHelper, hfree, HelperHeap.upd_concat, FindHelper_concat _ hpar,
        List.getElem?_append_left hPl, hxP, hhead, htl, HelperHeap.upd_concat_lt, hPl,
        HelperHeap.length_upd, List.getElem?_append_left htlt, hxt, htlt]
      rfl, ?_, ?_⟩
    · refine ⟨?_, ?_, Forest.nodup_addChild f hwf.nodup hnf⟩
      · simp only
        refine Represents.addChild hxP ?_ ?_ ?_ ?_ hwf.repr hwf.nodup hnf (fun _ _ _ => hPf)
        · rw [HelperHeap.getElem?_concat_length' _ _ (by simp [HelperHeap.length_upd])]
          simp [HELPER_ENTRY.links, HELPER_ENTRY.zero]
        · rw [List.getElem?_append_left (by simpa [HelperHeap.length_upd] using hPl)]
          simp [HelperHeap.getElem?_upd, hxP, HELPER_ENTRY.links, hhead, htP]
        · intro t' ht'
          rw [htl] at ht'
          cases ht'
          rw [List.getElem?_append_left (by simpa [HelperHeap.length_upd] using htlt)]
          have : ¬ P = t := fun h => htP h.symm
          simp [HelperHeap.getElem?_upd, hxt, HELPER_ENTRY.links, this]
        · intro a haP han hat
          by_cases hal : a < s.helperHeap.length
          · rw [List.getElem?_append_left (by simpa [HelperHeap.length_upd] using hal)]
            have h1 : ¬ P = a := fun h => haP h.symm
            have h2 : ¬ t = a := fun h => hat (by rw [htl, h])
            simp [HelperHeap.getElem?_upd, h1, h2]
          · have h1 : s.helperHeap[a]? = none := List.getElem?_eq_none (by omega)
            rw [h1, List.getElem?_eq_none (by simp [HelperHeap.length_upd]; omega)]
      · simp only
        rw [Forest.lastAddr_addChild]
        exact hwf.tail
    · refine ⟨?_, ?_, ?_, ?_⟩
      · simp [HelperHeap.length_upd]
      · refine ⟨_, HelperHeap.getElem?_concat_length' _ _ (by simp [HelperHeap.length_upd]), ?_⟩
        simp [HELPER_ENTRY.zero]
      · intro a e hx
        have hal := getElem?_lt_of_some hx
        simp only
        rw [List.getElem?_append_left (by simpa [HelperHeap.length_upd] using hal)]
        simp only [HelperHeap.getElem?_upd, hx]
        split <;> split <;> simp
      · simp

theorem FindHelper_none_iff {s : State} {f : Forest} (hwf : HelperWF s f) (g : GUID) :
    FindHelper s (some g) = some none ↔ ∀ a ∈ f.addrs, guidAt s.helperHeap a ≠ some g := by
  obtain ⟨r, hr1, hr2, hr3⟩ := FindHelper_spec hwf g
  constructor
  · intro hn
    rw [hr1] at hn
    cases r with
    | none => exact hr3 rfl
    | some p => simp at hn
  · intro hall
    cases r with
    | none => exact hr1
    | some p => exact absurd (hr2 p rfl).2 (hall p (hr2 p rfl).1)

theorem RegisterHelper_orphan_state {s : State} (desc : NS_HELPER_ATTRIBUTES) (gp : GUID)
    (hfree : FindHelper s (some desc.guidHelper) = some none)
    (hpar : FindHelper s (some gp) = some none) :
    ∃ e : HELPER_ENTRY, RegisterHelper s (some gp) desc true =
      some (ERROR_INVALID_PARAMETER, { s with helperHeap := s.helperHeap ++ [e] }) :=
  ⟨_, by
    simp [RegisterHelper, hfree, HelperHeap.upd_concat, FindHelper_concat _ hpar]
    rfl⟩

/-- The possible courses of a call of `RegisterHelper` on a well-formed forest. -/
theorem RegisterHelper_cases {s : State} {f : Forest} (hwf : HelperWF s f)
    (parent : Option GUID) (desc : NS_HELPER_ATTRIBUTES) (ok : Bool) :
    ((∃ p, FindHelper s (some desc.guidHelper) = some (some p)) ∧
        RegisterHelper s parent desc ok = some (1, s)) ∨
    (FindHelper s (some desc.guidHelper) = some none ∧ ok = false ∧
        RegisterHelper s parent desc ok = some (ERROR_OUTOFMEMORY, s)) ∨
    (FindHelper s (some desc.guidHelper) = some none ∧ ok = true ∧ parent = none ∧
        ∃ s', RegisterHelper s parent desc ok = some (ERROR_SUCCESS, s') ∧
          HelperWF s' (.node s.helperHeap.length .nil f) ∧ Allocated s s' parent desc) ∨
    (FindHelper s (some desc.guidHelper) = some none ∧ ok = true ∧
        ∃ gp, parent = some gp ∧ FindHelper s (some gp) = some none ∧
        ∃ s', RegisterHelper s parent desc ok = some (ERROR_INVALID_PARAMETER, s') ∧
          HelperWF s' f ∧ Allocated s s' parent desc) ∨
    (FindHelper s (some desc.guidHelper) = some none ∧ ok = true ∧
        ∃ gp P, parent = some gp ∧ FindHelper s (some gp) = some (some P) ∧
        ∃ s', RegisterHelper s parent desc ok = some (ERROR_SUCCESS, s') ∧
          HelperWF s' (f.addChild P s.helperHeap.length) ∧ Allocated s s' parent desc) := by
  obtain ⟨r, hr, -, -⟩ := FindHelper_spec hwf desc.guidHelper
  cases r with
  | some p => exact Or.inl ⟨⟨p, hr⟩, by simp [RegisterHelper, hr]⟩
  | none =>
    right
    cases ok with
    | false => exact Or.inl ⟨hr, rfl, by simp [RegisterHelper, hr]⟩
    | true =>
      right
      cases parent with
      | none => exact Or.inl ⟨hr, rfl, rfl, RegisterHelper_root hwf desc hr⟩
      | some gp =>
        right
        obtain ⟨rp, hrp, -, -⟩ := FindHelper_spec hwf gp
        cases rp with
        | none => exact Or.inl ⟨hr, rfl, gp, rfl, hrp, RegisterHelper_orphan hwf desc gp hr hrp⟩
        | some P =>
          exact Or.inr ⟨hr, rfl, gp, P, rfl, hrp, RegisterHelper_child hwf desc gp P hr hrp⟩

theorem Allocated.guidAt_old {s s' : State} {parent : Option GUID} {desc : NS_HELPER_ATTRIBUTES}
    (hal : Allocated s s' parent desc) {a : Nat} (ha : a < s.helperHeap.length) :
    guidAt s'.helperHeap a = guidAt s.helperHeap a := by
  obtain ⟨e', hx', hattr, -⟩ := hal.old a _ (List.getElem?_eq_getElem ha)
  simp [guidAt, hx', hattr, List.getElem?_eq_getElem ha]

theorem Allocated.guidAt_new {s s' : State} {parent : Option GUID} {desc : NS_HELPER_ATTRIBUTES}
    (hal : Allocated s s' parent desc) :
    guidAt s'.helperHeap s.helperHeap.length = some desc.guidHelper := by
  obtain ⟨e, hx, hattr, -⟩ := hal.entry
  simp [guidAt, hx, hattr]

/-- After a registration that linked the new entry, `FindHelper` on its identity returns
the new entry. -/
theorem FindHelper_after_link {s s' : State} {f f' : Forest} {parent : Option GUID}
    {desc : NS_HELPER_ATTRIBUTES} (hwf : HelperWF s f) (hwf' : HelperWF s' f')
    (hal : Allocated s s' parent desc)
    (hfree : FindHelper s (some desc.guidHelper) = some none)
    (hnew : s.helperHeap.length ∈ f'.addrs)
    (hsub : ∀ a ∈ f'.addrs, a = s.helperHeap.length ∨ a ∈ f.addrs) :
    FindHelper s' (some desc.guidHelper) = some (some s.helperHeap.length) := by
  obtain ⟨r, hr1, hr2, hr3⟩ := FindHelper_spec hwf' desc.guidHelper
  cases r with
  | none => exact absurd hal.guidAt_new (hr3 rfl _ hnew)
  | some p =>
    obtain ⟨hp, hg⟩ := hr2 p rfl
    rcases hsub p hp with rfl | hpf
    · exact hr1
    · rw [hal.guidAt_old (hwf.repr.lt_length p hpf)] at hg
      exact absurd hg ((FindHelper_none_iff hwf _).mp hfree p hpf)


/-- C2: if `RegisterHelper(parent, descriptor)` returns success on a well-formed forest,
then `FindHelper` on the identity of the descriptor, called right afterwards, returns the
entry that the call has just allocated; that entry stores the supplied descriptor and is
attributed to the module that was current when `RegisterHelper` was called. -/
theorem RegisterHelper_FindHelper_roundtrip (s s' : State) (f : Forest)
    (parent : Option GUID) (desc : NS_HELPER_ATTRIBUTES) (ok : Bool)
    (hwf : HelperWF s f)
    (hreg : RegisterHelper s parent desc ok = some (ERROR_SUCCESS, s')) :
    s.helperHeap[s.helperHeap.length]? = none ∧
      FindHelper s' (some desc.guidHelper) = some (some s.helperHeap.length) ∧
      ∃ e : HELPER_ENTRY, s'.helperHeap[s.helperHeap.length]? = some e ∧
        e.Attributes = desc ∧ e.pDllEntry = s.pCurrentDll := by
  refine ⟨List.getElem?_eq_none (Nat.le_refl _), ?_⟩
  rcases RegisterHelper_cases hwf parent desc ok with
    ⟨-, h⟩ | ⟨-, -, h⟩ | ⟨hfree, -, -, s1, h, hwf', hal⟩ | ⟨-, -, gp, -, -, s1, h, -⟩ |
    ⟨hfree, -, gp, P, -, hpar, s1, h, hwf', hal⟩
  · rw [h] at hreg; simp at hreg
  · rw [h] at hreg; simp at hreg
  · rw [h] at hreg
    simp only [Option.some.injEq, Prod.mk.injEq, true_and] at hreg
    subst hreg
    refine ⟨FindHelper_after_link hwf hwf' hal hfree (by simp [Forest.addrs]) ?_, ?_⟩
    · intro a ha
      simpa [Forest.addrs] using ha
    · obtain ⟨e, hx, h1, h2, -⟩ := hal.entry
      exact ⟨e, hx, h1, h2⟩
  · rw [h] at hreg; simp at hreg
  · rw [h] at hreg
    simp only [Option.some.injEq, Prod.mk.injEq, true_and] at hreg
    subst hreg
    have hPf := (FindHelper_mem hwf hpar).1
    refine ⟨FindHelper_after_link hwf hwf' hal hfree ?_ ?_, ?_⟩
    · rw [Forest.mem_addrs_addChild]; exact Or.inr ⟨rfl, hPf⟩
    · intro a ha
      rw [Forest.mem_addrs_addChild] at ha
      rcases ha with ha | ⟨ha, -⟩
      · exact Or.inr ha
      · exact Or.inl ha
    · obtain ⟨e, hx, h1, h2, -⟩ := hal.entry
      exact ⟨e, hx, h1, h2⟩

/-- C3: on a well-formed forest that already holds a helper with the identity of the
descriptor, `RegisterHelper` with any parent argument returns the already-registered
status `1`, which is not `ERROR_SUCCESS`, and the state after the call is the state
before it (root chain, child chains, descriptors and started flags included). -/
theorem RegisterHelper_duplicate_rejected (s : State) (f : Forest) (parent : Option GUID)
    (desc : NS_HELPER_ATTRIBUTES) (ok : Bool) (hwf : HelperWF s f)
    (hdup : ∃ a ∈ f.addrs, guidAt s.helperHeap a = some desc.guidHelper) :
    RegisterHelper s parent desc ok = some (1, s) ∧ (1 : DWORD) ≠ ERROR_SUCCESS := by
  refine ⟨?_, by decide⟩
  obtain ⟨a, ha, hg⟩ := hdup
  rcases RegisterHelper_cases hwf parent desc ok with
    ⟨-, h⟩ | ⟨hfree, -⟩ | ⟨hfree, -⟩ | ⟨hfree, -⟩ | ⟨hfree, -⟩
  · exact h
  all_goals exact absurd hg ((FindHelper_none_iff hwf _).mp hfree a ha)

/-- C4: on a well-formed forest, when `FindHelper` returns `NULL` for the parent identity
`X` and the identity of the descriptor is not registered, `RegisterHelper(X, descriptor)`
fails: with `ERROR_INVALID_PARAMETER` (the parent-not-found status, different from the
already-registered status `1`) once its entry is allocated, with `ERROR_OUTOFMEMORY` when
`HeapAlloc` fails.  In both cases nothing is registered: the list head and tail and every
entry allocated before the call are unchanged, the forest has the same shape, and
`FindHelper` on the identity of the descriptor still returns `NULL`. -/
theorem RegisterHelper_parent_not_found (s : State) (f : Forest) (X : GUID)
    (desc : NS_HELPER_ATTRIBUTES) (ok : Bool) (hwf : HelperWF s f)
    (hparent : FindHelper s (some X) = some none)
    (hfree : ∀ a ∈ f.addrs, guidAt s.helperHeap a ≠ some desc.guidHelper) :
    ∃ (st : DWORD) (s' : State), RegisterHelper s (some X) desc ok = some (st, s') ∧
      (ok = true → st = ERROR_INVALID_PARAMETER) ∧ (ok = false → st = ERROR_OUTOFMEMORY) ∧
      st ≠ ERROR_SUCCESS ∧ st ≠ 1 ∧
      s'.pHelperListHead = s.pHelperListHead ∧ s'.pHelperListTail = s.pHelperListTail ∧
      (∀ a, a < s.helperHeap.length → s'.helperHeap[a]? = s.helperHeap[a]?) ∧
      HelperWF s' f ∧
      FindHelper s' (some desc.guidHelper) = some none := by
  have hfind := (FindHelper_none_iff hwf _).mpr hfree
  cases ok with
  | false =>
    refine ⟨ERROR_OUTOFMEMORY, s, by simp [RegisterHelper, hfind], by simp, by simp,
      by decide, by decide, rfl, rfl, fun _ _ => rfl, hwf, hfind⟩
  | true =>
    obtain ⟨e, he⟩ := RegisterHelper_orphan_state desc X hfind hparent
    obtain ⟨s1, h1, hwf', hal⟩ := RegisterHelper_orphan hwf desc X hfind hparent
    rw [he] at h1
    simp only [Option.some.injEq, Prod.mk.injEq, true_and] at h1
    subst h1
    refine ⟨ERROR_INVALID_PARAMETER, _, he, by simp, by simp, by decide, by decide, rfl, rfl,
      fun a ha => List.getElem?_append_left ha, hwf', ?_⟩
    rw [FindHelper_none_iff hwf']
    intro a ha
    have hlt := hwf.repr.lt_length a ha
    have := hfree a ha
    simpa [guidAt, List.getElem?_append_left hlt] using this


theorem UniqueIds.link {s s' : State} {f f' : Forest} {parent : Option GUID}
    {desc : NS_HELPER_ATTRIBUTES} (hu : UniqueIds s.helperHeap f) (hwf : HelperWF s f)
    (hal : Allocated s s' parent desc)
    (hfree : FindHelper s (some desc.guidHelper) = some none)
    (hsub : ∀ a ∈ f'.addrs, a = s.helperHeap.length ∨ a ∈ f.addrs) :
    UniqueIds s'.helperHeap f' := by
  have hne := (FindHelper_none_iff hwf _).mp hfree
  have hlt := hwf.repr.lt_length
  intro a ha b hb hab
  rcases hsub a ha with rfl | haf <;> rcases hsub b hb with rfl | hbf
  · rfl
  · rw [hal.guidAt_new, hal.guidAt_old (hlt b hbf)] at hab
    exact absurd hab.symm (hne b hbf)
  · rw [hal.guidAt_new, hal.guidAt_old (hlt a haf)] at hab
    exact absurd hab (hne a haf)
  · rw [hal.guidAt_old (hlt a haf), hal.guidAt_old (hlt b hbf)] at hab
    exact hu a haf b hbf hab

theorem RegisterHelper_preserves {s s' : State} {f : Forest} {parent : Option GUID}
    {desc : NS_HELPER_ATTRIBUTES} {ok : Bool} {st : DWORD} (hwf : HelperWF s f)
    (hu : UniqueIds s.helperHeap f)
    (hreg : RegisterHelper s parent desc ok = some (st, s')) :
    ∃ f', HelperWF s' f' ∧ UniqueIds s'.helperHeap f' := by
  rcases RegisterHelper_cases hwf parent desc ok with
    ⟨-, h⟩ | ⟨-, -, h⟩ | ⟨hfree, -, -, s1, h, hwf', hal⟩ | ⟨hfree, -, gp, -, -, s1, h, hwf', hal⟩ |
    ⟨hfree, -, gp, P, -, hpar, s1, h, hwf', hal⟩
  · rw [h] at hreg
    simp only [Option.some.injEq, Prod.mk.injEq] at hreg
    obtain ⟨-, rfl⟩ := hreg
    exact ⟨f, hwf, hu⟩
  · rw [h] at hreg
    simp only [Option.some.injEq, Prod.mk.injEq] at hreg
    obtain ⟨-, rfl⟩ := hreg
    exact ⟨f, hwf, hu⟩
  · rw [h] at hreg
    simp only [Option.some.injEq, Prod.mk.injEq] at hreg
    obtain ⟨-, rfl⟩ := hreg
    exact ⟨_, hwf', hu.link hwf hal hfree fun a ha => by simpa [Forest.addrs] using ha⟩
  · rw [h] at hreg
    simp only [Option.some.injEq, Prod.mk.injEq] at hreg
    obtain ⟨-, rfl⟩ := hreg
    exact ⟨_, hwf', hu.link hwf hal hfree fun a ha => Or.inr ha⟩
  · rw [h] at hreg
    simp only [Option.some.injEq, Prod.mk.injEq] at hreg
    obtain ⟨-, rfl⟩ := hreg
    refine ⟨_, hwf', hu.link hwf hal hfree fun a ha => ?_⟩
    rw [Forest.mem_addrs_addChild] at ha
    rcases ha with ha | ⟨ha, -⟩
    · exact Or.inr ha
    · exact Or.inl ha

theorem RegisterHelper_total {s : State} {f : Forest} (hwf : HelperWF s f)
    (parent : Option GUID) (desc : NS_HELPER_ATTRIBUTES) (ok : Bool) :
    ∃ st s', RegisterHelper s parent desc ok = some (st, s') := by
  rcases RegisterHelper_cases hwf parent desc ok with
    ⟨-, h⟩ | ⟨-, -, h⟩ | ⟨-, -, -, s1, h, -⟩ | ⟨-, -, gp, -, -, s1, h, -⟩ |
    ⟨-, -, gp, P, -, -, s1, h, -⟩
  all_goals exact ⟨_, _, h⟩

theorem runRegisterCalls_invariant (calls : List RegisterCall) :
    ∀ (s : State) (f : Forest), HelperWF s f → UniqueIds s.helperHeap f →
      ∃ s' f', runRegisterCalls s calls = some s' ∧ HelperWF s' f' ∧
        UniqueIds s'.helperHeap f' := by
  induction calls with
  | nil => intro s f hwf hu; exact ⟨s, f, rfl, hwf, hu⟩
  | cons c cs ih =>
    intro s f hwf hu
    have hwf0 : HelperWF { s with pCurrentDll := c.pCurrentDll } f :=
      ⟨hwf.repr, hwf.tail, hwf.nodup⟩
    obtain ⟨st, s1, h1⟩ :=
      RegisterHelper_total hwf0 c.pguidParentHelper c.Attributes c.heapAllocOk
    obtain ⟨f1, hwf1, hu1⟩ := RegisterHelper_preserves hwf0 hu h1
    obtain ⟨s', f', h2, hwf', hu'⟩ := ih s1 f1 hwf1 hu1
    exact ⟨s', f', by simp [runRegisterCalls, h1, h2], hwf', hu'⟩

theorem HelperWF.init : HelperWF State.init .nil :=
  ⟨rfl, rfl, List.nodup_nil⟩

/-- C5: starting from the empty registry, every finite sequence of `RegisterHelper` calls
(any parents, any descriptors, succeeding or failing) runs to completion and leaves a
well-formed forest in which no two distinct helpers have the same identity. -/
theorem RegisterHelper_identity_unique (calls : List RegisterCall) :
    ∃ (s' : State) (f' : Forest), runRegisterCalls State.init calls = some s' ∧
      HelperWF s' f' ∧
      ∀ a ∈ f'.addrs, ∀ b ∈ f'.addrs,
        guidAt s'.helperHeap a = guidAt s'.helperHeap b → a = b :=
  runRegisterCalls_invariant calls State.init .nil HelperWF.init
    (fun a ha => by simp [Forest.addrs] at ha)


theorem Forest.childrenOf_addChild_new {P n : Nat} (f : Forest) (hn : n ∉ f.addrs) :
    (f.addChild P n).childrenOf n = if P ∈ f.addrs then some [] else none := by
  induction f with
  | nil => simp [Forest.addChild, Forest.childrenOf, Forest.addrs]
  | node a sub next ih1 ih2 =>
    simp only [Forest.addrs, List.mem_cons, List.mem_append, not_or] at hn
    obtain ⟨hna, hnsub, hnnext⟩ := hn
    have han : ¬ a = n := fun h => hna h.symm
    by_cases haP : a = P
    · subst haP
      have h1 : (sub.snoc n).childrenOf n = some [] := by
        clear ih1
        induction sub with
        | nil => simp [Forest.snoc, Forest.childrenOf, Forest.chain]
        | node b sub' next' _ ih =>
          simp only [Forest.addrs, List.mem_cons, List.mem_append, not_or] at hnsub
          have hbn : ¬ b = n := fun h => hnsub.1 h.symm
          have h0 : sub'.childrenOf n = none := (Forest.childrenOf_eq_none _).mpr hnsub.2.1
          simp [Forest.snoc, Forest.childrenOf, hbn, h0, ih hnsub.2.2]
      simp [Forest.addChild, Forest.childrenOf, han, h1, Forest.addrs]
    · have hPa : ¬ P = a := fun h => haP h.symm
      simp only [Forest.addChild, haP, if_false, Forest.childrenOf, han, ih1 hnsub, ih2 hnnext,
        Forest.addrs, List.mem_cons, List.mem_append, hPa, false_or]
      by_cases h1 : P ∈ sub.addrs <;> by_cases h2 : P ∈ next.addrs <;> simp [h1, h2]

theorem filter_ne_self {n : Nat} (l : List Nat) (hl : n ∉ l) :
    l.filter (fun a => !decide (a = n)) = l := by
  rw [List.filter_eq_self]
  intro a ha
  simp only [Bool.not_eq_true', decide_eq_false_iff_not]
  rintro rfl
  exact hl ha

theorem Forest.filter_addrs_addChild {P n : Nat} (f : Forest) (hn : n ∉ f.addrs) :
    (f.addChild P n).addrs.filter (fun a => !decide (a = n)) = f.addrs := by
  induction f with
  | nil => rfl
  | node a sub next ih1 ih2 =>
    simp only [Forest.addrs, List.mem_cons, List.mem_append, not_or] at hn
    obtain ⟨hna, hnsub, hnnext⟩ := hn
    have han : ¬ a = n := fun h => hna h.symm
    by_cases haP : a = P
    · simp [Forest.addChild, haP, Forest.addrs, Forest.addrs_snoc, List.filter_cons,
        List.filter_append, filter_ne_self _ hnsub, filter_ne_self _ hnnext, haP ▸ han]
    · simp [Forest.addChild, haP, Forest.addrs, List.filter_cons, List.filter_append,
        ih1 hnsub, ih2 hnnext, han]

/-- C9: a successful `RegisterHelper` on a well-formed forest links the new entry `n` as
follows.  Without a parent identity the root chain afterwards is `n` followed by the
previous root chain.  With a parent identity, for the helper `P` that `FindHelper` returns
for it, the child chain of `P` afterwards is its previous child chain followed by `n`, and
the root chain is as before.  In both cases the child chain of every other existing helper
is unchanged, the existing helpers keep their relative order, their descriptors and their
started flags, and the new helper is not started and has no children. -/
theorem RegisterHelper_placement (s s' : State) (f : Forest) (parent : Option GUID)
    (desc : NS_HELPER_ATTRIBUTES) (ok : Bool) (hwf : HelperWF s f)
    (hreg : RegisterHelper s parent desc ok = some (ERROR_SUCCESS, s')) :
    ∃ f', HelperWF s' f' ∧
      (parent = none →
        f'.chain = s.helperHeap.length :: f.chain ∧
        ∀ q, q ≠ s.helperHeap.length → f'.childrenOf q = f.childrenOf q) ∧
      (∀ gp, parent = some gp →
        ∃ P kids, FindHelper s (some gp) = some (some P) ∧
          f.childrenOf P = some kids ∧
          f'.childrenOf P = some (kids ++ [s.helperHeap.length]) ∧
          f'.chain = f.chain ∧
          ∀ q, q ≠ P → q ≠ s.helperHeap.length → f'.childrenOf q = f.childrenOf q) ∧
      f'.addrs.filter (fun a => !decide (a = s.helperHeap.length)) = f.addrs ∧
      (∀ (a : Nat) (e : HELPER_ENTRY), s.helperHeap[a]? = some e →
        ∃ e' : HELPER_ENTRY, s'.helperHeap[a]? = some e' ∧ e'.Attributes = e.Attributes ∧
          e'.bStarted = e.bStarted) ∧
      f'.childrenOf s.helperHeap.length = some [] ∧
      ∃ e : HELPER_ENTRY, s'.helperHeap[s.helperHeap.length]? = some e ∧
        e.Attributes = desc ∧ e.bStarted = false ∧ e.pSubHelperHead = none := by
  have hnf : s.helperHeap.length ∉ f.addrs := fun hc => Nat.lt_irrefl _ (hwf.repr.lt_length _ hc)
  have hold : ∀ {s1 : State}, Allocated s s1 parent desc →
      ∀ (a : Nat) (e : HELPER_ENTRY), s.helperHeap[a]? = some e →
        ∃ e' : HELPER_ENTRY, s1.helperHeap[a]? = some e' ∧ e'.Attributes = e.Attributes ∧
          e'.bStarted = e.bStarted := by
    intro s1 hal a e hx
    obtain ⟨e', h1, h2, h3, -⟩ := hal.old a e hx
    exact ⟨e', h1, h2, h3⟩
  have hnew : ∀ {s1 : State}, Allocated s s1 parent desc →
      ∃ e : HELPER_ENTRY, s1.helperHeap[s.helperHeap.length]? = some e ∧
        e.Attributes = desc ∧ e.bStarted = false ∧ e.pSubHelperHead = none := by
    intro s1 hal
    obtain ⟨e, h1, h2, -, -, h3, h4, -⟩ := hal.entry
    exact ⟨e, h1, h2, h3, h4⟩
  rcases RegisterHelper_cases hwf parent desc ok with
    ⟨-, h⟩ | ⟨-, -, h⟩ | ⟨hfree, -, hpn, s1, h, hwf', hal⟩ | ⟨-, -, gp, -, -, s1, h, -⟩ |
    ⟨hfree, -, gp, P, hpp, hpar, s1, h, hwf', hal⟩
  · rw [h] at hreg; simp at hreg
  · rw [h] at hreg; simp at hreg
  · rw [h] at hreg
    simp only [Option.some.injEq, Prod.mk.injEq, true_and] at hreg
    subst hreg
    refine ⟨_, hwf', ?_, ?_, ?_, hold hal, ?_, hnew hal⟩
    · intro _
      refine ⟨rfl, fun q hq => ?_⟩
      have : ¬ s.helperHeap.length = q := fun h => hq h.symm
      simp [Forest.childrenOf, this]
    · intro gp hgp
      rw [hpn] at hgp
      cases hgp
    · simp [Forest.addrs, List.filter_cons, filter_ne_self _ hnf]
    · simp [Forest.childrenOf, Forest.chain]
  · rw [h] at hreg; simp at hreg
  · rw [h] at hreg
    simp only [Option.some.injEq, Prod.mk.injEq, true_and] at hreg
    subst hreg
    have hPf := (FindHelper_mem hwf hpar).1
    refine ⟨_, hwf', ?_, ?_, Forest.filter_addrs_addChild f hnf, hold hal, ?_, hnew hal⟩
    · intro hpn
      rw [hpp] at hpn
      cases hpn
    · intro gp' hgp'
      rw [hpp] at hgp'
      cases hgp'
      obtain ⟨kids, hk⟩ : ∃ kids, f.childrenOf P = some kids := by
        cases hc : f.childrenOf P with
        | none => exact absurd hPf ((Forest.childrenOf_eq_none f).mp hc)
        | some kids => exact ⟨kids, rfl⟩
      refine ⟨P, kids, hpar, hk, ?_, Forest.chain_addChild _ _ _, ?_⟩
      · rw [Forest.childrenOf_addChild_self f hwf.nodup, hk]
        rfl
      · intro q hqP hqn
        exact Forest.childrenOf_addChild_of_ne hqP hqn f
    · rw [Forest.childrenOf_addChild_new f hnf, if_pos hPf]

theorem StartedOnly.refl (h : HelperHeap) : StartedOnly h h :=
  ⟨rfl, fun a e hx => ⟨e.bStarted, hx, id, fun hb => by simp [HELPER_ENTRY.startedAfter, hb]⟩⟩

theorem StartedOnly.trans {h1 h2 h3 : HelperHeap} (h12 : StartedOnly h1 h2)
    (h23 : StartedOnly h2 h3) : StartedOnly h1 h3 := by
  refine ⟨h23.1.trans h12.1, fun a e hx => ?_⟩
  obtain ⟨b2, hx2, hm2, hb2⟩ := h12.2 a e hx
  obtain ⟨b3, hx3, hm3, hb3⟩ := h23.2 a _ hx2
  refine ⟨b3, hx3, fun hb => hm3 (hm2 hb), fun hb => ?_⟩
  have := hb3 hb
  simp only [HELPER_ENTRY.startedAfter, Bool.or_eq_true, decide_eq_true_eq] at this
  rcases this with h | h
  · exact hb2 h
  · simp [HELPER_ENTRY.startedAfter, h]

theorem StartedOnly.links {h h' : HelperHeap} (hs : StartedOnly h h') (a : Nat) :
    (h'[a]?).map HELPER_ENTRY.links = (h[a]?).map HELPER_ENTRY.links := by
  cases hx : h[a]? with
  | none =>
    have : h'[a]? = none := by
      rw [List.getElem?_eq_none_iff] at hx ⊢
      rw [hs.1]; exact hx
    rw [this]
  | some e =>
    obtain ⟨b, hx', -, -⟩ := hs.2 a e hx
    rw [hx']
    rfl

theorem StartedOnly.settled {h h' : HelperHeap} (hs : StartedOnly h h') {a : Nat}
    (ha : SettledAt h a) : SettledAt h' a := by
  obtain ⟨e, hx, hset⟩ := ha
  obtain ⟨b, hx', hm, hb⟩ := hs.2 a e hx
  refine ⟨_, hx', ?_⟩
  cases hbe : e.bStarted with
  | true => simp [HELPER_ENTRY.startedAfter, hm hbe]
  | false =>
    rw [hbe] at hset
    have hne : b = false := by
      cases b with
      | false => rfl
      | true => rw [hb rfl] at hset; cases hset
    subst hne
    simpa [HELPER_ENTRY.startedAfter, hbe] using hset

theorem StackRep.frame_links {h h' : HelperHeap} {st : STACK} {gs : List Forest}
    (hst : StackRep h st gs)
    (hl : ∀ a : Nat, (h'[a]?).map HELPER_ENTRY.links = (h[a]?).map HELPER_ENTRY.links) :
    StackRep h' st gs := by
  induction hst with
  | nil => exact List.Forall₂.nil
  | cons hp _ ih => exact List.Forall₂.cons (hp.frame fun a _ => hl a) ih

theorem startEntry_spec (h : HelperHeap) (a : Nat) (e : HELPER_ENTRY) (hx : h[a]? = some e) :
    StartedOnly h (startEntry h a e).1 ∧ SettledAt (startEntry h a e).1 a ∧
      ((startEntry h a e).2 = [] ∨ ((startEntry h a e).2 = [a] ∧ e.bStarted = false ∧
        (e.Attributes.pfnStart = some ERROR_SUCCESS →
          ∃ e1 : HELPER_ENTRY, (startEntry h a e).1[a]? = some e1 ∧ e1.bStarted = true))) := by
  unfold startEntry
  cases hb : e.bStarted with
  | true =>
    refine ⟨?_, ?_, Or.inl ?_⟩
    · simpa using StartedOnly.refl h
    · simpa using (⟨e, hx, by simp [HELPER_ENTRY.startedAfter, hb]⟩ : SettledAt h a)
    · simp
  | false =>
    cases hp : e.Attributes.pfnStart with
    | none =>
      refine ⟨?_, ?_, Or.inl ?_⟩
      · simpa using StartedOnly.refl h
      · simpa using (⟨e, hx, by simp [HELPER_ENTRY.startedAfter, hb, hp]⟩ : SettledAt h a)
      · simp
    | some dwError =>
      by_cases hd : dwError = ERROR_SUCCESS
      · have hget : (h.upd a fun e => { e with bStarted := true })[a]? =
            some { e with bStarted := true } := by
          simp [HelperHeap.getElem?_upd, hx]
        have hset : SettledAt (h.upd a fun e => { e with bStarted := true }) a :=
          ⟨_, hget, by simp [HELPER_ENTRY.startedAfter]⟩
        have hso : StartedOnly h (h.upd a fun e => { e with bStarted := true }) := by
          refine ⟨HelperHeap.length_upd _ _ _, fun c ec hc => ?_⟩
          by_cases hca : a = c
          · subst hca
            rw [hx] at hc
            cases hc
            exact ⟨true, hget, fun _ => rfl, fun _ => by
              simp [HELPER_ENTRY.startedAfter, hp, hd]⟩
          · exact ⟨ec.bStarted, by simp [HelperHeap.getElem?_upd, hca, hc], id, fun hb' => by
              simp [HELPER_ENTRY.startedAfter, hb']⟩
        refine ⟨?_, ?_, Or.inr ⟨?_, ?_, fun _ => ?_⟩⟩
        · simpa [hd] using hso
        · simpa [hd] using hset
        · simp [hd]
        · simp
        · simpa [hd] using (⟨_, hget, rfl⟩ : ∃ e1 : HELPER_ENTRY,
            (h.upd a fun e => { e with bStarted := true })[a]? = some e1 ∧ e1.bStarted = true)
      · refine ⟨?_, ?_, Or.inr ⟨?_, ?_, fun hc => ?_⟩⟩
        · simpa [hd] using StartedOnly.refl h
        · simpa [hd] using
            (⟨e, hx, by simp [HELPER_ENTRY.startedAfter, hb, hp, hd]⟩ : SettledAt h a)
        · simp [hd]
        · simp
        · exact absurd (Option.some.inj hc) hd


theorem StartHelpersLoop_spec :
    ∀ (k : Nat) (h : HelperHeap) (st : STACK) (gs : List Forest), StackRep h st gs →
      stackCost gs < k →
      ∃ h' t, StartHelpersLoop k h st = some (h', t) ∧ StartedOnly h h' ∧
        ∀ f ∈ gs, ∀ a ∈ f.addrs, SettledAt h' a := by
  intro k
  induction k with
  | zero => intro h st gs _ hk; omega
  | succ k ih =>
    intro h st gs hst hk
    cases hst with
    | nil =>
      exact ⟨h, ⟨[], []⟩, by simp [StartHelpersLoop, StackPop], StartedOnly.refl h, by simp⟩
    | @cons p f st' gs' hp hst' =>
      cases f with
      | nil => simp [Represents] at hp
      | node a sub next =>
        rw [Represents.unfold_node] at hp
        obtain ⟨hpa, e, hx, -, hsub, hnext⟩ := hp
        have hpa' : a = p := (Option.some.inj hpa).symm
        subst hpa'
        simp only [stackCost, List.map_cons, List.sum_cons, Forest.cost] at hk
        have hws := sub.length_chain_le_weight
        have hwn := next.length_chain_le_weight
        obtain ⟨hso, hset, -⟩ := startEntry_spec h a e hx
        have hl := hso.links
        have hsub1 : Represents (startEntry h a e).1 e.pSubHelperHead sub :=
          hsub.frame fun c _ => hl c
        have hnext1 : Represents (startEntry h a e).1 e.pNext next :=
          hnext.frame fun c _ => hl c
        have hrep := StackRep.push hnext1 (StackRep.push hsub1 (StackRep.frame_links hst' hl))
        have hcost : stackCost (next.suffixes.reverse ++ (sub.suffixes.reverse ++ gs')) < k := by
          simp only [stackCost_append, stackCost_reverse, Forest.sum_cost_suffixes]
          simp only [stackCost]
          omega
        obtain ⟨h', t, hr, hso', hall⟩ := ih _ _ _ hrep hcost
        refine ⟨h', ⟨a :: t.visited, (startEntry h a e).2 ++ t.invoked⟩, ?_, hso.trans hso', ?_⟩
        · simp only [StartHelpersLoop, StackPop, hx]
          rw [pushSiblings_eq k st' hsub1 (by omega)]
          simp only
          rw [pushSiblings_eq k _ hnext1 (by omega)]
          simp only [hr]
        · intro f hf b hb
          simp only [List.mem_cons] at hf
          rcases hf with rfl | hf
          · simp only [Forest.addrs, List.mem_cons, List.mem_append] at hb
            rcases hb with rfl | hb | hb
            · exact hso'.settled hset
            · obtain ⟨f', hf', hbf'⟩ := Forest.exists_suffix_of_mem hb
              exact hall f' (by simp [hf']) b hbf'
            · obtain ⟨f', hf', hbf'⟩ := Forest.exists_suffix_of_mem hb
              exact hall f' (by simp [hf']) b hbf'
          · exact hall f (by simp [hf]) b hb

theorem StartHelpers_spec {s : State} {f : Forest} (hwf : HelperWF s f) :
    ∃ h' t, StartHelpers s true = some ({ s with helperHeap := h' }, t) ∧
      StartedOnly s.helperHeap h' ∧ ∀ a ∈ f.addrs, SettledAt h' a := by
  rcases Option.eq_none_or_eq_some s.pHelperListHead with hh | ⟨p, hh⟩
  · have hr := hwf.repr
    rw [hh] at hr
    have hf := hr.nil_of_none
    subst hf
    have he : StartHelpers s true = some (s, ⟨[], []⟩) := by rw [StartHelpers, hh]
    exact ⟨s.helperHeap, ⟨[], []⟩, he, StartedOnly.refl _, by simp [Forest.addrs]⟩
  · have hr := hwf.repr
    rw [hh] at hr
    have hst : StackRep s.helperHeap [p] [f] := List.Forall₂.cons hr List.Forall₂.nil
    have hc : stackCost [f] < traversalFuel s.helperHeap := by
      simpa [stackCost] using hwf.cost_lt_fuel
    obtain ⟨h', t, hr1, hso, hall⟩ := StartHelpersLoop_spec _ _ _ _ hst hc
    refine ⟨h', t, ?_, hso, fun a ha => hall f (by simp) a ha⟩
    simp [StartHelpers, hh, StackPush, CreateStack, hr1]

theorem StartHelpers_no_stack (s : State) :
    StartHelpers s false = some (s, { visited := [], invoked := [] }) := by
  rcases Option.eq_none_or_eq_some s.pHelperListHead with hh | ⟨p, hh⟩
  · rw [StartHelpers, hh]
  · rw [StartHelpers, hh]
    rfl

theorem HelperWF.of_startedOnly {s : State} {f : Forest} (hwf : HelperWF s f)
    {h' : HelperHeap} (hso : StartedOnly s.helperHeap h') :
    HelperWF { s with helperHeap := h' } f :=
  ⟨hwf.repr.frame fun a _ => hso.links a, hwf.tail, hwf.nodup⟩

/-- C7: on a well-formed forest `StartHelpers` returns, and afterwards every helper of the
forest (root or descendant) is the entry it was before, except that its started flag is
now true exactly when it was true before or the helper has a start callback that returns
`ERROR_SUCCESS`.  So helpers without a start callback and helpers whose start failed keep
their flag, no flag goes from true to false, and links and descriptors are unchanged; the
list head and tail and the shape of the forest are unchanged as well.  (When `CreateStack`
returns no stack, `StartHelpers` returns at once: nothing is invoked, nothing changes.) -/
theorem StartHelpers_started_flags (s : State) (f : Forest) (hwf : HelperWF s f) :
    ∃ (s' : State) (t : StartTrace), StartHelpers s true = some (s', t) ∧
      (∀ a ∈ f.addrs, ∀ e : HELPER_ENTRY, s.helperHeap[a]? = some e →
        s'.helperHeap[a]? = some { e with
          bStarted := e.bStarted || decide (e.Attributes.pfnStart = some ERROR_SUCCESS) }) ∧
      s' = { s with helperHeap := s'.helperHeap } ∧ HelperWF s' f ∧
      StartHelpers s false = some (s, { visited := [], invoked := [] }) := by
  obtain ⟨h', t, hr, hso, hall⟩ := StartHelpers_spec hwf
  refine ⟨_, t, hr, ?_, rfl, hwf.of_startedOnly hso, StartHelpers_no_stack s⟩
  intro a ha e hx
  obtain ⟨b, hx', hm, hb⟩ := hso.2 a e hx
  obtain ⟨e', hxe', hset⟩ := hall a ha
  simp only at hx' ⊢
  rw [hx'] at hxe' ⊢
  cases hxe'
  simp only [HELPER_ENTRY.startedAfter] at hset hb
  by_cases hp : e.Attributes.pfnStart = some ERROR_SUCCESS
  · simp only [hp, decide_True, Bool.or_true] at hset ⊢
    rw [hset]
  · simp only [hp, decide_False, Bool.or_false] at hset hb ⊢
    cases hbe : e.bStarted with
    | true => rw [hm hbe]
    | false =>
      cases b with
      | false => rfl
      | true => rw [hbe] at hb; exact absurd (hb rfl) (by simp)

theorem DllHeap.get_concat_length (h : DllHeap) (x : Option DLL_LIST_ENTRY) :
    DllHeap.get (h ++ [x]) h.length = x := by
  cases x <;> simp [DllHeap.get]

theorem DllHeap.get_concat_lt (h : DllHeap) (x : Option DLL_LIST_ENTRY) {a : Nat}
    (ha : a < h.length) : DllHeap.get (h ++ [x]) a = DllHeap.get h a := by
  simp [DllHeap.get, List.getElem?_append_left ha]

theorem DllHeap.get_lt {h : DllHeap} {a : Nat} {e : DLL_LIST_ENTRY}
    (hx : DllHeap.get h a = some e) : a < h.length ∧ h[a]? = some (some e) := by
  unfold DllHeap.get at hx
  cases hy : h[a]? with
  | none => simp [hy] at hx
  | some o =>
    cases o with
    | none => simp [hy] at hx
    | some e' =>
      simp only [hy, Option.some.injEq] at hx
      subst hx
      exact ⟨(List.getElem?_eq_some.mp hy).1, rfl⟩

theorem DllHeap.upd_concat_length (h : DllHeap) (e : DLL_LIST_ENTRY)
    (f : DLL_LIST_ENTRY → DLL_LIST_ENTRY) :
    DllHeap.upd (h ++ [some e]) h.length f = some (h ++ [some (f e)]) := by
  simp [DllHeap.upd, DllHeap.get_concat_length]

theorem DllHeap.upd_concat_old (h : DllHeap) (x : Option DLL_LIST_ENTRY)
    (f : DLL_LIST_ENTRY → DLL_LIST_ENTRY) {a : Nat} {e : DLL_LIST_ENTRY}
    (hx : DllHeap.get h a = some e) :
    DllHeap.upd (h ++ [x]) a f = some (h.set a (some (f e)) ++ [x]) := by
  have ha := (DllHeap.get_lt hx).1
  simp [DllHeap.upd, DllHeap.get_concat_lt h x ha, hx, List.set_append, ha]

theorem DllHeap.set_self {h : DllHeap} {a : Nat} {e : DLL_LIST_ENTRY}
    (hx : DllHeap.get h a = some e) : h.set a (some e) = h := by
  obtain ⟨ha, hy⟩ := DllHeap.get_lt hx
  apply List.ext_getElem? 
  intro i
  by_cases hia : a = i
  · subst hia; simp [List.getElem?_set, ha, hy]
  · simp [List.getElem?_set, hia]

theorem DllChain.frame_concat {h : DllHeap} (x : Option DLL_LIST_ENTRY) :
    ∀ {l : List Nat} {prev p : Option Nat}, DllChain h prev p l →
      DllChain (h ++ [x]) prev p l := by
  intro l
  induction l with
  | nil => intro prev p hc; exact hc
  | cons a l ih =>
    intro prev p hc
    unfold DllChain at hc ⊢
    obtain ⟨hp, hc⟩ := hc
    cases hx : DllHeap.get h a with
    | none => simp [hx] at hc
    | some e =>
      simp only [hx] at hc
      rw [DllHeap.get_concat_lt h x (DllHeap.get_lt hx).1, hx]
      exact ⟨hp, hc.1, ih hc.2⟩


theorem DllChain.addr_lt_length {h : DllHeap} :
    ∀ {l : List Nat} {prev p : Option Nat}, DllChain h prev p l → ∀ a ∈ l, a < h.length := by
  intro l
  induction l with
  | nil => intro prev p _ a ha; simp at ha
  | cons b l ih =>
    intro prev p hc a ha
    unfold DllChain at hc
    obtain ⟨-, hc⟩ := hc
    cases hx : DllHeap.get h b with
    | none => simp [hx] at hc
    | some e =>
      simp only [hx] at hc
      simp only [List.mem_cons] at ha
      rcases ha with rfl | ha
      · exact (DllHeap.get_lt hx).1
      · exact ih hc.2 a ha

theorem LoadHelperDll_fail_unwinds {s : State} {l : List Nat} (hwf : DllWF s l)
    (pszDllName : WSTR) (bRegister : Bool) (env : LoadEnv) (err : DWORD)
    (hal : env.allocsOk) (hf : env.loadFails err) (herr : err ≠ ERROR_SUCCESS) :
    LoadHelperDll s pszDllName bRegister env =
      some (err, { s with dllHeap := s.dllHeap ++ [none] }) := by
  obtain ⟨h1, h2, h3, h4⟩ := hal
  have hlen : ∀ p : Nat, p = s.dllHeap.length → ¬ p < s.dllHeap.length := by
    intro p hp; omega
  cases l with
  | nil =>
    have hh : s.pDllListHead = none := hwf.chain
    have ht : s.pDllListTail = none := hwf.tail
    rcases hf with ⟨hm, he⟩ | ⟨hm, hi, he⟩
    · subst he
      simp [LoadHelperDll, h1, h2, h3, h4, DllHeap.upd_concat_length, insertDllAtHead, ht, hh,
        hm, loadHelperDllDone, herr, unlinkDll, DllHeap.get_concat_length, FreeHelperDll,
        DLL_LIST_ENTRY.zero]
    · subst he
      obtain ⟨m, hm'⟩ := Option.ne_none_iff_exists'.mp hm
      simp [LoadHelperDll, h1, h2, h3, h4, DllHeap.upd_concat_length, insertDllAtHead, ht, hh,
        hm', hi, loadHelperDllDone, herr, unlinkDll, DllHeap.get_concat_length, FreeHelperDll,
        DLL_LIST_ENTRY.zero]
  | cons a l' =>
    have hc := hwf.chain
    unfold DllChain at hc
    obtain ⟨hh, hc⟩ := hc
    cases hx : DllHeap.get s.dllHeap a with
    | none => simp [hx] at hc
    | some ea =>
      simp only [hx] at hc
      obtain ⟨hprev, -⟩ := hc
      obtain ⟨halt, hget⟩ := DllHeap.get_lt hx
      have ht : s.pDllListTail ≠ none := by
        rw [hwf.tail]; simp
      have hane : ¬ a = s.dllHeap.length := by omega
      have hne' : ¬ s.dllHeap.length = a := by omega
      have hrestore : s.dllHeap.set a (some ea) = s.dllHeap := DllHeap.set_self hx
      have htl : ¬ s.pDllListTail = some s.dllHeap.length := by
        rw [hwf.tail]
        intro hcon
        have hmem := List.mem_of_getLast?_eq_some hcon
        exact Nat.lt_irrefl _ (hwf.chain.addr_lt_length _ hmem)
      have hea : ({ ea with pPrev := none } : DLL_LIST_ENTRY) = ea := by
        cases ea
        simp only [DLL_LIST_ENTRY.mk.injEq, and_true, true_and] at hprev ⊢
        exact hprev.symm
      rcases hf with ⟨hm, he⟩ | ⟨hm, hi, he⟩
      · subst he
        simp [LoadHelperDll, h1, h2, h3, h4, DllHeap.upd_concat_length, insertDllAtHead, ht, hh,
          hm, loadHelperDllDone, herr, unlinkDll, DllHeap.get_concat_length, FreeHelperDll,
          DLL_LIST_ENTRY.zero, DllHeap.upd_concat_old _ _ _ hx, DllHeap.upd, DllHeap.get, hane,
          hne', halt, hget, htl, hprev, List.getElem?_append_left, List.getElem?_set]
        rw [hea]
        exact hrestore
      · subst he
        obtain ⟨m, hm'⟩ := Option.ne_none_iff_exists'.mp hm
        simp [LoadHelperDll, h1, h2, h3, h4, DllHeap.upd_concat_length, insertDllAtHead, ht, hh,
          hm', hi, loadHelperDllDone, herr, unlinkDll, DllHeap.get_concat_length, FreeHelperDll,
          DLL_LIST_ENTRY.zero, DllHeap.upd_concat_old _ _ _ hx, DllHeap.upd, DllHeap.get, hane,
          hne', halt, hget, htl, hprev, List.getElem?_append_left, List.getElem?_set]
        rw [hea]
        exact hrestore


theorem DllWF.concat_none {s : State} {l : List Nat} (hwf : DllWF s l) :
    DllWF { s with dllHeap := s.dllHeap ++ [none] } l :=
  ⟨hwf.chain.frame_concat none, hwf.tail, hwf.nodup⟩

/-- C10: on a well-formed module list, when the four allocations succeed and `LoadLibraryW`
or `GetProcAddress` fails, then for every error value `err` that `GetLastError` reports for
the failure (an error value is a value other than `ERROR_SUCCESS`, the code for "no
error"), `LoadHelperDll` returns `err` and the module list is the list before the call:
`pDllListHead` and `pDllListTail` are unchanged, every entry allocated before the call is
unchanged, the list has the same entries in the same order, and the entry of the module
that failed to load has been released. -/
theorem LoadHelperDll_unwinds_on_load_failure (s : State) (l : List Nat) (pszDllName : WSTR)
    (bRegister : Bool) (env : LoadEnv) (err : DWORD) (hwf : DllWF s l)
    (hal : env.allocsOk) (hfail : env.loadFails err) (herr : err ≠ ERROR_SUCCESS) :
    ∃ s' : State, LoadHelperDll s pszDllName bRegister env = some (err, s') ∧
      s'.pDllListHead = s.pDllListHead ∧ s'.pDllListTail = s.pDllListTail ∧
      (∀ a, a < s.dllHeap.length → s'.dllHeap[a]? = s.dllHeap[a]?) ∧
      s'.dllHeap[s.dllHeap.length]? = some none ∧
      DllWF s' l ∧ s' = { s with dllHeap := s'.dllHeap } :=
  ⟨_, LoadHelperDll_fail_unwinds hwf pszDllName bRegister env err hal hfail herr, rfl, rfl,
    fun _ ha => List.getElem?_append_left ha, by simp, hwf.concat_none, rfl⟩

/-! ## The module list: link surgery -/

theorem DllHeap.get_eq (h : DllHeap) (a : Nat) : DllHeap.get h a = (h[a]?).join := by
  unfold DllHeap.get
  cases hx : h[a]? with
  | none => rfl
  | some o => cases o <;> rfl

theorem DllHeap.getElem?_modify (h : DllHeap) (a : Nat) (f : DLL_LIST_ENTRY → DLL_LIST_ENTRY)
    (b : Nat) :
    (DllHeap.modify h a f)[b]? = if a = b then (h[b]?).map (Option.map f) else h[b]? := by
  unfold DllHeap.modify
  cases hx : DllHeap.get h a with
  | none =>
    by_cases hab : a = b
    · subst hab
      rw [DllHeap.get_eq] at hx
      cases hy : h[a]? with
      | none => simp
      | some o =>
        cases o with
        | none => simp
        | some e => simp [hy] at hx
    · simp [hab]
  | some e =>
    obtain ⟨ha, hy⟩ := DllHeap.get_lt hx
    by_cases hab : a = b
    · subst hab; simp [List.getElem?_set, ha, hy]
    · simp [List.getElem?_set, hab]

theorem DllHeap.getElem?_modifyOpt (h : DllHeap) (p : Option Nat)
    (f : DLL_LIST_ENTRY → DLL_LIST_ENTRY) (b : Nat) :
    (DllHeap.modifyOpt h p f)[b]? =
      if p = some b then (h[b]?).map (Option.map f) else h[b]? := by
  cases p with
  | none => simp [DllHeap.modifyOpt]
  | some a => simp [DllHeap.modifyOpt, DllHeap.getElem?_modify]

theorem DllHeap.get_modify (h : DllHeap) (a : Nat) (f : DLL_LIST_ENTRY → DLL_LIST_ENTRY)
    (b : Nat) :
    DllHeap.get (DllHeap.modify h a f) b =
      if a = b then (DllHeap.get h b).map f else DllHeap.get h b := by
  simp only [DllHeap.get_eq, DllHeap.getElem?_modify]
  split
  · cases h[b]? with
    | none => rfl
    | some o => cases o <;> rfl
  · rfl

theorem DllHeap.get_modifyOpt (h : DllHeap) (p : Option Nat)
    (f : DLL_LIST_ENTRY → DLL_LIST_ENTRY) (b : Nat) :
    DllHeap.get (DllHeap.modifyOpt h p f) b =
      if p = some b then (DllHeap.get h b).map f else DllHeap.get h b := by
  cases p with
  | none => simp [DllHeap.modifyOpt]
  | some a => simp [DllHeap.modifyOpt, DllHeap.get_modify]

theorem DllHeap.length_modify (h : DllHeap) (a : Nat) (f : DLL_LIST_ENTRY → DLL_LIST_ENTRY) :
    (DllHeap.modify h a f).length = h.length := by
  unfold DllHeap.modify
  cases DllHeap.get h a <;> simp

theorem DllHeap.length_modifyOpt (h : DllHeap) (p : Option Nat)
    (f : DLL_LIST_ENTRY → DLL_LIST_ENTRY) : (DllHeap.modifyOpt h p f).length = h.length := by
  cases p with
  | none => rfl
  | some a => exact DllHeap.length_modify h a f

theorem DllHeap.upd_eq_modify {h : DllHeap} {a : Nat} {e : DLL_LIST_ENTRY}
    (hx : DllHeap.get h a = some e) (f : DLL_LIST_ENTRY → DLL_LIST_ENTRY) :
    DllHeap.upd h a f = some (DllHeap.modify h a f) := by
  simp [DllHeap.upd, DllHeap.modify, hx]

/-- The effect of `unlinkDll` on a live entry whose neighbours are live and different from
it: the two neighbours are linked to each other, the list ends move off the entry, and
the links of the entry are cleared. -/
theorem unlinkDll_eq {s : State} {a : Nat} {ea : DLL_LIST_ENTRY}
    (hx : DllHeap.get s.dllHeap a = some ea)
    (hprev : ∀ q, ea.pPrev = some q → q ≠ a ∧ DllHeap.get s.dllHeap q ≠ none)
    (hnext : ∀ n, ea.pNext = some n → n ≠ a ∧ DllHeap.get s.dllHeap n ≠ none) :
    unlinkDll s a = some
      { s with
        dllHeap := DllHeap.modify
          (DllHeap.modifyOpt
            (DllHeap.modifyOpt s.dllHeap ea.pPrev fun x => { x with pNext := ea.pNext })
            ea.pNext fun x => { x with pPrev := ea.pPrev })
          a fun x => { x with pPrev := none, pNext := none },
        pDllListHead := if s.pDllListHead = some a then ea.pNext else s.pDllListHead,
        pDllListTail := if s.pDllListTail = some a then ea.pPrev else s.pDllListTail } := by
  unfold unlinkDll
  simp only [hx]
  cases hp : ea.pPrev with
  | none =>
    cases hn : ea.pNext with
    | none =>
      simp only [hx, hn, hp, DllHeap.modifyOpt, DllHeap.upd_eq_modify hx]
    | some n =>
      obtain ⟨hna, hnl⟩ := hnext n hn
      obtain ⟨en, hen⟩ := Option.ne_none_iff_exists'.mp hnl
      have hx2 : DllHeap.get (DllHeap.modify s.dllHeap n fun x =>
          { x with pPrev := none }) a = some ea := by
        rw [DllHeap.get_modify, if_neg hna, hx]
      simp only [hx, hn, hp, DllHeap.modifyOpt, DllHeap.upd_eq_modify hen, hx2,
        DllHeap.upd_eq_modify hx2]
  | some q =>
    obtain ⟨hqa, hql⟩ := hprev q hp
    obtain ⟨eq, heq⟩ := Option.ne_none_iff_exists'.mp hql
    have hx1 : DllHeap.get (DllHeap.modify s.dllHeap q fun x =>
        { x with pNext := ea.pNext }) a = some ea := by
      rw [DllHeap.get_modify, if_neg hqa, hx]
    cases hn : ea.pNext with
    | none =>
      rw [hn] at hx1
      simp only [hn, hp, DllHeap.modifyOpt, DllHeap.upd_eq_modify heq, hx1,
        DllHeap.upd_eq_modify hx1]
    | some n =>
      obtain ⟨hna, hnl⟩ := hnext n hn
      obtain ⟨en, hen⟩ := Option.ne_none_iff_exists'.mp hnl
      rw [hn] at hx1
      have hen1 : DllHeap.get (DllHeap.modify s.dllHeap q fun x =>
          { x with pNext := some n }) n ≠ none := by
        rw [DllHeap.get_modify]
        split <;> simp [hen]
      obtain ⟨en', hen'⟩ := Option.ne_none_iff_exists'.mp hen1
      have hx2 : DllHeap.get (DllHeap.modify (DllHeap.modify s.dllHeap q fun x =>
          { x with pNext := some n }) n fun x => { x with pPrev := some q }) a = some ea := by
        rw [DllHeap.get_modify, if_neg hna, hx1]
      simp only [hn, hp, DllHeap.modifyOpt, DllHeap.upd_eq_modify heq, hx1,
        DllHeap.upd_eq_modify hen', hx2, DllHeap.upd_eq_modify hx2]


theorem DllChain.unfold_cons {h : DllHeap} {prev p : Option Nat} {a : Nat} {l : List Nat} :
    DllChain h prev p (a :: l) ↔
      p = some a ∧ ∃ e, DllHeap.get h a = some e ∧ e.pPrev = prev ∧
        DllChain h (some a) e.pNext l := by
  rw [DllChain]
  cases hx : DllHeap.get h a with
  | none => simp
  | some e => simp

theorem DllChain.of_links_eq {h h' : DllHeap} :
    ∀ {l : List Nat} {prev p : Option Nat}, DllChain h prev p l →
      (∀ b ∈ l, (DllHeap.get h' b).map DLL_LIST_ENTRY.links =
        (DllHeap.get h b).map DLL_LIST_ENTRY.links) →
      DllChain h' prev p l := by
  intro l
  induction l with
  | nil => intro prev p hc _; exact hc
  | cons a l ih =>
    intro prev p hc hfr
    rw [DllChain.unfold_cons] at hc ⊢
    obtain ⟨hp, e, hx, hprev, hrest⟩ := hc
    have ha := hfr a (List.mem_cons_self _ _)
    rw [hx] at ha
    cases hx' : DllHeap.get h' a with
    | none => simp [hx'] at ha
    | some e' =>
      simp only [hx', Option.map_some', Option.some.injEq, DLL_LIST_ENTRY.links,
        Prod.mk.injEq] at ha
      refine ⟨hp, e', rfl, by rw [ha.1]; exact hprev, ?_⟩
      rw [ha.2]
      exact ih hrest fun b hb => hfr b (List.mem_cons_of_mem _ hb)

theorem DllChain.head_eq {h : DllHeap} {prev p : Option Nat} {l : List Nat}
    (hc : DllChain h prev p l) : p = l.head? := by
  cases l with
  | nil => exact hc
  | cons a l =>
    rw [DllChain.unfold_cons] at hc
    simpa using hc.1

/-- In a chain through `a` the entry of `a` points back at its predecessor (at `prev` when
it is the first) and heads the rest of the chain. -/
theorem DllChain.at_mem {h : DllHeap} {a : Nat} {ea : DLL_LIST_ENTRY}
    (hx : DllHeap.get h a = some ea) {l2 : List Nat} :
    ∀ (l1 : List Nat) {prev p : Option Nat}, DllChain h prev p (l1 ++ a :: l2) →
      ea.pPrev = (match l1.getLast? with | some b => some b | none => prev) ∧
        DllChain h (some a) ea.pNext l2 := by
  intro l1
  induction l1 with
  | nil =>
    intro prev p hc
    rw [List.nil_append, DllChain.unfold_cons] at hc
    obtain ⟨-, e, hx', hprev, hrest⟩ := hc
    rw [hx] at hx'
    cases hx'
    exact ⟨by simpa using hprev, hrest⟩
  | cons b l1 ih =>
    intro prev p hc
    rw [List.cons_append, DllChain.unfold_cons] at hc
    obtain ⟨-, e, -, -, hrest⟩ := hc
    obtain ⟨h1, h2⟩ := ih hrest
    refine ⟨?_, h2⟩
    rw [h1]
    cases l1 with
    | nil => simp
    | cons c l1' =>
      cases hgl : (c :: l1').getLast? with
      | none => simp [List.getLast?_eq_none_iff] at hgl
      | some z => simp [List.getLast?_cons_cons, hgl]


theorem DllHeap.get_unlinked_of_ne {h : DllHeap} {a b : Nat} {ea : DLL_LIST_ENTRY}
    (hba : b ≠ a) (hp : ea.pPrev ≠ some b) (hn : ea.pNext ≠ some b) :
    DllHeap.get (DllHeap.unlinked h a ea) b = DllHeap.get h b := by
  have hab : ¬ a = b := fun hc => hba hc.symm
  simp [DllHeap.unlinked, DllHeap.get_modify, DllHeap.get_modifyOpt, hab, hp, hn]

theorem DllHeap.get_unlinked_next {h : DllHeap} {a b : Nat} {ea : DLL_LIST_ENTRY}
    (hba : b ≠ a) (hp : ea.pPrev ≠ some b) (hn : ea.pNext = some b) :
    DllHeap.get (DllHeap.unlinked h a ea) b =
      (DllHeap.get h b).map fun x => { x with pPrev := ea.pPrev } := by
  have hab : ¬ a = b := fun hc => hba hc.symm
  simp [DllHeap.unlinked, DllHeap.get_modify, DllHeap.get_modifyOpt, hab, hp, hn]

theorem DllHeap.get_unlinked_prev {h : DllHeap} {a b : Nat} {ea : DLL_LIST_ENTRY}
    (hba : b ≠ a) (hp : ea.pPrev = some b) (hn : ea.pNext ≠ some b) :
    DllHeap.get (DllHeap.unlinked h a ea) b =
      (DllHeap.get h b).map fun x => { x with pNext := ea.pNext } := by
  have hab : ¬ a = b := fun hc => hba hc.symm
  simp [DllHeap.unlinked, DllHeap.get_modify, DllHeap.get_modifyOpt, hab, hp, hn]

theorem DllHeap.get_unlinked_self {h : DllHeap} {a : Nat} {ea : DLL_LIST_ENTRY}
    (hx : DllHeap.get h a = some ea) (hp : ea.pPrev ≠ some a) (hn : ea.pNext ≠ some a) :
    DllHeap.get (DllHeap.unlinked h a ea) a = some { ea with pPrev := none, pNext := none } := by
  simp [DllHeap.unlinked, DllHeap.get_modify, DllHeap.get_modifyOpt, hp, hn, hx]

/-- Unlinking `a` from a chain leaves the chain without `a`. -/
theorem DllChain.unlink {h : DllHeap} {a : Nat} {ea : DLL_LIST_ENTRY}
    (hx : DllHeap.get h a = some ea) {l2 : List Nat} :
    ∀ (l1 : List Nat) {prev p : Option Nat}, DllChain h prev p (l1 ++ a :: l2) →
      (l1 ++ a :: l2).Nodup → (∀ q, prev = some q → q ∉ l1 ++ a :: l2) →
      DllChain (DllHeap.unlinked h a ea) prev (if l1 = [] then ea.pNext else p) (l1 ++ l2) := by
  intro l1
  induction l1 with
  | nil =>
    intro prev p hc hnd hprev
    obtain ⟨hpa, hrest⟩ := DllChain.at_mem hx [] hc
    simp only [List.getLast?_nil] at hpa
    simp only [List.nil_append, if_true] at hnd hprev ⊢
    rw [List.nodup_cons] at hnd
    cases l2 with
    | nil => exact hrest
    | cons n l2' =>
      rw [DllChain.unfold_cons] at hrest ⊢
      obtain ⟨hn, en, hxn, -, hrest'⟩ := hrest
      have hna : n ≠ a := by
        rintro rfl
        exact hnd.1 (List.mem_cons_self _ _)
      have hpn : ea.pPrev ≠ some n := by
        rw [hpa]
        intro hc'
        exact hprev n hc' (by simp)
      refine ⟨hn, { en with pPrev := ea.pPrev }, ?_, hpa, ?_⟩
      · rw [DllHeap.get_unlinked_next hna hpn hn, hxn]
        rfl
      · refine hrest'.of_links_eq fun b hb => ?_
        have hbl : b ∈ n :: l2' := List.mem_cons_of_mem _ hb
        have hba : b ≠ a := by
          rintro rfl
          exact hnd.1 hbl
        have hbn : b ≠ n := by
          rintro rfl
          exact (List.nodup_cons.mp hnd.2).1 hb
        rw [DllHeap.get_unlinked_of_ne hba]
        · rw [hpa]
          intro hc'
          exact hprev b hc' (by simp [hbl])
        · rw [hn]
          intro hc'
          exact hbn (Option.some.inj hc').symm
  | cons b l1 ih =>
    intro prev p hc hnd hprev
    have hc0 := hc
    obtain ⟨hpa, hrest2⟩ := DllChain.at_mem hx (b :: l1) hc
    rw [List.cons_append, DllChain.unfold_cons] at hc
    obtain ⟨hp, eb, hxb, hpb, hrest⟩ := hc
    rw [List.cons_append, List.nodup_cons] at hnd
    obtain ⟨hbnot, hnd'⟩ := hnd
    have hih := ih hrest hnd' (fun q hq => by cases hq; exact hbnot)
    have hba : b ≠ a := by
      rintro rfl
      exact hbnot (by simp)
    have hnb : ea.pNext ≠ some b := by
      rw [hrest2.head_eq]
      intro hc'
      exact hbnot (by simp [List.mem_of_mem_head? hc'])
    simp only [List.cons_append, if_false, reduceCtorEq]
    rw [DllChain.unfold_cons]
    cases l1 with
    | nil =>
      simp only [List.getLast?_singleton] at hpa
      simp only [if_true, List.nil_append] at hih
      refine ⟨hp, { eb with pNext := ea.pNext }, ?_, hpb, hih⟩
      rw [DllHeap.get_unlinked_prev hba hpa hnb, hxb]
      rfl
    | cons c l1' =>
      simp only [if_false, reduceCtorEq] at hih
      have hpb' : ea.pPrev ≠ some b := by
        rw [hpa]
        cases hgl : (b :: c :: l1').getLast? with
        | none => simp [List.getLast?_eq_none_iff] at hgl
        | some z =>
          simp only [Option.some.injEq, ne_eq]
          rintro rfl
          rw [List.getLast?_cons_cons] at hgl
          have := List.mem_of_getLast?_eq_some hgl
          exact hbnot (by simp at this ⊢; tauto)
      refine ⟨hp, eb, ?_, hpb, hih⟩
      rw [DllHeap.get_unlinked_of_ne hba hpb' hnb, hxb]


theorem DllChain.get_ne_none {h : DllHeap} :
    ∀ {l : List Nat} {prev p : Option Nat}, DllChain h prev p l →
      ∀ a ∈ l, DllHeap.get h a ≠ none := by
  intro l
  induction l with
  | nil => intro prev p _ a ha; simp at ha
  | cons b l ih =>
    intro prev p hc a ha
    rw [DllChain.unfold_cons] at hc
    obtain ⟨-, e, hx, -, hrest⟩ := hc
    simp only [List.mem_cons] at ha
    rcases ha with rfl | ha
    · simp [hx]
    · exact ih hrest a ha

theorem DllWF.listHead_eq {s : State} {l : List Nat} (hwf : DllWF s l) :
    s.pDllListHead = l.head? := hwf.chain.head_eq

theorem LoadHelperDll_eq_loadAfterInsert {s : State} {l : List Nat} (hwf : DllWF s l)
    (pszDllName : WSTR) (bRegister : Bool) (env : LoadEnv) (hal : env.allocsOk) :
    LoadHelperDll s pszDllName bRegister env =
      loadAfterInsert (linkedAtHead s (loadEntry pszDllName env)) s.dllHeap.length
        bRegister env := by
  obtain ⟨h1, h2, h3, h4⟩ := hal
  cases l with
  | nil =>
    have hh : s.pDllListHead = none := hwf.chain
    have ht : s.pDllListTail = none := hwf.tail
    simp only [LoadHelperDll, h1, h2, h3, h4, DllHeap.upd_concat_length, insertDllAtHead, ht,
      hh, linkedAtHead, loadEntry, DllHeap.modifyOpt, DLL_LIST_ENTRY.zero, Bool.true_eq_false,
      if_false, if_true, loadAfterInsert]
  | cons a l' =>
    have hc := hwf.chain
    rw [DllChain.unfold_cons] at hc
    obtain ⟨hh, ea, hx, hprev, -⟩ := hc
    obtain ⟨halt, hget⟩ := DllHeap.get_lt hx
    have ht : s.pDllListTail ≠ none := by
      rw [hwf.tail]; simp
    have hane : ¬ a = s.dllHeap.length := by omega
    have hne' : ¬ s.dllHeap.length = a := by omega
    simp [LoadHelperDll, h1, h2, h3, h4, DllHeap.upd_concat_length, insertDllAtHead, ht, hh,
      loadAfterInsert, linkedAtHead, loadEntry, DllHeap.modifyOpt, DLL_LIST_ENTRY.zero,
      DllHeap.upd_concat_old _ _ _ hx, DllHeap.modify, hx, DllHeap.upd, DllHeap.get, hane,
      hne', halt, hget, List.getElem?_append_left, List.getElem?_set, List.set_append]


theorem EntryPointRan.same (s : State) (d : Option Nat) : EntryPointRan s s d :=
  ⟨le_refl _, fun a e hx => ⟨e, hx, rfl, rfl, rfl⟩, fun a e hle hx => by
    have := getElem?_lt_of_some hx
    omega, rfl, rfl, rfl, rfl, rfl⟩

theorem EntryPointRan.comp {s1 s2 s3 : State} {d : Option Nat} (h12 : EntryPointRan s1 s2 d)
    (h23 : EntryPointRan s2 s3 d) : EntryPointRan s1 s3 d := by
  refine ⟨le_trans h12.length h23.length, fun a e hx => ?_, fun a e hle hx => ?_, ?_⟩
  · obtain ⟨e2, hx2, ha2, hb2, hd2⟩ := h12.old a e hx
    obtain ⟨e3, hx3, ha3, hb3, hd3⟩ := h23.old a e2 hx2
    exact ⟨e3, hx3, ha3.trans ha2, hb3.trans hb2, hd3.trans hd2⟩
  · by_cases hlt : a < s2.helperHeap.length
    · obtain ⟨e3, hx3, -, -, hd3⟩ := h23.old a _ (List.getElem?_eq_getElem hlt)
      rw [hx] at hx3
      cases hx3
      rw [hd3]
      exact h12.new a _ hle (List.getElem?_eq_getElem hlt)
    · exact h23.new a e (by omega) hx
  · obtain ⟨a1, a2, a3, a4, a5⟩ := h12.rest
    obtain ⟨b1, b2, b3, b4, b5⟩ := h23.rest
    exact ⟨b1.trans a1, b2.trans a2, b3.trans a3, b4.trans a4, b5.trans a5⟩

theorem Allocated.entryPointRan {s s' : State} {parent : Option GUID}
    {desc : NS_HELPER_ATTRIBUTES} (hal : Allocated s s' parent desc) :
    EntryPointRan s s' s.pCurrentDll := by
  refine ⟨by rw [hal.length]; omega, fun a e hx => ?_, fun a e hle hx => ?_, hal.rest⟩
  · obtain ⟨e', h1, h2, h3, h4, -⟩ := hal.old a e hx
    exact ⟨e', h1, h2, h3, h4⟩
  · have hlt := getElem?_lt_of_some hx
    rw [hal.length] at hlt
    have : a = s.helperHeap.length := by omega
    subst this
    obtain ⟨e0, hx0, -, hd, -⟩ := hal.entry
    rw [hx] at hx0
    cases hx0
    exact hd

/-- A call of `RegisterHelper` on a well-formed forest returns, keeps the forest well
formed and changes nothing but the helper forest. -/
theorem RegisterHelper_step {s : State} {f : Forest} (hwf : HelperWF s f)
    (parent : Option GUID) (desc : NS_HELPER_ATTRIBUTES) (ok : Bool) :
    ∃ st s' f', RegisterHelper s parent desc ok = some (st, s') ∧ HelperWF s' f' ∧
      EntryPointRan s s' s.pCurrentDll := by
  rcases RegisterHelper_cases hwf parent desc ok with
    ⟨-, h⟩ | ⟨-, -, h⟩ | ⟨-, -, -, s1, h, hwf', hal⟩ | ⟨-, -, gp, -, -, s1, h, hwf', hal⟩ |
    ⟨-, -, gp, P, -, -, s1, h, hwf', hal⟩
  · exact ⟨_, _, f, h, hwf, EntryPointRan.same _ _⟩
  · exact ⟨_, _, f, h, hwf, EntryPointRan.same _ _⟩
  · exact ⟨_, _, _, h, hwf', hal.entryPointRan⟩
  · exact ⟨_, _, _, h, hwf', hal.entryPointRan⟩
  · exact ⟨_, _, _, h, hwf', hal.entryPointRan⟩

theorem runRegisterCalls_entryPoint (d : Option Nat) (calls : List RegisterCall)
    (hd : ∀ c ∈ calls, c.pCurrentDll = d) :
    ∀ (s : State) (f : Forest), HelperWF s f → s.pCurrentDll = d →
      ∃ s' f', runRegisterCalls s calls = some s' ∧ HelperWF s' f' ∧ EntryPointRan s s' d := by
  induction calls with
  | nil => intro s f hwf _; exact ⟨s, f, rfl, hwf, EntryPointRan.same _ _⟩
  | cons c cs ih =>
    intro s f hwf hsd
    have hcd : c.pCurrentDll = d := hd c (List.mem_cons_self _ _)
    have hs0 : ({ s with pCurrentDll := c.pCurrentDll } : State) = s := by
      rw [hcd, ← hsd]
    obtain ⟨st, s1, f1, h1, hwf1, hr1⟩ :=
      RegisterHelper_step hwf c.pguidParentHelper c.Attributes c.heapAllocOk
    rw [hsd] at hr1
    obtain ⟨s', f', h2, hwf', hr2⟩ :=
      ih (fun c' hc' => hd c' (List.mem_cons_of_mem _ hc')) s1 f1 hwf1 (by rw [hr1.rest.2.2.2.1, hsd])
    refine ⟨s', f', ?_, hwf', hr1.comp hr2⟩
    simp only [runRegisterCalls, hs0, h1, h2]

theorem callInitHelperDll_spec {s : State} {f : Forest} (hwf : HelperWF s f)
    (init : NS_DLL_INIT_FN) :
    ∃ s' f', callInitHelperDll s init = some s' ∧ HelperWF s' f' ∧
      EntryPointRan s s' s.pCurrentDll := by
  unfold callInitHelperDll
  exact runRegisterCalls_entryPoint s.pCurrentDll _ (fun c hc => by
    simp only [List.mem_map] at hc
    obtain ⟨x, -, rfl⟩ := hc
    rfl) s f hwf rfl

/-! ## LoadHelperDll: the outcome on every path -/

theorem DllWF.cons_linked {s : State} {l : List Nat} (hwf : DllWF s l) (e : DLL_LIST_ENTRY) :
    DllWF (linkedAtHead s e) (s.dllHeap.length :: l) := by
  have hlt : ∀ a ∈ l, a < s.dllHeap.length := fun a ha => hwf.chain.addr_lt_length a ha
  have hnl : s.dllHeap.length ∉ l := fun hc => Nat.lt_irrefl _ (hlt _ hc)
  refine ⟨?_, ?_, List.nodup_cons.mpr ⟨hnl, hwf.nodup⟩⟩
  · rw [DllChain.unfold_cons]
    refine ⟨rfl, { e with pPrev := none, pNext := s.pDllListHead }, ?_, rfl, ?_⟩
    · simp only [Netsh.linkedAtHead]
      rw [DllHeap.get_eq, List.getElem?_append_right (by rw [DllHeap.length_modifyOpt])]
      simp [DllHeap.length_modifyOpt]
    · show DllChain (Netsh.linkedAtHead s e).dllHeap (some s.dllHeap.length) s.pDllListHead l
      cases l with
      | nil => exact hwf.chain
      | cons a l' =>
        have hc := hwf.chain
        rw [DllChain.unfold_cons] at hc ⊢
        obtain ⟨hh, ea, hx, hprev, hrest⟩ := hc
        have hal : a < s.dllHeap.length := hlt a (List.mem_cons_self _ _)
        refine ⟨hh, { ea with pPrev := some s.dllHeap.length }, ?_, rfl, ?_⟩
        · simp only [Netsh.linkedAtHead, hh, DllHeap.modifyOpt]
          rw [DllHeap.get_eq, List.getElem?_append_left (by rw [DllHeap.length_modify]; exact hal),
            ← DllHeap.get_eq, DllHeap.get_modify, if_pos rfl, hx]
          rfl
        · refine hrest.of_links_eq fun b hb => ?_
          have hba : b ≠ a := by
            rintro rfl
            exact (List.nodup_cons.mp hwf.nodup).1 hb
          have hbl : b < s.dllHeap.length := hlt b (List.mem_cons_of_mem _ hb)
          simp only [Netsh.linkedAtHead, hh, DllHeap.modifyOpt]
          rw [DllHeap.get_eq, List.getElem?_append_left (by rw [DllHeap.length_modify]; exact hbl),
            ← DllHeap.get_eq, DllHeap.get_modify, if_neg (Ne.symm hba)]
  · simp only [Netsh.linkedAtHead]
    cases l with
    | nil => simp [hwf.tail]
    | cons a l' =>
      have : s.pDllListTail ≠ none := by rw [hwf.tail]; simp
      rw [if_neg this, hwf.tail]
      simp [List.getLast?_cons_cons]

/-- The code at the label `done`, run with a non-zero status on any state whose module list
is the list of `s` with a new entry linked at the head, restores the list of `s` and
releases the new entry. -/
theorem loadHelperDllDone_unwinds {s : State} {l : List Nat} (hwf : DllWF s l)
    (e : DLL_LIST_ENTRY) (t : State) (hd : t.dllHeap = (linkedAtHead s e).dllHeap)
    (hh : t.pDllListHead = some s.dllHeap.length)
    (htl : t.pDllListTail = (linkedAtHead s e).pDllListTail)
    (err : DWORD) (herr : err ≠ ERROR_SUCCESS) :
    loadHelperDllDone t s.dllHeap.length true err =
      some (err, { t with dllHeap := s.dllHeap ++ [none], pDllListHead := s.pDllListHead,
                          pDllListTail := s.pDllListTail }) := by
  cases l with
  | nil =>
    have hh0 : s.pDllListHead = none := hwf.chain
    have ht0 : s.pDllListTail = none := hwf.tail
    simp only [linkedAtHead, hh0, ht0, DllHeap.modifyOpt, if_true] at hd htl
    simp [loadHelperDllDone, herr, unlinkDll, hd, hh, htl, DllHeap.get_concat_length,
      FreeHelperDll, DllHeap.upd, hh0, ht0]
  | cons a l' =>
    have hc := hwf.chain
    rw [DllChain.unfold_cons] at hc
    obtain ⟨hh0, ea, hx, hprev, -⟩ := hc
    obtain ⟨halt, hget⟩ := DllHeap.get_lt hx
    have ht0 : s.pDllListTail ≠ none := by
      rw [hwf.tail]; simp
    have hane : ¬ a = s.dllHeap.length := by omega
    have hne' : ¬ s.dllHeap.length = a := by omega
    have hrestore : s.dllHeap.set a (some ea) = s.dllHeap := DllHeap.set_self hx
    have htn : ¬ s.pDllListTail = some s.dllHeap.length := by
      rw [hwf.tail]
      intro hcon
      have hmem := List.mem_of_getLast?_eq_some hcon
      exact Nat.lt_irrefl _ (hwf.chain.addr_lt_length _ hmem)
    have hea : ({ ea with pPrev := none } : DLL_LIST_ENTRY) = ea := by
      cases ea
      simp only [DLL_LIST_ENTRY.mk.injEq, and_true, true_and] at hprev ⊢
      exact hprev.symm
    simp only [linkedAtHead, hh0, DllHeap.modifyOpt, if_neg ht0, DllHeap.modify, hx] at hd htl
    simp [loadHelperDllDone, herr, unlinkDll, hd, hh, htl, DllHeap.get_concat_length,
      FreeHelperDll, DllHeap.upd, DllHeap.get, hane, hne', halt, hget, htn, hprev, hh0,
      List.getElem?_append_left, List.getElem?_set, List.set_append]
    rw [hea]
    exact hrestore

theorem HelperWF.of_fields {s s' : State} {f : Forest} (hwf : HelperWF s f)
    (h1 : s'.helperHeap = s.helperHeap) (h2 : s'.pHelperListHead = s.pHelperListHead)
    (h3 : s'.pHelperListTail = s.pHelperListTail) : HelperWF s' f :=
  ⟨by rw [h1, h2]; exact hwf.repr, by rw [h3]; exact hwf.tail, hwf.nodup⟩

theorem DllHeap.get_linkedAtHead_new (s : State) (e : DLL_LIST_ENTRY) :
    DllHeap.get (linkedAtHead s e).dllHeap s.dllHeap.length =
      some { e with pPrev := none, pNext := s.pDllListHead } := by
  simp only [linkedAtHead]
  rw [DllHeap.get_eq, List.getElem?_append_right (by rw [DllHeap.length_modifyOpt])]
  simp [DllHeap.length_modifyOpt]

/-- When an allocation fails, `LoadHelperDll` returns `ERROR_OUTOFMEMORY`; the module list
is untouched, and the entry, when it was allocated, is released. -/
theorem LoadHelperDll_alloc_fails (s : State) (pszDllName : WSTR) (bRegister : Bool)
    (env : LoadEnv) (hal : ¬ env.allocsOk) :
    (env.allocEntry = false ∧
        LoadHelperDll s pszDllName bRegister env = some (ERROR_OUTOFMEMORY, s)) ∨
      (env.allocEntry = true ∧ LoadHelperDll s pszDllName bRegister env =
        some (ERROR_OUTOFMEMORY, { s with dllHeap := s.dllHeap ++ [none] })) := by
  unfold LoadEnv.allocsOk at hal
  cases h1 : env.allocEntry with
  | false => left; simp [LoadHelperDll, h1]
  | true =>
    right
    refine ⟨rfl, ?_⟩
    cases h2 : env.allocDllName with
    | false =>
      simp [LoadHelperDll, h1, h2, loadHelperDllDone, FreeHelperDll, ERROR_OUTOFMEMORY,
        ERROR_SUCCESS, DllHeap.get_concat_length]
    | true =>
      cases h3 : env.allocShortName with
      | false =>
        simp [LoadHelperDll, h1, h2, h3, loadHelperDllDone, FreeHelperDll, ERROR_OUTOFMEMORY,
          ERROR_SUCCESS, DllHeap.get_concat_length, DllHeap.upd_concat_length]
      | true =>
        cases h4 : env.allocValueName with
        | false =>
          simp [LoadHelperDll, h1, h2, h3, h4, loadHelperDllDone, FreeHelperDll,
            ERROR_OUTOFMEMORY, ERROR_SUCCESS, DllHeap.get_concat_length,
            DllHeap.upd_concat_length]
        | true => exact absurd ⟨h1, h2, h3, h4⟩ hal

/-- When the allocations succeed but the library does not load or has no `InitHelperDll`,
`LoadHelperDll` returns the value of `GetLastError`; the entry is unlinked and released
unless that value is `ERROR_SUCCESS`. -/
theorem LoadHelperDll_not_entered {s : State} {l : List Nat} (hwf : DllWF s l)
    (pszDllName : WSTR) (bRegister : Bool) (env : LoadEnv) (hal : env.allocsOk)
    (hep : env.entryPoint = none) :
    LoadHelperDll s pszDllName bRegister env =
      some (env.status,
        if env.status = ERROR_SUCCESS then linkedAtHead s (loadEntry pszDllName env)
        else { s with dllHeap := s.dllHeap ++ [none] }) := by
  rw [LoadHelperDll_eq_loadAfterInsert hwf pszDllName bRegister env hal]
  have hal' := hal
  unfold LoadEnv.allocsOk at hal'
  have key : ∀ err : DWORD,
      loadHelperDllDone (linkedAtHead s (loadEntry pszDllName env)) s.dllHeap.length true err =
        some (err, if err = ERROR_SUCCESS then linkedAtHead s (loadEntry pszDllName env)
          else { s with dllHeap := s.dllHeap ++ [none] }) := by
    intro err
    by_cases herr : err = ERROR_SUCCESS
    · simp [loadHelperDllDone, herr]
    · rw [loadHelperDllDone_unwinds hwf _ _ rfl rfl rfl err herr, if_neg herr]
      rfl
  unfold LoadEnv.entryPoint at hep
  unfold LoadEnv.status loadAfterInsert
  rw [if_pos hal'] at hep ⊢
  cases hm : env.hModule with
  | none => exact key _
  | some m =>
    rw [hm] at hep
    simp only at hep
    rw [hep]
    exact key _

theorem LoadEnv.entryPoint_some {env : LoadEnv} {init : NS_DLL_INIT_FN}
    (hep : env.entryPoint = some init) :
    env.allocsOk ∧ (∃ m, env.hModule = some m) ∧ env.pInitHelperDll = some init := by
  unfold LoadEnv.entryPoint at hep
  by_cases hal : env.allocEntry = true ∧ env.allocDllName = true ∧ env.allocShortName = true ∧
      env.allocValueName = true
  · rw [if_pos hal] at hep
    cases hm : env.hModule with
    | none => rw [hm] at hep; cases hep
    | some m =>
      rw [hm] at hep
      exact ⟨hal, ⟨m, rfl⟩, hep⟩
  · rw [if_neg hal] at hep
    cases hep

/-- When the entry point is called, `LoadHelperDll` returns the status of the entry point.
The helper forest is what the `RegisterHelper` calls of the entry point, made with
`pCurrentDll` set to the new entry, have left.  After a non-zero status the entry is
unlinked and released; after `ERROR_SUCCESS` it stays, and with `bRegister` the value is
stored when the registry lets it. -/
theorem LoadHelperDll_entered {s : State} {l : List Nat} {f : Forest} (hwf : DllWF s l)
    (hf : HelperWF s f) (pszDllName : WSTR) (bRegister : Bool) (env : LoadEnv)
    (init : NS_DLL_INIT_FN) (hep : env.entryPoint = some init) :
    ∃ (s1 : State) (f1 : Forest), HelperWF s1 f1 ∧
      EntryPointRan { linkedAtHead s (loadEntry pszDllName env) with
          pCurrentDll := some s.dllHeap.length } s1 (some s.dllHeap.length) ∧
      LoadHelperDll s pszDllName bRegister env =
        some (init.dwError,
          if init.dwError = ERROR_SUCCESS then
            { s1 with
              pCurrentDll := none,
              regValues :=
                if bRegister = true ∧ env.regCreateKey = ERROR_SUCCESS ∧
                    env.regSetValueStores = true then
                  regSetValue s1.regValues (valueNameOf (shortNameOf pszDllName)) pszDllName
                else s1.regValues }
          else
            { s1 with dllHeap := s.dllHeap ++ [none], pDllListHead := s.pDllListHead,
                      pDllListTail := s.pDllListTail, pCurrentDll := none }) := by
  obtain ⟨hal, ⟨m, hm⟩, hi⟩ := LoadEnv.entryPoint_some hep
  have hf' : HelperWF { linkedAtHead s (loadEntry pszDllName env) with
      pCurrentDll := some s.dllHeap.length } f := hf.of_fields rfl rfl rfl
  obtain ⟨s1, f1, hcall, hf1, hran⟩ := callInitHelperDll_spec hf' init
  refine ⟨s1, f1, hf1, hran, ?_⟩
  obtain ⟨r1, r2, r3, -, -⟩ := hran.rest
  rw [LoadHelperDll_eq_loadAfterInsert hwf pszDllName bRegister env hal]
  unfold loadAfterInsert
  simp only [hm, hi, hcall]
  by_cases herr : init.dwError = ERROR_SUCCESS
  · have hx : DllHeap.get s1.dllHeap s.dllHeap.length =
        some { loadEntry pszDllName env with pPrev := none, pNext := s.pDllListHead } := by
      rw [r1]
      exact DllHeap.get_linkedAtHead_new s _
    simp only [herr, ne_eq, not_true_eq_false, if_false, if_true]
    cases bRegister with
    | false => simp [loadHelperDllDone]
    | true =>
      by_cases hk : env.regCreateKey = ERROR_SUCCESS
      · cases hst : env.regSetValueStores <;>
          simp [RegisterHelperDll, hx, hk, hst, loadEntry, loadHelperDllDone]
      · simp [RegisterHelperDll, hx, hk, loadHelperDllDone]
  · simp only [ne_eq, herr, not_false_eq_true, if_true, if_false]
    exact loadHelperDllDone_unwinds hwf (loadEntry pszDllName env)
      { s1 with pCurrentDll := none } r1 r2 r3 _ herr

theorem DLL_LIST_ENTRY.SameModule.self (e : DLL_LIST_ENTRY) : e.SameModule e :=
  ⟨Eq.refl _, Eq.refl _, Eq.refl _, Eq.refl _⟩

theorem DllHeap.get_linkedAtHead_old {s : State} {a : Nat} {e : DLL_LIST_ENTRY}
    (hx : DllHeap.get s.dllHeap a = some e) (e0 : DLL_LIST_ENTRY) :
    ∃ e' : DLL_LIST_ENTRY, DllHeap.get (linkedAtHead s e0).dllHeap a = some e' ∧
      e.SameModule e' := by
  obtain ⟨halt, -⟩ := DllHeap.get_lt hx
  simp only [linkedAtHead]
  rw [DllHeap.get_eq, List.getElem?_append_left (by rw [DllHeap.length_modifyOpt]; exact halt),
    ← DllHeap.get_eq, DllHeap.get_modifyOpt]
  split
  · rw [hx]
    exact ⟨_, Eq.refl _, Eq.refl _, Eq.refl _, Eq.refl _, Eq.refl _⟩
  · exact ⟨e, hx, DLL_LIST_ENTRY.SameModule.self e⟩

theorem DllHeap.get_concat_none_old {h : DllHeap} {a : Nat} {e : DLL_LIST_ENTRY}
    (hx : DllHeap.get h a = some e) : DllHeap.get (h ++ [none]) a = some e := by
  obtain ⟨halt, -⟩ := DllHeap.get_lt hx
  rw [DllHeap.get_eq, List.getElem?_append_left halt, ← DllHeap.get_eq, hx]

theorem LoadEnv.status_of_not_allocsOk {env : LoadEnv} (hal : ¬ env.allocsOk) :
    env.status = ERROR_OUTOFMEMORY ∧ env.entryPoint = none := by
  unfold LoadEnv.allocsOk at hal
  unfold LoadEnv.status LoadEnv.entryPoint
  rw [if_neg hal, if_neg hal]
  exact ⟨rfl, rfl⟩

theorem LoadEnv.status_of_entryPoint {env : LoadEnv} {init : NS_DLL_INIT_FN}
    (hep : env.entryPoint = some init) : env.status = init.dwError := by
  obtain ⟨hal, ⟨m, hm⟩, hi⟩ := LoadEnv.entryPoint_some hep
  unfold LoadEnv.allocsOk at hal
  unfold LoadEnv.status
  rw [if_pos hal, hm]
  simp only [hi]

theorem LoadEnv.not_succeeds_of_none {env : LoadEnv} (hep : env.entryPoint = none) :
    ¬ env.succeeds := by
  unfold LoadEnv.succeeds
  rw [hep]
  simp

theorem LoadEnv.succeeds_iff_of_entryPoint {env : LoadEnv} {init : NS_DLL_INIT_FN}
    (hep : env.entryPoint = some init) : env.succeeds ↔ init.dwError = ERROR_SUCCESS := by
  unfold LoadEnv.succeeds
  rw [hep]
  simp

/-- On a well-formed module list and helper forest `LoadHelperDll` returns, with the
status the platform determines, and leaves both well formed. -/
theorem LoadHelperDll_loaded {s : State} {l : List Nat} {f : Forest} (hwf : DllWF s l)
    (hf : HelperWF s f) (pszDllName : WSTR) (bRegister : Bool) (env : LoadEnv) :
    ∃ (s' : State) (f' : Forest),
      LoadHelperDll s pszDllName bRegister env = some (env.status, s') ∧ HelperWF s' f' ∧
        Loaded s l pszDllName bRegister env s' := by
  have hold : ∀ (a : Nat) (e : HELPER_ENTRY), s.helperHeap[a]? = some e →
      ∃ e' : HELPER_ENTRY, s.helperHeap[a]? = some e' ∧ e'.Attributes = e.Attributes ∧
        e'.bStarted = e.bStarted ∧ e'.pDllEntry = e.pDllEntry :=
    fun a e hx => ⟨e, hx, rfl, rfl, rfl⟩
  have hnew : ∀ (a : Nat) (e : HELPER_ENTRY), s.helperHeap.length ≤ a →
      s.helperHeap[a]? = some e → e.pDllEntry = some s.dllHeap.length := by
    intro a e hle hx
    have := getElem?_lt_of_some hx
    omega
  by_cases hal : env.allocsOk
  · cases hep : env.entryPoint with
    | none =>
      have hns := LoadEnv.not_succeeds_of_none hep
      refine ⟨_, f, LoadHelperDll_not_entered hwf pszDllName bRegister env hal hep, ?_, ?_⟩
      · by_cases hst : env.status = ERROR_SUCCESS
        · rw [if_pos hst]; exact hf.of_fields rfl rfl rfl
        · rw [if_neg hst]; exact hf.of_fields rfl rfl rfl
      · by_cases hst : env.status = ERROR_SUCCESS
        · simp only [if_pos hst]
          refine ⟨by rw [if_pos hst]; exact hwf.cons_linked _, fun _ => ?_,
            fun a e hx => DllHeap.get_linkedAtHead_old hx _, fun h => absurd hst h,
            hold, hnew, ?_, ?_⟩
          · exact ⟨_, DllHeap.get_linkedAtHead_new s _, rfl, rfl, rfl, rfl⟩
          · simp [hns, linkedAtHead]
          · simp [hep, linkedAtHead]
        · simp only [if_neg hst]
          refine ⟨by rw [if_neg hst]; exact hwf.concat_none, fun h => absurd h hst,
            fun a e hx => ⟨e, DllHeap.get_concat_none_old hx, DLL_LIST_ENTRY.SameModule.self e⟩,
            fun _ => ⟨rfl, rfl, fun a ha => List.getElem?_append_left ha, fun _ => by simp⟩,
            hold, hnew, ?_, ?_⟩
          · simp [hns]
          · simp [hep]
    | some init =>
      obtain ⟨s1, f1, hf1, hran, hload⟩ :=
        LoadHelperDll_entered hwf hf pszDllName bRegister env init hep
      have hsi := LoadEnv.status_of_entryPoint hep
      have hsucc := LoadEnv.succeeds_iff_of_entryPoint hep
      have r1 : s1.dllHeap = (linkedAtHead s (loadEntry pszDllName env)).dllHeap :=
        hran.rest.1
      have r2 : s1.pDllListHead = some s.dllHeap.length := hran.rest.2.1
      have r3 : s1.pDllListTail = (linkedAtHead s (loadEntry pszDllName env)).pDllListTail :=
        hran.rest.2.2.1
      have r5 : s1.regValues = s.regValues := hran.rest.2.2.2.2
      rw [hsi]
      refine ⟨_, f1, hload, ?_, ?_⟩
      · by_cases hst : init.dwError = ERROR_SUCCESS
        · rw [if_pos hst]; exact hf1.of_fields rfl rfl rfl
        · rw [if_neg hst]; exact hf1.of_fields rfl rfl rfl
      · by_cases hst : init.dwError = ERROR_SUCCESS
        · simp only [if_pos hst]
          refine ⟨?_, fun _ => ?_, fun a e hx => ?_, fun h => absurd (hsi.trans hst) h,
            hran.old, hran.new, ?_, ?_⟩
          · rw [if_pos (hsi.trans hst)]
            have hl := hwf.cons_linked (loadEntry pszDllName env)
            refine ⟨?_, ?_, hl.nodup⟩
            · show DllChain s1.dllHeap none s1.pDllListHead _
              rw [r1, r2]
              exact hl.chain
            · show s1.pDllListTail = _
              rw [r3]
              exact hl.tail
          · refine ⟨{ loadEntry pszDllName env with pPrev := none, pNext := s.pDllListHead },
              ?_, rfl, rfl, rfl, rfl⟩
            show DllHeap.get s1.dllHeap s.dllHeap.length = _
            rw [r1]
            exact DllHeap.get_linkedAtHead_new s _
          · show ∃ e', DllHeap.get s1.dllHeap a = some e' ∧ _
            rw [r1]
            exact DllHeap.get_linkedAtHead_old hx _
          · show (if _ then _ else s1.regValues) = _
            rw [r5]
            simp [hsucc, hst, linkedAtHead]
          · simp [hep]
        · simp only [if_neg hst]
          have hst' : env.status ≠ ERROR_SUCCESS := by rw [hsi]; exact hst
          refine ⟨by rw [if_neg hst']; exact ⟨hwf.chain.frame_concat none, hwf.tail, hwf.nodup⟩,
            fun h => absurd h hst',
            fun a e hx => ⟨e, DllHeap.get_concat_none_old hx, DLL_LIST_ENTRY.SameModule.self e⟩,
            fun _ => ⟨rfl, rfl, fun a ha => List.getElem?_append_left ha, fun _ => by simp⟩,
            hran.old, hran.new, ?_, ?_⟩
          · show s1.regValues = _
            rw [r5]
            simp [hsucc, hst, linkedAtHead]
          · simp [hep]
  · obtain ⟨hst, hep⟩ := LoadEnv.status_of_not_allocsOk hal
    have hns := LoadEnv.not_succeeds_of_none hep
    have hne : env.status ≠ ERROR_SUCCESS := by rw [hst]; decide
    rw [hst]
    rcases LoadHelperDll_alloc_fails s pszDllName bRegister env hal with ⟨hae, h⟩ | ⟨-, h⟩
    · refine ⟨s, f, h, hf, ?_⟩
      refine ⟨by rw [hst, if_neg (by decide)]; exact hwf, fun h => absurd h hne,
        fun a e hx => ⟨e, hx, DLL_LIST_ENTRY.SameModule.self e⟩,
        fun _ => ⟨rfl, rfl, fun a ha => rfl, fun h => by rw [hae] at h; cases h⟩,
        hold, hnew, by simp [hns], by simp [hep]⟩
    · refine ⟨_, f, h, hf.of_fields rfl rfl rfl, ?_⟩
      refine ⟨by rw [hst, if_neg (by decide)]; exact hwf.concat_none, fun h => absurd h hne,
        fun a e hx => ⟨e, DllHeap.get_concat_none_old hx, DLL_LIST_ENTRY.SameModule.self e⟩,
        fun _ => ⟨rfl, rfl, fun a ha => List.getElem?_append_left ha, fun _ => by simp⟩,
        hold, hnew, by simp [hns], by simp [hep]⟩

/-! ## LoadHelperDll: names, persistence, current module -/

theorem wcsrchr_eq_none_iff (s : WSTR) (c : Char) : wcsrchr s c = none ↔ c ∉ s := by
  induction s with
  | nil => simp [wcsrchr]
  | cons x xs ih =>
    simp only [wcsrchr, List.mem_cons, not_or]
    cases h : wcsrchr xs c with
    | some i =>
      have : ¬ c ∉ xs := fun hc => by rw [ih.mpr hc] at h; cases h
      simp [this]
    | none =>
      have hc : c ∉ xs := ih.mp h
      by_cases hx : x = c
      · simp [hx]
      · simp [hx, hc, Ne.symm hx]

/-- The result of `wcsrchr` is the position of the last occurrence: the character stands
there and does not occur after it. -/
theorem wcsrchr_eq_some (s : WSTR) (c : Char) (i : Nat) (h : wcsrchr s c = some i) :
    s = s.take i ++ c :: s.drop (i + 1) ∧ c ∉ s.drop (i + 1) := by
  induction s generalizing i with
  | nil => simp [wcsrchr] at h
  | cons x xs ih =>
    simp only [wcsrchr] at h
    cases hr : wcsrchr xs c with
    | some j =>
      simp only [hr, Option.some.injEq] at h
      subst h
      obtain ⟨h1, h2⟩ := ih j hr
      refine ⟨?_, by simpa using h2⟩
      simp only [List.take_succ_cons, List.drop_succ_cons, List.cons_append]
      rw [← h1]
    | none =>
      simp only [hr] at h
      by_cases hx : x = c
      · simp only [hx, if_true, Option.some.injEq] at h
        subst h
        subst hx
        exact ⟨by simp, by simpa using (wcsrchr_eq_none_iff xs x).mp hr⟩
      · simp [hx] at h

/-- Whenever the path contains a backslash, the short name starts with one. -/
theorem shortNameOf_head (p : WSTR) (h : '\\' ∈ p) :
    ∃ rest : WSTR, shortNameOf p = '\\' :: rest ∧ '\\' ∉ rest := by
  unfold shortNameOf
  cases hr : wcsrchr p '\\' with
  | none => exact absurd h ((wcsrchr_eq_none_iff p _).mp hr)
  | some i =>
    obtain ⟨h1, h2⟩ := wcsrchr_eq_some p _ i hr
    refine ⟨p.drop (i + 1), ?_, h2⟩
    show p.drop i = _
    have hlen : i ≤ p.length := by
      by_contra hc
      have : p.take i = p := List.take_of_length_le (by omega)
      have hd : p.drop (i + 1) = [] := List.drop_of_length_le (by omega)
      rw [this, hd] at h1
      have := congrArg List.length h1
      simp at this
    conv_lhs => rw [h1]
    rw [List.drop_append_of_le_length (by simp [hlen])]
    simp [List.length_take, hlen]

theorem valueNameOf_spec (n : WSTR) :
    valueNameOf n <+: n ∧ ('.' ∉ n → valueNameOf n = n) ∧
      ('.' ∈ n → ∃ rest : WSTR, n = valueNameOf n ++ '.' :: rest ∧ '.' ∉ rest) := by
  unfold valueNameOf
  cases hr : wcsrchr n '.' with
  | none =>
    have := (wcsrchr_eq_none_iff n _).mp hr
    exact ⟨List.prefix_refl _, fun _ => rfl, fun h => absurd h this⟩
  | some j =>
    obtain ⟨h1, h2⟩ := wcsrchr_eq_some n _ j hr
    refine ⟨List.take_prefix _ _, fun h => ?_, fun _ => ⟨n.drop (j + 1), h1, h2⟩⟩
    exact absurd hr (by rw [(wcsrchr_eq_none_iff n _).mpr h]; simp)

/-- C11: on a well-formed module list, when the allocations, the dynamic load and the
resolution of `InitHelperDll` succeed but the entry point returns a status other than
`ERROR_SUCCESS`, `LoadHelperDll` returns that status; the module list afterwards is the list
before the call (same head and tail, every entry allocated before the call unchanged, the
same entries in the same order, the entry of the module released), and the stored values
are unchanged, whatever `bRegister` is. -/
theorem LoadHelperDll_entry_point_failure (s : State) (l : List Nat) (f : Forest)
    (pszDllName : WSTR) (bRegister : Bool) (env : LoadEnv) (init : NS_DLL_INIT_FN)
    (hwf : DllWF s l) (hf : HelperWF s f) (hep : env.entryPoint = some init)
    (herr : init.dwError ≠ ERROR_SUCCESS) :
    ∃ s' : State, LoadHelperDll s pszDllName bRegister env = some (init.dwError, s') ∧
      s'.pDllListHead = s.pDllListHead ∧ s'.pDllListTail = s.pDllListTail ∧
      (∀ a, a < s.dllHeap.length → s'.dllHeap[a]? = s.dllHeap[a]?) ∧
      s'.dllHeap[s.dllHeap.length]? = some none ∧
      DllWF s' l ∧ s'.regValues = s.regValues := by
  obtain ⟨s', f', hload, -, hl⟩ := LoadHelperDll_loaded hwf hf pszDllName bRegister env
  have hst := LoadEnv.status_of_entryPoint hep
  have hne : env.status ≠ ERROR_SUCCESS := by rw [hst]; exact herr
  have hns : ¬ env.succeeds := fun h => herr ((LoadEnv.succeeds_iff_of_entryPoint hep).mp h)
  obtain ⟨h1, h2, h3, h4⟩ := hl.unwound hne
  have hlist := hl.list
  rw [if_neg hne] at hlist
  rw [hst] at hload
  refine ⟨s', hload, h1, h2, h3, h4 (LoadEnv.entryPoint_some hep).1.1, hlist, ?_⟩
  rw [hl.store, if_neg (fun h => hns h.1)]

/-- C12: the short name keeps the separator.  For the path `C:\n\if.dll` the short name that
`LoadHelperDll` derives and stores in the entry of the module is `\if.dll`, not `if.dll`:
`pszStart` is the result of `wcsrchr`, which points at the last backslash, and is not
advanced past it. -/
theorem LoadHelperDll_short_name_keeps_separator :
    shortNameOf samplePath = ['\\', 'i', 'f', '.', 'd', 'l', 'l'] ∧
      (LoadHelperDll State.init samplePath false (entryPointReturns 0)).map
        (fun r => (r.1, (DllHeap.get r.2.dllHeap 0).map fun e => e.pszShortName)) =
          some (ERROR_SUCCESS, some (some ['\\', 'i', 'f', '.', 'd', 'l', 'l'])) :=
  ⟨by decide, by decide⟩

/-- C13: a successful `LoadHelperDll` leaves the module at the head of the list with the
short name `shortNameOf pszDllName` and the value name `valueNameOf` of that short name,
whatever the state, `bRegister` and the platform are.  The value name is a prefix of the
short name; it is the whole short name when that contains no `.`, and otherwise the part
before its last `.` (what follows the cut contains no `.`). -/
theorem LoadHelperDll_value_name (s : State) (l : List Nat) (f : Forest) (pszDllName : WSTR)
    (bRegister : Bool) (env : LoadEnv) (hwf : DllWF s l) (hf : HelperWF s f)
    (hs : env.succeeds) :
    ∃ (s' : State) (e : DLL_LIST_ENTRY),
      LoadHelperDll s pszDllName bRegister env = some (ERROR_SUCCESS, s') ∧
      s'.pDllListHead = some s.dllHeap.length ∧
      DllHeap.get s'.dllHeap s.dllHeap.length = some e ∧
      e.pszShortName = some (shortNameOf pszDllName) ∧
      e.pszValueName = some (valueNameOf (shortNameOf pszDllName)) ∧
      valueNameOf (shortNameOf pszDllName) <+: shortNameOf pszDllName ∧
      ('.' ∉ shortNameOf pszDllName →
        valueNameOf (shortNameOf pszDllName) = shortNameOf pszDllName) ∧
      ('.' ∈ shortNameOf pszDllName → ∃ rest : WSTR,
        shortNameOf pszDllName = valueNameOf (shortNameOf pszDllName) ++ '.' :: rest ∧
          '.' ∉ rest) := by
  obtain ⟨s', f', hload, -, hl⟩ := LoadHelperDll_loaded hwf hf pszDllName bRegister env
  have hst : env.status = ERROR_SUCCESS := by
    cases hep : env.entryPoint with
    | none => exact absurd hs (LoadEnv.not_succeeds_of_none hep)
    | some init =>
      rw [LoadEnv.status_of_entryPoint hep]
      exact (LoadEnv.succeeds_iff_of_entryPoint hep).mp hs
  obtain ⟨e, hx, -, h2, h3, -⟩ := hl.entry hst
  have hlist := hl.list
  rw [if_pos hst] at hlist
  rw [hst] at hload
  obtain ⟨p1, p2, p3⟩ := valueNameOf_spec (shortNameOf pszDllName)
  exact ⟨s', e, hload, hlist.listHead_eq, hx, h2, h3, p1, p2, p3⟩

/-- C18: on a well-formed state `LoadHelperDll` returns; the stored values afterwards are
the values before with the value name of the module set to its path when the load succeeds
(the entry point is called and returns `ERROR_SUCCESS`), `bRegister` is set and the
registry takes the value (`RegCreateKeyExW` succeeds and `RegSetValueExW` stores), and are
the values before in every other case.  So nothing is stored when `bRegister` is false or
the load does not succeed, and a load that succeeds returns `ERROR_SUCCESS` whatever the
outcome of the two registry calls. -/
theorem LoadHelperDll_persists (s : State) (l : List Nat) (f : Forest) (pszDllName : WSTR)
    (bRegister : Bool) (env : LoadEnv) (hwf : DllWF s l) (hf : HelperWF s f) :
    ∃ (st : DWORD) (s' : State), LoadHelperDll s pszDllName bRegister env = some (st, s') ∧
      s'.regValues =
        (if env.succeeds ∧ bRegister = true ∧ env.regCreateKey = ERROR_SUCCESS ∧
            env.regSetValueStores = true then
          regSetValue s.regValues (valueNameOf (shortNameOf pszDllName)) pszDllName
        else s.regValues) ∧
      (bRegister = false → s'.regValues = s.regValues) ∧
      (¬ env.succeeds → s'.regValues = s.regValues) ∧
      (env.succeeds → st = ERROR_SUCCESS) := by
  obtain ⟨s', f', hload, -, hl⟩ := LoadHelperDll_loaded hwf hf pszDllName bRegister env
  refine ⟨_, s', hload, hl.store, fun hb => ?_, fun hn => ?_, fun hs => ?_⟩
  · rw [hl.store, if_neg (fun h => by rw [hb] at h; exact Bool.false_ne_true h.2.1)]
  · rw [hl.store, if_neg (fun h => hn h.1)]
  · cases hep : env.entryPoint with
    | none => exact absurd hs (LoadEnv.not_succeeds_of_none hep)
    | some init =>
      rw [LoadEnv.status_of_entryPoint hep]
      exact (LoadEnv.succeeds_iff_of_entryPoint hep).mp hs

/-- C20: when `pCurrentDll` is null at the call, it is null again when `LoadHelperDll`
returns, on every path (the status is the one the platform determines: allocation failure,
load failure, missing entry point, the status of the entry point).  The helpers there
before the call keep their module, and every helper registered during the call, that is
by the entry point, is attributed to the entry of the module being loaded, which is the
head of the module list when the call returns `ERROR_SUCCESS`. -/
theorem LoadHelperDll_current_module (s : State) (l : List Nat) (f : Forest)
    (pszDllName : WSTR) (bRegister : Bool) (env : LoadEnv) (hwf : DllWF s l)
    (hf : HelperWF s f) (hcur : s.pCurrentDll = none) :
    ∃ s' : State, LoadHelperDll s pszDllName bRegister env = some (env.status, s') ∧
      s'.pCurrentDll = none ∧
      (∀ (a : Nat) (e : HELPER_ENTRY), s.helperHeap[a]? = some e →
        ∃ e' : HELPER_ENTRY, s'.helperHeap[a]? = some e' ∧ e'.pDllEntry = e.pDllEntry) ∧
      (∀ (a : Nat) (e : HELPER_ENTRY), s.helperHeap.length ≤ a →
        s'.helperHeap[a]? = some e → e.pDllEntry = some s.dllHeap.length) ∧
      (env.status = ERROR_SUCCESS → s'.pDllListHead = some s.dllHeap.length ∧
        ∃ e : DLL_LIST_ENTRY, DllHeap.get s'.dllHeap s.dllHeap.length = some e ∧
          e.pszDllName = some pszDllName) := by
  obtain ⟨s', f', hload, -, hl⟩ := LoadHelperDll_loaded hwf hf pszDllName bRegister env
  refine ⟨s', hload, ?_, fun a e hx => ?_, hl.helpersNew, fun hst => ?_⟩
  · rw [hl.current, hcur]
    split <;> rfl
  · obtain ⟨e', h1, -, -, h2⟩ := hl.helpersOld a e hx
    exact ⟨e', h1, h2⟩
  · have hlist := hl.list
    rw [if_pos hst] at hlist
    obtain ⟨e, hx, h1, -⟩ := hl.entry hst
    exact ⟨hlist.listHead_eq, e, hx, h1⟩

/-! ## DeleteHelperCommand -/

theorem DllHeap.get_unlinked_sameModule (h : DllHeap) (a : Nat) (ea : DLL_LIST_ENTRY)
    {b : Nat} {e : DLL_LIST_ENTRY} (hx : DllHeap.get h b = some e) :
    ∃ e' : DLL_LIST_ENTRY, DllHeap.get (DllHeap.unlinked h a ea) b = some e' ∧
      e.SameModule e' := by
  simp only [DllHeap.unlinked, DllHeap.get_modify, DllHeap.get_modifyOpt, hx]
  split <;> split <;> split <;>
    exact ⟨_, rfl, Eq.refl _, Eq.refl _, Eq.refl _, Eq.refl _⟩

theorem exists_first_match (P : Nat → Prop) [DecidablePred P] :
    ∀ l : List Nat, (∃ a ∈ l, P a) →
      ∃ (k1 : List Nat) (a : Nat) (k2 : List Nat), l = k1 ++ a :: k2 ∧ P a ∧
        ∀ b ∈ k1, ¬ P b := by
  intro l
  induction l with
  | nil => rintro ⟨a, ha, -⟩; cases ha
  | cons x xs ih =>
    rintro ⟨a, ha, hpa⟩
    by_cases hx : P x
    · exact ⟨[], x, xs, rfl, hx, fun b hb => by cases hb⟩
    · have hmem : a ∈ xs := by
        rcases List.mem_cons.mp ha with rfl | h
        · exact absurd hpa hx
        · exact h
      obtain ⟨k1, a', k2, hl, hp, hk⟩ := ih ⟨a, hmem, hpa⟩
      refine ⟨x :: k1, a', k2, by rw [hl]; rfl, hp, fun b hb => ?_⟩
      rcases List.mem_cons.mp hb with rfl | h
      · exact hx
      · exact hk b h

theorem DllChain.pNext_eq_head {h : DllHeap} {a : Nat} {ea : DLL_LIST_ENTRY}
    (hx : DllHeap.get h a = some ea) {k1 k2 : List Nat} {prev p : Option Nat}
    (hc : DllChain h prev p (k1 ++ a :: k2)) :
    ea.pNext = k2.head? ∧
      ea.pPrev = (match k1.getLast? with | some b => some b | none => prev) :=
  ⟨(DllChain.at_mem hx k1 hc).2.head_eq, (DllChain.at_mem hx k1 hc).1⟩

/-- Unlinking an entry of a well-formed module list leaves the list without that entry,
well formed; the entry itself stays allocated, with null links, and every entry keeps its
strings. -/
theorem unlinkDll_wf {s : State} {k1 k2 : List Nat} {a : Nat}
    (hwf : DllWF s (k1 ++ a :: k2)) :
    ∃ (ea : DLL_LIST_ENTRY) (s1 : State), DllHeap.get s.dllHeap a = some ea ∧
      unlinkDll s a = some s1 ∧ DllWF s1 (k1 ++ k2) ∧
      s1 = { s with dllHeap := s1.dllHeap, pDllListHead := s1.pDllListHead,
                    pDllListTail := s1.pDllListTail } ∧
      s1.dllHeap.length = s.dllHeap.length ∧
      DllHeap.get s1.dllHeap a = some { ea with pPrev := none, pNext := none } ∧
      ∀ (b : Nat) (e : DLL_LIST_ENTRY), DllHeap.get s.dllHeap b = some e →
        ∃ e' : DLL_LIST_ENTRY, DllHeap.get s1.dllHeap b = some e' ∧ e.SameModule e' := by
  have hmem : a ∈ k1 ++ a :: k2 := by simp
  obtain ⟨ea, hx⟩ := Option.ne_none_iff_exists'.mp (hwf.chain.get_ne_none a hmem)
  obtain ⟨hnext, hprev⟩ := DllChain.pNext_eq_head hx hwf.chain
  have hnd := hwf.nodup
  have hnd' : (k1 ++ k2).Nodup := by
    rw [List.nodup_append] at hnd ⊢
    obtain ⟨h1, h2, h3⟩ := hnd
    exact ⟨h1, (List.nodup_cons.mp h2).2, fun x hx1 hx2 => h3 hx1 (List.mem_cons_of_mem _ hx2)⟩
  have ha1 : a ∉ k1 := by
    intro hc
    rw [List.nodup_append] at hnd
    exact hnd.2.2 hc (List.mem_cons_self _ _)
  have ha2 : a ∉ k2 := by
    rw [List.nodup_append] at hnd
    exact (List.nodup_cons.mp hnd.2.1).1
  have hp : ∀ q, ea.pPrev = some q → q ∈ k1 := by
    intro q hq
    rw [hprev] at hq
    cases hgl : k1.getLast? with
    | none => rw [hgl] at hq; cases hq
    | some b =>
      rw [hgl] at hq
      cases hq
      exact List.mem_of_getLast?_eq_some hgl
  have hn : ∀ n, ea.pNext = some n → n ∈ k2 := by
    intro n hq
    rw [hnext] at hq
    exact List.mem_of_mem_head? hq
  have hpa : ea.pPrev ≠ some a := fun hc => ha1 (hp a hc)
  have hna : ea.pNext ≠ some a := fun hc => ha2 (hn a hc)
  have hun := unlinkDll_eq (s := s) hx
    (fun q hq => ⟨fun hc => ha1 (hc ▸ hp q hq),
      hwf.chain.get_ne_none q (List.mem_append_left _ (hp q hq))⟩)
    (fun n hq => ⟨fun hc => ha2 (hc ▸ hn n hq),
      hwf.chain.get_ne_none n (List.mem_append_right _ (List.mem_cons_of_mem _ (hn n hq)))⟩)
  refine ⟨ea, _, hx, hun, ⟨?_, ?_, hnd'⟩, rfl, ?_, ?_, fun b e hb => ?_⟩
  · have hc := DllChain.unlink hx k1 hwf.chain hwf.nodup (fun q hq => by cases hq)
    have hhead : (if s.pDllListHead = some a then ea.pNext else s.pDllListHead) =
        (if k1 = [] then ea.pNext else s.pDllListHead) := by
      have hh := hwf.listHead_eq
      cases k1 with
      | nil =>
        simp only [List.nil_append, List.head?_cons] at hh
        simp [hh]
      | cons x xs =>
        simp only [List.cons_append, List.head?_cons] at hh
        have hxa : x ≠ a := fun hc => ha1 (hc ▸ List.mem_cons_self _ _)
        simp [hh, hxa]
    show DllChain (DllHeap.unlinked s.dllHeap a ea) none
      (if s.pDllListHead = some a then ea.pNext else s.pDllListHead) (k1 ++ k2)
    rw [hhead]
    exact hc
  · show (if s.pDllListTail = some a then ea.pPrev else s.pDllListTail) = (k1 ++ k2).getLast?
    rw [hwf.tail]
    cases k2 with
    | nil =>
      have h1 : (k1 ++ [a]).getLast? = some a := by simp
      rw [h1, if_pos rfl, hprev, List.append_nil]
      cases k1.getLast? <;> rfl
    | cons y ys =>
      have : (k1 ++ a :: y :: ys).getLast? = (y :: ys).getLast? := by
        rw [List.getLast?_append, List.getLast?_cons_cons]
        cases hl : (y :: ys).getLast? with
        | none => simp at hl
        | some z => rfl
      have h2 : (k1 ++ y :: ys).getLast? = (y :: ys).getLast? := by
        rw [List.getLast?_append]
        cases hl : (y :: ys).getLast? with
        | none => simp at hl
        | some z => rfl
      rw [this, h2]
      have hne : (y :: ys).getLast? ≠ some a := fun hc =>
        ha2 (List.mem_of_getLast?_eq_some hc)
      rw [if_neg hne]
  · show (DllHeap.unlinked s.dllHeap a ea).length = s.dllHeap.length
    simp [DllHeap.unlinked, DllHeap.length_modify, DllHeap.length_modifyOpt]
  · exact DllHeap.get_unlinked_self hx hpa hna
  · exact DllHeap.get_unlinked_sameModule s.dllHeap a ea hb

theorem DllHeap.get_set_of_ne (h : DllHeap) {a b : Nat} (hba : b ≠ a)
    (x : Option DLL_LIST_ENTRY) : DllHeap.get (h.set a x) b = DllHeap.get h b := by
  rw [DllHeap.get_eq, DllHeap.get_eq, List.getElem?_set_ne (Ne.symm hba)]

theorem DllWF.free {s : State} {l : List Nat} (hwf : DllWF s l) {a : Nat} (ha : a ∉ l) :
    DllWF { s with dllHeap := s.dllHeap.set a none } l :=
  ⟨hwf.chain.of_links_eq fun b hb => by
      have hba : b ≠ a := fun hc => ha (hc ▸ hb)
      show Option.map _ (DllHeap.get (s.dllHeap.set a none) b) = _
      rw [DllHeap.get_set_of_ne _ hba], hwf.tail, hwf.nodup⟩

/-- The deletion of an entry of a well-formed module list that has its value name. -/
theorem deleteHelperDll_spec {s : State} {k1 k2 : List Nat} {a : Nat}
    (hwf : DllWF s (k1 ++ a :: k2)) {ea : DLL_LIST_ENTRY} {name : WSTR}
    (hx : DllHeap.get s.dllHeap a = some ea) (hname : ea.pszValueName = some name)
    (env : DeleteEnv) :
    ∃ s' : State, deleteHelperDll s a env = some (1, s') ∧ Deleted s a (k1 ++ k2) env s' := by
  obtain ⟨ea', s1, hx', hun, hwf1, hs1, hlen, hget1, hkept⟩ := unlinkDll_wf hwf
  rw [hx] at hx'
  cases hx'
  have ha : a ∉ k1 ++ k2 := by
    have hnd := hwf.nodup
    rw [List.nodup_append] at hnd
    intro hc
    rcases List.mem_append.mp hc with h | h
    · exact hnd.2.2 h (List.mem_cons_self _ _)
    · exact (List.nodup_cons.mp hnd.2.1).1 h
  have halt : a < s1.dllHeap.length := by
    rw [hlen]; exact (DllHeap.get_lt hx).1
  have hkeep : ∀ (h' : DllHeap), h' = s1.dllHeap.set a none →
      ∀ (b : Nat) (e : DLL_LIST_ENTRY), b ≠ a → DllHeap.get s.dllHeap b = some e →
        ∃ e' : DLL_LIST_ENTRY, DllHeap.get h' b = some e' ∧ e.SameModule e' := by
    intro h' hh b e hba hb
    obtain ⟨e', h1, h2⟩ := hkept b e hb
    exact ⟨e', by rw [hh, DllHeap.get_set_of_ne _ hba, h1], h2⟩
  have hstore : ((DllHeap.get s.dllHeap a).bind fun e => e.pszValueName) = some name := by
    rw [hx]; exact hname
  have hfields : s1.helperHeap = s.helperHeap ∧ s1.pHelperListHead = s.pHelperListHead ∧
      s1.pHelperListTail = s.pHelperListTail ∧ s1.pCurrentDll = s.pCurrentDll ∧
      s1.regValues = s.regValues := by
    rw [hs1]; exact ⟨rfl, rfl, rfl, rfl, rfl⟩
  obtain ⟨f1, f2, f3, f4, f5⟩ := hfields
  unfold deleteHelperDll
  simp only [hun, hget1, hname]
  by_cases hk : env.regOpenKey = ERROR_SUCCESS
  · cases hrm : env.regDeleteValueRemoves with
    | true =>
      simp only [hk, if_true, FreeHelperDll, hget1]
      refine ⟨_, rfl, ?_, ?_, hkeep _ rfl, ⟨f1, f2, f3, f4⟩, name, hstore, ?_⟩
      · exact DllWF.free (s := { s1 with regValues := regDeleteValue s1.regValues name })
          ⟨hwf1.chain, hwf1.tail, hwf1.nodup⟩ ha
      · show (s1.dllHeap.set a none)[a]? = some none
        rw [List.getElem?_set_self halt]
      · show regDeleteValue s1.regValues name = _
        rw [f5]
        simp [hk, hrm]
    | false =>
      simp only [hk, if_true, FreeHelperDll, hget1, Bool.false_eq_true, if_false]
      refine ⟨_, rfl, hwf1.free ha, ?_, hkeep _ rfl, ⟨f1, f2, f3, f4⟩, name, hstore, ?_⟩
      · show (s1.dllHeap.set a none)[a]? = some none
        rw [List.getElem?_set_self halt]
      · show s1.regValues = _
        rw [f5]
        simp [hrm]
  · simp only [hk, if_false, FreeHelperDll, hget1]
    refine ⟨_, rfl, hwf1.free ha, ?_, hkeep _ rfl, ⟨f1, f2, f3, f4⟩, name, hstore, ?_⟩
    · show (s1.dllHeap.set a none)[a]? = some none
      rw [List.getElem?_set_self halt]
    · show s1.regValues = _
      rw [f5]
      simp [hk]

theorem DllWF.length_le {s : State} {l : List Nat} (hwf : DllWF s l) :
    l.length ≤ s.dllHeap.length := by
  have hsub : l.toFinset ⊆ Finset.range s.dllHeap.length := by
    intro a ha
    rw [List.mem_toFinset] at ha
    exact Finset.mem_range.mpr (hwf.chain.addr_lt_length a ha)
  have := Finset.card_le_card hsub
  rwa [List.toFinset_card_of_nodup hwf.nodup, Finset.card_range] at this

/-- The loop of `DeleteHelperCommand` on a chain none of whose entries has the short name
`arg` runs to the end of the chain and returns `ERROR_SUCCESS`, the state untouched. -/
theorem DeleteHelperLoop_no_match (s : State) (arg : WSTR) (env : DeleteEnv) :
    ∀ (k : List Nat) (prev p : Option Nat) (fuel : Nat), DllChain s.dllHeap prev p k →
      k.length ≤ fuel → (∀ b ∈ k, shortNameAt s b ≠ none) →
      (∀ b ∈ k, shortNameAt s b ≠ some arg) →
      DeleteHelperLoop s (some arg) env fuel p = some (ERROR_SUCCESS, s) := by
  intro k
  induction k with
  | nil =>
    intro prev p fuel hc _ _ _
    have hp : p = none := hc
    subst hp
    cases fuel <;> rfl
  | cons a k ih =>
    intro prev p fuel hc hfuel hnamed hno
    rw [DllChain.unfold_cons] at hc
    obtain ⟨hp, ea, hx, -, hrest⟩ := hc
    subst hp
    cases fuel with
    | zero => simp at hfuel
    | succ fuel =>
      have hna := hnamed a (List.mem_cons_self _ _)
      have hnm := hno a (List.mem_cons_self _ _)
      simp only [shortNameAt, hx, Option.some_bind] at hna hnm
      obtain ⟨short, hshort⟩ := Option.ne_none_iff_exists'.mp hna
      have hne : short ≠ arg := fun hc => hnm (by rw [hshort, hc])
      simp only [DeleteHelperLoop, hx, hshort, if_neg hne]
      exact ih (some a) ea.pNext fuel hrest (by simpa using hfuel)
        (fun b hb => hnamed b (List.mem_cons_of_mem _ hb))
        (fun b hb => hno b (List.mem_cons_of_mem _ hb))

/-- The loop of `DeleteHelperCommand` deletes the first entry of the chain whose short name
is `arg`. -/
theorem DeleteHelperLoop_first_match (s : State) (arg : WSTR) (env : DeleteEnv) (a : Nat)
    (k2 : List Nat) :
    ∀ (k1 : List Nat) (prev p : Option Nat) (fuel : Nat),
      DllChain s.dllHeap prev p (k1 ++ a :: k2) →
      (k1 ++ a :: k2).length ≤ fuel → (∀ b ∈ k1, shortNameAt s b ≠ none) →
      (∀ b ∈ k1, shortNameAt s b ≠ some arg) → shortNameAt s a = some arg →
      DeleteHelperLoop s (some arg) env fuel p = deleteHelperDll s a env := by
  intro k1
  induction k1 with
  | nil =>
    intro prev p fuel hc hfuel _ _ ha
    rw [List.nil_append, DllChain.unfold_cons] at hc
    obtain ⟨hp, ea, hx, -, -⟩ := hc
    subst hp
    cases fuel with
    | zero => simp at hfuel
    | succ fuel =>
      simp only [shortNameAt, hx, Option.some_bind] at ha
      simp only [DeleteHelperLoop, hx, ha, if_true]
  | cons c k1 ih =>
    intro prev p fuel hc hfuel hnamed hno ha
    rw [List.cons_append, DllChain.unfold_cons] at hc
    obtain ⟨hp, ec, hx, -, hrest⟩ := hc
    subst hp
    cases fuel with
    | zero => simp at hfuel
    | succ fuel =>
      have hna := hnamed c (List.mem_cons_self _ _)
      have hnm := hno c (List.mem_cons_self _ _)
      simp only [shortNameAt, hx, Option.some_bind] at hna hnm
      obtain ⟨short, hshort⟩ := Option.ne_none_iff_exists'.mp hna
      have hne : short ≠ arg := fun hc => hnm (by rw [hshort, hc])
      simp only [DeleteHelperLoop, hx, hshort, if_neg hne]
      exact ih (some c) ec.pNext fuel hrest (by simpa using hfuel)
        (fun b hb => hnamed b (List.mem_cons_of_mem _ hb))
        (fun b hb => hno b (List.mem_cons_of_mem _ hb)) ha

theorem DllNamed.shortNameAt_ne_none {s : State} {l : List Nat} (hn : DllNamed s l) :
    ∀ b ∈ l, shortNameAt s b ≠ none := by
  intro b hb
  obtain ⟨e, hx, h1, -⟩ := hn b hb
  simp only [shortNameAt, hx, Option.some_bind]
  exact h1

/-- When no entry of the module list has the short name `arg`, `DeleteHelperCommand` returns
`ERROR_SUCCESS` and the state is untouched. -/
theorem DeleteHelperCommand_no_match {s : State} {l : List Nat} (hwf : DllWF s l)
    (hnamed : DllNamed s l) (ppwcArguments : List WSTR) (dwArgCount : DWORD)
    (env : DeleteEnv) (arg : WSTR) (hcount : dwArgCount ≠ 2)
    (harg : ppwcArguments[2]? = some arg) (hno : ∀ b ∈ l, shortNameAt s b ≠ some arg) :
    DeleteHelperCommand s ppwcArguments dwArgCount env = some (ERROR_SUCCESS, s) := by
  unfold DeleteHelperCommand
  rw [if_neg hcount, harg]
  exact DeleteHelperLoop_no_match s arg env l none _ _ hwf.chain hwf.length_le
    hnamed.shortNameAt_ne_none hno

/-- When `a` is the first entry of the module list with the short name `arg`,
`DeleteHelperCommand` returns 1 and has deleted `a`. -/
theorem DeleteHelperCommand_match {s : State} {k1 k2 : List Nat} {a : Nat}
    (hwf : DllWF s (k1 ++ a :: k2)) (hnamed : DllNamed s (k1 ++ a :: k2))
    (ppwcArguments : List WSTR) (dwArgCount : DWORD) (env : DeleteEnv) (arg : WSTR)
    (hcount : dwArgCount ≠ 2) (harg : ppwcArguments[2]? = some arg)
    (hno : ∀ b ∈ k1, shortNameAt s b ≠ some arg) (ha : shortNameAt s a = some arg) :
    ∃ s' : State, DeleteHelperCommand s ppwcArguments dwArgCount env = some (1, s') ∧
      Deleted s a (k1 ++ k2) env s' := by
  obtain ⟨ea, hx, -, hv⟩ := hnamed a (by simp)
  obtain ⟨name, hname⟩ := Option.ne_none_iff_exists'.mp hv
  obtain ⟨s', hdel, hd⟩ := deleteHelperDll_spec hwf hx hname env
  refine ⟨s', ?_, hd⟩
  unfold DeleteHelperCommand
  rw [if_neg hcount, harg, ← hdel]
  exact DeleteHelperLoop_first_match s arg env a k2 k1 none _ _ hwf.chain hwf.length_le
    (fun b hb => hnamed.shortNameAt_ne_none b (List.mem_append_left _ hb)) hno ha

/-- C14: on the sample state, whose only module has the short name `if.dll`,
`delete helper x.dll` matches no module; `DeleteHelperCommand` leaves the state untouched
and returns `ERROR_SUCCESS`, the value `AddHelperCommand` returns after a successful load,
not a failure status. -/
theorem DeleteHelperCommand_no_match_returns_success :
    (∀ b ∈ [0], shortNameAt exampleState b ≠ some ['x', '.', 'd', 'l', 'l']) ∧
      DeleteHelperCommand exampleState (deleteHelperArgs ['x', '.', 'd', 'l', 'l']) 3
        { regOpenKey := 0, regDeleteValueRemoves := true } =
          some (ERROR_SUCCESS, exampleState) :=
  ⟨by decide, by decide⟩

/-- C15: on the sample state `delete helper if.dll` matches the module; whether the registry
key opens and the value is removed or not, `DeleteHelperCommand` returns 1, the value it
returns for a command line without a name, and not `ERROR_SUCCESS`, which
`AddHelperCommand` returns after a successful load. -/
theorem DeleteHelperCommand_match_returns_one :
    shortNameAt exampleState 0 = some ['i', 'f', '.', 'd', 'l', 'l'] ∧
      (DeleteHelperCommand exampleState (deleteHelperArgs ['i', 'f', '.', 'd', 'l', 'l']) 3
        { regOpenKey := 0, regDeleteValueRemoves := true }).map Prod.fst = some 1 ∧
      (DeleteHelperCommand exampleState (deleteHelperArgs ['i', 'f', '.', 'd', 'l', 'l']) 3
        { regOpenKey := 0, regDeleteValueRemoves := false }).map Prod.fst = some 1 ∧
      (DeleteHelperCommand exampleState (deleteHelperArgs ['i', 'f', '.', 'd', 'l', 'l']) 3
        { regOpenKey := 5, regDeleteValueRemoves := false }).map Prod.fst = some 1 ∧
      (DeleteHelperCommand exampleState [['d', 'e', 'l', 'e', 't', 'e'],
        ['h', 'e', 'l', 'p', 'e', 'r']] 2
        { regOpenKey := 0, regDeleteValueRemoves := true }).map Prod.fst = some 1 ∧
      (1 : DWORD) ≠ ERROR_SUCCESS ∧
      (AddHelperCommand State.init [['a', 'd', 'd'], ['h', 'e', 'l', 'p', 'e', 'r'],
        samplePath] 3 (entryPointReturns 0) true).map Prod.fst = some ERROR_SUCCESS :=
  ⟨by decide, by decide, by decide, by decide, by decide, by decide, by decide⟩

/-- C16: on a well-formed module list whose entries have their names, when the name
argument is present and some module has exactly that short name, `DeleteHelperCommand`
returns and the module list afterwards is the list before with its first matching entry
`a` removed: `l = k1 ++ a :: k2` with no match in `k1`, and the list afterwards is the
well-formed doubly linked list `k1 ++ k2`, whose head is `pDllListHead` and whose last
entry is `pDllListTail` (both null when it is empty); every remaining entry is the module
it was, and the cell of `a` is released. -/
theorem DeleteHelperCommand_removes_first_match (s : State) (l : List Nat)
    (ppwcArguments : List WSTR) (dwArgCount : DWORD) (env : DeleteEnv) (arg : WSTR)
    (hwf : DllWF s l) (hnamed : DllNamed s l) (hcount : dwArgCount ≠ 2)
    (harg : ppwcArguments[2]? = some arg) (hmatch : ∃ a ∈ l, shortNameAt s a = some arg) :
    ∃ (k1 : List Nat) (a : Nat) (k2 : List Nat) (st : DWORD) (s' : State),
      l = k1 ++ a :: k2 ∧ shortNameAt s a = some arg ∧
      (∀ b ∈ k1, shortNameAt s b ≠ some arg) ∧
      DeleteHelperCommand s ppwcArguments dwArgCount env = some (st, s') ∧
      DllWF s' (k1 ++ k2) ∧
      s'.pDllListHead = (k1 ++ k2).head? ∧ s'.pDllListTail = (k1 ++ k2).getLast? ∧
      (∀ b ∈ k1 ++ k2, ∃ e e' : DLL_LIST_ENTRY, DllHeap.get s.dllHeap b = some e ∧
        DllHeap.get s'.dllHeap b = some e' ∧ e.SameModule e') ∧
      s'.dllHeap[a]? = some none := by
  obtain ⟨k1, a, k2, hl, ha, hno⟩ :=
    exists_first_match (fun a => shortNameAt s a = some arg) l hmatch
  subst hl
  obtain ⟨s', hdel, hd⟩ :=
    DeleteHelperCommand_match hwf hnamed ppwcArguments dwArgCount env arg hcount harg hno ha
  refine ⟨k1, a, k2, 1, s', rfl, ha, hno, hdel, hd.list, hd.list.listHead_eq, hd.list.tail,
    fun b hb => ?_, hd.freed⟩
  have hbl : b ∈ k1 ++ a :: k2 := by
    rcases List.mem_append.mp hb with h | h
    · exact List.mem_append_left _ h
    · exact List.mem_append_right _ (List.mem_cons_of_mem _ h)
  have hba : b ≠ a := by
    rintro rfl
    have hnd := hwf.nodup
    rw [List.nodup_append] at hnd
    rcases List.mem_append.mp hb with h | h
    · exact hnd.2.2 h (List.mem_cons_self _ _)
    · exact (List.nodup_cons.mp hnd.2.1).1 h
  obtain ⟨e, hx, -⟩ := hnamed b hbl
  obtain ⟨e', hx', hsame⟩ := hd.kept b e hba hx
  exact ⟨e, e', hx, hx', hsame⟩

/-- C17: on a well-formed module list whose entries have their names, with the name
argument present unless the argument count is 2, `DeleteHelperCommand` returns, and the
helper forest is untouched: the helper entries (links, descriptors, started flags, module
attribution), `pHelperListHead` and `pHelperListTail` are the same, so `FindHelper` returns
the same result for every identity, also for helpers of the deleted module. -/
theorem DeleteHelperCommand_keeps_helpers (s : State) (l : List Nat)
    (ppwcArguments : List WSTR) (dwArgCount : DWORD) (env : DeleteEnv)
    (hwf : DllWF s l) (hnamed : DllNamed s l)
    (harg : dwArgCount ≠ 2 → ∃ arg : WSTR, ppwcArguments[2]? = some arg) :
    ∃ (st : DWORD) (s' : State),
      DeleteHelperCommand s ppwcArguments dwArgCount env = some (st, s') ∧
      s'.helperHeap = s.helperHeap ∧ s'.pHelperListHead = s.pHelperListHead ∧
      s'.pHelperListTail = s.pHelperListTail ∧
      ∀ g : Option GUID, FindHelper s' g = FindHelper s g := by
  have hfind : ∀ s' : State, s'.helperHeap = s.helperHeap →
      s'.pHelperListHead = s.pHelperListHead →
      ∀ g : Option GUID, FindHelper s' g = FindHelper s g := by
    intro s' h1 h2 g
    unfold FindHelper
    rw [h1, h2]
  by_cases hcount : dwArgCount = 2
  · refine ⟨1, s, by simp [DeleteHelperCommand, hcount], rfl, rfl, rfl, fun g => rfl⟩
  · obtain ⟨arg, ha⟩ := harg hcount
    by_cases hmatch : ∃ a ∈ l, shortNameAt s a = some arg
    · obtain ⟨k1, a, k2, hl, hna, hno⟩ :=
        exists_first_match (fun a => shortNameAt s a = some arg) l hmatch
      subst hl
      obtain ⟨s', hdel, hd⟩ :=
        DeleteHelperCommand_match hwf hnamed ppwcArguments dwArgCount env arg hcount ha hno hna
      exact ⟨1, s', hdel, hd.helpers.1, hd.helpers.2.1, hd.helpers.2.2.1,
        hfind s' hd.helpers.1 hd.helpers.2.1⟩
    · have hno : ∀ b ∈ l, shortNameAt s b ≠ some arg := fun b hb hc => hmatch ⟨b, hb, hc⟩
      exact ⟨ERROR_SUCCESS, s,
        DeleteHelperCommand_no_match hwf hnamed ppwcArguments dwArgCount env arg hcount ha hno,
        rfl, rfl, rfl, fun g => rfl⟩

/-! ## LoadHelpers -/

theorem DLL_LIST_ENTRY.SameModule.chain {e1 e2 e3 : DLL_LIST_ENTRY} (h12 : e1.SameModule e2)
    (h23 : e2.SameModule e3) : e1.SameModule e3 :=
  ⟨h23.1.trans h12.1, h23.2.1.trans h12.2.1, h23.2.2.1.trans h12.2.2.1,
    h23.2.2.2.trans h12.2.2.2⟩

theorem ModulesKept.dllNameAt {s s' : State} (hk : ModulesKept s s') {a : Nat} {p : WSTR}
    (h : dllNameAt s a = some p) : dllNameAt s' a = some p := by
  unfold Netsh.dllNameAt at h ⊢
  cases hx : DllHeap.get s.dllHeap a with
  | none => rw [hx] at h; cases h
  | some e =>
    rw [hx] at h
    obtain ⟨e', hx', hs⟩ := hk a e hx
    rw [hx']
    simp only [Option.some_bind] at h ⊢
    rw [hs.1, h]

theorem ModulesKept.refl_kept (s : State) : ModulesKept s s :=
  fun _ e hx => ⟨e, hx, DLL_LIST_ENTRY.SameModule.self e⟩

theorem ModulesKept.trans_kept {s1 s2 s3 : State} (h12 : ModulesKept s1 s2)
    (h23 : ModulesKept s2 s3) : ModulesKept s1 s3 := by
  intro a e hx
  obtain ⟨e2, hx2, hs2⟩ := h12 a e hx
  obtain ⟨e3, hx3, hs3⟩ := h23 a e2 hx2
  exact ⟨e3, hx3, hs2.chain hs3⟩

/-- The loop of `LoadHelpers`, when `RegEnumValueW` succeeds for every index: it calls
`LoadHelperDll` with `bRegister = FALSE` for the values from index `i` on, in order,
whatever the earlier calls returned, and the module list grows by the entries of the
calls that returned `ERROR_SUCCESS`. -/
theorem LoadHelpersLoop_spec (env : LoadHelpersEnv) (vals : List (WSTR × WSTR))
    (henum : ∀ j, j < vals.length → env.regEnumValue j = ERROR_SUCCESS) :
    ∀ (fuel i : Nat) (s : State) (l : List Nat) (f : Forest), DllWF s l → HelperWF s f →
      s.regValues = vals → i ≤ vals.length → vals.length - i < fuel →
      ∃ (s' : State) (loads : List (WSTR × Bool × DWORD)) (added : List Nat) (f' : Forest),
        LoadHelpersLoop env vals.length fuel i s = some (s', loads) ∧
        DllWF s' (added ++ l) ∧ HelperWF s' f' ∧ s'.regValues = vals ∧ ModulesKept s s' ∧
        loads.map (fun c => (c.1, c.2.1)) = (vals.drop i).map (fun v => (v.2, false)) ∧
        loads.map (fun c => c.2.2) =
          (List.range' i (vals.length - i)).map (fun j => (env.load j).status) ∧
        added.map (dllNameAt s') = (loadedPaths loads).reverse.map some := by
  intro fuel
  induction fuel with
  | zero => intro i s l f _ _ _ _ hfuel; omega
  | succ fuel ih =>
    intro i s l f hwf hf hvals hi hfuel
    by_cases hlt : i < vals.length
    · have hen := henum i hlt
      have hget0 : vals[i]? = some vals[i] := List.getElem?_eq_getElem hlt
      have hdrop : vals.drop i = vals[i] :: vals.drop (i + 1) := List.drop_eq_getElem_cons hlt
      generalize vals[i] = v at hget0 hdrop
      obtain ⟨name, path⟩ := v
      have hget : s.regValues[i]? = some (name, path) := by rw [hvals]; exact hget0
      obtain ⟨s1, f1, hload, hf1, hl⟩ :=
        LoadHelperDll_loaded hwf hf path false (env.load i)
      have hv1 : s1.regValues = vals := by
        rw [hl.store, if_neg (fun h => Bool.false_ne_true h.2.1), hvals]
      obtain ⟨s', loads, added, f', hloop, hwf', hf', hv', hk', hp, hst, hadd⟩ :=
        ih (i + 1) s1 _ f1 hl.list hf1 hv1 (by omega) (by omega)
      have hrange : List.range' i (vals.length - i) =
          i :: List.range' (i + 1) (vals.length - (i + 1)) := by
        have : vals.length - i = (vals.length - (i + 1)) + 1 := by omega
        rw [this, List.range'_succ]
      have hk1 : ModulesKept s s1 := hl.kept
      by_cases hs0 : (env.load i).status = ERROR_SUCCESS
      · rw [if_pos hs0] at hwf'
        refine ⟨s', (path, false, (env.load i).status) :: loads,
          added ++ [s.dllHeap.length], f', ?_, ?_, hf', hv', hk1.trans_kept hk', ?_, ?_, ?_⟩
        · simp only [LoadHelpersLoop, hlt, if_true, hen, ne_eq, not_true_eq_false, if_false,
            hget, hload, hloop]
        · rw [List.append_assoc]; exact hwf'
        · rw [hdrop, List.map_cons, List.map_cons, hp]
        · rw [hrange, List.map_cons, List.map_cons, hst]
        · obtain ⟨e, hx, hname, -⟩ := hl.entry hs0
          have hn1 : dllNameAt s1 s.dllHeap.length = some path := by
            simp only [dllNameAt, hx, Option.some_bind]
            exact hname
          have hn' := hk'.dllNameAt hn1
          simp only [List.map_append, List.map_cons, List.map_nil, hadd, hn', loadedPaths,
            List.filter_cons, hs0, decide_True, if_true, List.reverse_cons]
      · rw [if_neg hs0] at hwf'
        refine ⟨s', (path, false, (env.load i).status) :: loads, added, f', ?_, hwf',
          hf', hv', hk1.trans_kept hk', ?_, ?_, ?_⟩
        · simp only [LoadHelpersLoop, hlt, if_true, hen, ne_eq, not_true_eq_false, if_false,
            hget, hload, hloop]
        · rw [hdrop, List.map_cons, List.map_cons, hp]
        · rw [hrange, List.map_cons, List.map_cons, hst]
        · simp only [hadd, loadedPaths, List.filter_cons, hs0, decide_False,
            Bool.false_eq_true, if_false]
    · have hi' : i = vals.length := by omega
      subst hi'
      refine ⟨s, [], [], f, ?_, hwf, hf, hvals, ModulesKept.refl_kept s, ?_, ?_, ?_⟩
      · simp only [LoadHelpersLoop, lt_irrefl, if_false]
      · simp
      · simp
      · simp [loadedPaths]

/-- When the registry key cannot be opened, `LoadHelpers` returns at once: nothing is
loaded and `StartHelpers` is not called. -/
theorem LoadHelpers_key_not_opened (s : State) (env : LoadHelpersEnv)
    (h : env.regOpenKey ≠ ERROR_SUCCESS) :
    LoadHelpers s env = some (s, { loads := [], starts := [] }) := by
  unfold LoadHelpers
  rw [if_pos h]

/-- On a platform that keeps the contract of `GetLastError`, `LoadHelperDll` returns
`ERROR_SUCCESS` exactly when the load succeeds. -/
theorem LoadEnv.status_eq_success_iff {env : LoadEnv} (hlaw : env.reportsErrors) :
    env.status = ERROR_SUCCESS ↔ env.succeeds := by
  cases hep : env.entryPoint with
  | some init =>
    rw [LoadEnv.status_of_entryPoint hep, LoadEnv.succeeds_iff_of_entryPoint hep]
  | none =>
    have hns := LoadEnv.not_succeeds_of_none hep
    refine ⟨fun hst => ?_, fun h => absurd h hns⟩
    exfalso
    unfold LoadEnv.status at hst
    unfold LoadEnv.entryPoint at hep
    by_cases hal : env.allocEntry = true ∧ env.allocDllName = true ∧
        env.allocShortName = true ∧ env.allocValueName = true
    · rw [if_pos hal] at hst hep
      cases hm : env.hModule with
      | none =>
        rw [hm] at hst
        exact hlaw (Or.inl ⟨hm, hst⟩)
      | some m =>
        rw [hm] at hst hep
        simp only at hep
        rw [hep] at hst
        exact hlaw (Or.inr ⟨by rw [hm]; simp, hep, hst⟩)
    · rw [if_neg hal] at hst
      exact absurd hst (by decide)

theorem loadedPaths_eq_succeededPaths (env : LoadHelpersEnv) :
    ∀ (vals : List (WSTR × WSTR)) (i : Nat) (loads : List (WSTR × Bool × DWORD)),
      loads.map (fun c => (c.1, c.2.1)) = vals.map (fun v => (v.2, false)) →
      loads.map (fun c => c.2.2) =
        (List.range' i vals.length).map (fun j => (env.load j).status) →
      (∀ j, i ≤ j → j < i + vals.length → (env.load j).reportsErrors) →
      loadedPaths loads = succeededPaths env i vals := by
  intro vals
  induction vals with
  | nil =>
    intro i loads h1 _ _
    have : loads = [] := by simpa using h1
    subst this
    rfl
  | cons v vals ih =>
    intro i loads h1 h2 hlaw
    cases loads with
    | nil => simp at h1
    | cons c loads =>
      simp only [List.map_cons, List.cons.injEq, List.length_cons, List.range'_succ] at h1 h2
      obtain ⟨hc, h1⟩ := h1
      obtain ⟨hs, h2⟩ := h2
      have hrec := ih (i + 1) loads h1 h2 (fun j hj1 hj2 => hlaw j (by omega)
        (by simp only [List.length_cons]; omega))
      have hiff := LoadEnv.status_eq_success_iff (hlaw i (le_refl _)
        (by simp only [List.length_cons]; omega))
      have hpath : c.1 = v.2 := (Prod.mk.inj hc).1
      simp only [loadedPaths, succeededPaths, List.enumFrom_cons, List.filter_cons] at hrec ⊢
      by_cases hsu : (env.load i).succeeds
      · have hst : c.2.2 = ERROR_SUCCESS := by rw [hs]; exact hiff.mpr hsu
        simp only [hst, hsu, decide_True, if_true, List.map_cons, hpath, hrec]
      · have hst : ¬ c.2.2 = ERROR_SUCCESS := by rw [hs]; exact fun h => hsu (hiff.mp h)
        simp only [hst, hsu, decide_False, Bool.false_eq_true, if_false, hrec]

/-- C19: on a well-formed state, when the registry key can be read (it opens, its value
count is obtained, the two buffers are allocated and `RegEnumValueW` succeeds for every
index below the count) and the platform keeps the contract of `GetLastError` in every
load, `LoadHelpers` returns.  It has called `LoadHelperDll` once for each value of the
key, in order, with the path of the value and `bRegister = FALSE`, whatever the other
calls returned; a call returns `ERROR_SUCCESS` exactly when its load succeeds.  In the
state `s1` that the loop leaves, the module list is the list before, preceded by the
entries of exactly the references whose load succeeded (the last loaded first).  Then
`StartHelpers` is called, once, on `s1`: the result of `LoadHelpers` is the result of that
call, its trace is the one entry of `starts`, and, the stack created, every helper of the
forest of `s1` has its started flag set when it was set or its start callback returns
`ERROR_SUCCESS`.  `StartHelpers` leaves the module list alone, so the list afterwards is
the one of `s1`; the entries there before keep their paths and the stored values are
unchanged. -/
theorem LoadHelpers_loads_every_reference (s : State) (l : List Nat) (f : Forest)
    (env : LoadHelpersEnv) (hwf : DllWF s l) (hf : HelperWF s f)
    (hopen : env.regOpenKey = ERROR_SUCCESS) (hquery : env.regQueryInfoKey = ERROR_SUCCESS)
    (hname : env.allocNameBuffer = true) (hvalue : env.allocValueBuffer = true)
    (henum : ∀ j, j < s.regValues.length → env.regEnumValue j = ERROR_SUCCESS)
    (hlaw : ∀ j, j < s.regValues.length → (env.load j).reportsErrors) :
    ∃ (s1 s' : State) (tr : LoadHelpersTrace) (t : StartTrace) (added : List Nat)
        (f1 : Forest),
      LoadHelpers s env = some (s', tr) ∧
      tr.loads.map (fun c => (c.1, c.2.1)) = s.regValues.map (fun v => (v.2, false)) ∧
      tr.loads.map (fun c => c.2.2) =
        (List.range s.regValues.length).map (fun j => (env.load j).status) ∧
      (∀ j, j < s.regValues.length →
        ((env.load j).status = ERROR_SUCCESS ↔ (env.load j).succeeds)) ∧
      LoadHelpersLoop env s.regValues.length (s.regValues.length + 1) 0 s =
        some (s1, tr.loads) ∧
      DllWF s1 (added ++ l) ∧ HelperWF s1 f1 ∧
      added.map (dllNameAt s1) = (succeededPaths env 0 s.regValues).reverse.map some ∧
      tr.starts = [t] ∧ StartHelpers s1 env.createStackOk = some (s', t) ∧
      (env.createStackOk = true → ∀ a ∈ f1.addrs, ∀ e : HELPER_ENTRY,
        s1.helperHeap[a]? = some e →
        s'.helperHeap[a]? = some { e with
          bStarted := e.bStarted || decide (e.Attributes.pfnStart = some ERROR_SUCCESS) }) ∧
      HelperWF s' f1 ∧ DllWF s' (added ++ l) ∧
      added.map (dllNameAt s') = (succeededPaths env 0 s.regValues).reverse.map some ∧
      (∀ a ∈ l, dllNameAt s' a = dllNameAt s a) ∧
      s'.regValues = s.regValues := by
  obtain ⟨s1, loads, added, f1, hloop, hwf1, hf1, hv1, hk1, hp, hst, hadd⟩ :=
    LoadHelpersLoop_spec env s.regValues henum (s.regValues.length + 1) 0 s l f hwf hf rfl
      (Nat.zero_le _) (by omega)
  have hpaths : loadedPaths loads = succeededPaths env 0 s.regValues :=
    loadedPaths_eq_succeededPaths env s.regValues 0 loads (by simpa using hp)
      (by simpa using hst) (fun j _ hj => hlaw j (by omega))
  rw [hpaths] at hadd
  have hstart : ∃ (s' : State) (t : StartTrace),
      StartHelpers s1 env.createStackOk = some (s', t) ∧
      s' = { s1 with helperHeap := s'.helperHeap } ∧ HelperWF s' f1 ∧
      (env.createStackOk = true → ∀ a ∈ f1.addrs, ∀ e : HELPER_ENTRY,
        s1.helperHeap[a]? = some e →
        s'.helperHeap[a]? = some { e with
          bStarted := e.bStarted || decide (e.Attributes.pfnStart = some ERROR_SUCCESS) }) := by
    obtain ⟨s', t, h1, h2, h3, h4, h5⟩ := StartHelpers_started_flags s1 f1 hf1
    cases hok : env.createStackOk with
    | true => exact ⟨s', t, h1, h3, h4, fun _ => h2⟩
    | false => exact ⟨s1, _, h5, rfl, hf1, fun h => by cases h⟩
  obtain ⟨s', t, hrun, hs', hf', hflags⟩ := hstart
  have hd : s'.dllHeap = s1.dllHeap := by rw [hs']
  have hh : s'.pDllListHead = s1.pDllListHead := by rw [hs']
  have ht : s'.pDllListTail = s1.pDllListTail := by rw [hs']
  have hr : s'.regValues = s1.regValues := by rw [hs']
  have hna : ∀ a, dllNameAt s' a = dllNameAt s1 a := by
    intro a; unfold dllNameAt; rw [hd]
  refine ⟨s1, s', { loads := loads, starts := [t] }, t, added, f1, ?_, ?_, ?_, ?_, hloop,
    hwf1, hf1, hadd, rfl, hrun, hflags, hf', ?_, ?_, ?_, ?_⟩
  · unfold LoadHelpers
    simp only [hopen, hquery, hname, hvalue, ne_eq, not_true_eq_false, if_false,
      Bool.true_eq_false, hloop, hrun]
  · simpa using hp
  · rw [List.range_eq_range']
    simpa using hst
  · exact fun j hj => LoadEnv.status_eq_success_iff (hlaw j hj)
  · exact ⟨by rw [hd, hh]; exact hwf1.chain, by rw [ht]; exact hwf1.tail, hwf1.nodup⟩
  · rw [← hadd]
    exact List.map_congr_left fun a _ => hna a
  · intro a ha
    rw [hna a]
    obtain ⟨e, hx⟩ := Option.ne_none_iff_exists'.mp (hwf.chain.get_ne_none a ha)
    obtain ⟨e', hx', hsame⟩ := hk1 a e hx
    simp only [dllNameAt, hx, hx', Option.some_bind]
    exact hsame.1
  · rw [hr, hv1]

/-! ## Termination of the traversals -/

/-- The loop of `StartHelpers` returns on every step budget above the cost of the stack,
and the number of pops it makes is that cost: every entry of the stack is popped, and a
popped helper pushes its children and all its following siblings. -/
theorem StartHelpersLoop_pops :
    ∀ (k : Nat) (h : HelperHeap) (st : STACK) (gs : List Forest), StackRep h st gs →
      stackCost gs < k →
      ∃ h' t, StartHelpersLoop k h st = some (h', t) ∧ t.visited.length = stackCost gs := by
  intro k
  induction k with
  | zero => intro h st gs _ hk; omega
  | succ k ih =>
    intro h st gs hst hk
    cases hst with
    | nil =>
      exact ⟨h, ⟨[], []⟩, by simp [StartHelpersLoop, StackPop], by simp [stackCost]⟩
    | @cons p f st' gs' hp hst' =>
      cases f with
      | nil => simp [Represents] at hp
      | node a sub next =>
        rw [Represents.unfold_node] at hp
        obtain ⟨hpa, e, hx, -, hsub, hnext⟩ := hp
        have hpa' : a = p := (Option.some.inj hpa).symm
        subst hpa'
        simp only [stackCost, List.map_cons, List.sum_cons, Forest.cost] at hk
        have hws := sub.length_chain_le_weight
        have hwn := next.length_chain_le_weight
        obtain ⟨hso, -, -⟩ := startEntry_spec h a e hx
        have hl := hso.links
        have hsub1 : Represents (startEntry h a e).1 e.pSubHelperHead sub :=
          hsub.frame fun c _ => hl c
        have hnext1 : Represents (startEntry h a e).1 e.pNext next :=
          hnext.frame fun c _ => hl c
        have hrep := StackRep.push hnext1 (StackRep.push hsub1 (StackRep.frame_links hst' hl))
        have hcost : stackCost (next.suffixes.reverse ++ (sub.suffixes.reverse ++ gs')) =
            sub.weight + next.weight + stackCost gs' := by
          simp only [stackCost_append, stackCost_reverse, Forest.sum_cost_suffixes]
          omega
        have hlt : stackCost (next.suffixes.reverse ++ (sub.suffixes.reverse ++ gs')) < k := by
          rw [hcost]
          simp only [stackCost]
          omega
        obtain ⟨h', t, hr, hlen⟩ := ih _ _ _ hrep hlt
        refine ⟨h', ⟨a :: t.visited, (startEntry h a e).2 ++ t.invoked⟩, ?_, ?_⟩
        · simp only [StartHelpersLoop, StackPop, hx]
          rw [pushSiblings_eq k st' hsub1 (by omega)]
          simp only
          rw [pushSiblings_eq k _ hnext1 (by omega)]
          simp only [hr]
        · show (a :: t.visited).length = stackCost (Forest.node a sub next :: gs')
          rw [List.length_cons, hlen, hcost]
          have : stackCost (Forest.node a sub next :: gs') =
              1 + sub.weight + next.weight + stackCost gs' := by
            simp only [stackCost, List.map_cons, List.sum_cons, Forest.cost]
          rw [this]
          omega

/-- C21: on a heap that represents a forest `f` (every chain null-terminated, no helper
occurring twice), the stack loops of `FindHelper` and `StartHelpers` terminate.  Started on
the head of the root chain, each loop returns on every step budget greater than `f.cost`,
one step being one pop: `FindHelper` makes at most `f.cost` pops and `StartHelpers` exactly
`f.cost`.  The cost counts the repeated pushes (a popped helper pushes its children and
all its following siblings, `cost (node a sub next) = 1 + weight sub + weight next` with
`weight (node a sub next) = 1 + weight sub + 2 * weight next`) and is finite: it is below
`2 ^ f.size`, hence below the budget `traversalFuel` that `FindHelper` and `StartHelpers`
give their loops, so both functions return. -/
theorem traversal_loops_terminate (s : State) (f : Forest) (g : GUID)
    (hwf : HelperWF s f) :
    f.cost ≤ f.weight ∧ f.weight < 2 ^ f.size ∧ f.size ≤ s.helperHeap.length ∧
      f.cost < traversalFuel s.helperHeap ∧
      (∀ (p k : Nat), s.pHelperListHead = some p → f.cost < k →
        (∃ r, FindHelperLoop s.helperHeap g k (StackPush CreateStack p) = some r) ∧
        ∃ h' t, StartHelpersLoop k s.helperHeap (StackPush CreateStack p) = some (h', t) ∧
          t.visited.length = f.cost) ∧
      (∃ r, FindHelper s (some g) = some r) ∧
      ∃ s' t, StartHelpers s true = some (s', t) ∧ t.visited.length = f.cost := by
  have hsize : f.size ≤ s.helperHeap.length := by
    rw [← Forest.length_addrs]
    exact length_le_of_nodup_lt hwf.nodup hwf.repr.lt_length
  have hloops : ∀ (p k : Nat), s.pHelperListHead = some p → f.cost < k →
      (∃ r, FindHelperLoop s.helperHeap g k (StackPush CreateStack p) = some r) ∧
      ∃ h' t, StartHelpersLoop k s.helperHeap (StackPush CreateStack p) = some (h', t) ∧
        t.visited.length = f.cost := by
    intro p k hh hk
    have hr := hwf.repr
    rw [hh] at hr
    have hst : StackRep s.helperHeap [p] [f] := List.Forall₂.cons hr List.Forall₂.nil
    have hc : stackCost [f] = f.cost := by simp [stackCost]
    obtain ⟨r, hfind, -⟩ := FindHelperLoop_spec (g := g) k [p] [f] hst (by rw [hc]; exact hk)
    obtain ⟨h', t, hstart, hlen⟩ :=
      StartHelpersLoop_pops k s.helperHeap [p] [f] hst (by rw [hc]; exact hk)
    exact ⟨⟨r, hfind⟩, h', t, hstart, by rw [hlen, hc]⟩
  refine ⟨f.cost_le_weight, f.weight_lt_two_pow, hsize, hwf.cost_lt_fuel, hloops, ?_, ?_⟩
  · obtain ⟨r, hr, -⟩ := FindHelper_spec hwf g
    exact ⟨r, hr⟩
  · rcases Option.eq_none_or_eq_some s.pHelperListHead with hh | ⟨p, hh⟩
    · have hr := hwf.repr
      rw [hh] at hr
      have hf := hr.nil_of_none
      subst hf
      exact ⟨s, ⟨[], []⟩, by rw [StartHelpers, hh], rfl⟩
    · obtain ⟨-, h', t, hstart, hlen⟩ := hloops p (traversalFuel s.helperHeap) hh hwf.cost_lt_fuel
      refine ⟨{ s with helperHeap := h' }, t, ?_, hlen⟩
      rw [StartHelpers, hh]
      simp only [Bool.true_eq_false, if_false, hstart]

/-! ## Sample states: evaluation -/

theorem exampleState_wf : HelperWF exampleState exampleShape :=
  ⟨by decide, by decide, by decide⟩

theorem exampleState_register :
    RegisterHelper exampleState (some 1) exampleDescriptor true =
      some (ERROR_SUCCESS, exampleStateChild) := by
  decide

theorem FindHelper_finds_iff_present_witness :
    HelperWF exampleState exampleShape ∧
      ∃ p, FindHelper exampleState (some 3) = some (some p) ∧ p ∈ exampleShape.addrs ∧
        guidAt exampleState.helperHeap p = some 3 :=
  ⟨exampleState_wf,
    (FindHelper_finds_iff_present exampleState exampleShape 3 exampleState_wf).1
      ⟨2, by decide, by decide⟩⟩


theorem exampleState_dllwf : DllWF exampleState [0] :=
  ⟨by decide, by decide, by decide⟩

theorem RegisterHelper_FindHelper_roundtrip_witness :
    HelperWF exampleState exampleShape ∧
      RegisterHelper exampleState (some 1) exampleDescriptor true =
        some (ERROR_SUCCESS, exampleStateChild) ∧
      FindHelper exampleStateChild (some exampleDescriptor.guidHelper) =
        some (some exampleState.helperHeap.length) :=
  ⟨exampleState_wf, exampleState_register,
    (RegisterHelper_FindHelper_roundtrip exampleState exampleStateChild exampleShape (some 1)
      exampleDescriptor true exampleState_wf exampleState_register).2.1⟩

theorem RegisterHelper_duplicate_rejected_witness :
    HelperWF exampleState exampleShape ∧
      (∃ a ∈ exampleShape.addrs, guidAt exampleState.helperHeap a = some 3) ∧
      RegisterHelper exampleState none { exampleDescriptor with guidHelper := 3 } true =
        some (1, exampleState) :=
  ⟨exampleState_wf, ⟨2, by decide, by decide⟩,
    (RegisterHelper_duplicate_rejected exampleState exampleShape none
      { exampleDescriptor with guidHelper := 3 } true exampleState_wf
      ⟨2, by decide, by decide⟩).1⟩

theorem RegisterHelper_parent_not_found_witness :
    HelperWF exampleState exampleShape ∧
      FindHelper exampleState (some 9) = some none ∧
      ∃ (st : DWORD) (s' : State),
        RegisterHelper exampleState (some 9) exampleDescriptor true = some (st, s') ∧
        st = ERROR_INVALID_PARAMETER ∧ HelperWF s' exampleShape :=
  ⟨exampleState_wf, by decide, by
    obtain ⟨st, s', h1, h2, -, -, -, -, -, -, h3, -⟩ :=
      RegisterHelper_parent_not_found exampleState exampleShape 9 exampleDescriptor true
        exampleState_wf (by decide) (by decide)
    exact ⟨st, s', h1, h2 rfl, h3⟩⟩

theorem RegisterHelper_placement_witness :
    HelperWF exampleState exampleShape ∧
      RegisterHelper exampleState (some 1) exampleDescriptor true =
        some (ERROR_SUCCESS, exampleStateChild) ∧
      ∃ f', HelperWF exampleStateChild f' ∧ f'.childrenOf 0 = some [2, 3] :=
  ⟨exampleState_wf, exampleState_register, by
    obtain ⟨f', hwf', -, hchild, -⟩ :=
      RegisterHelper_placement exampleState exampleStateChild exampleShape (some 1)
        exampleDescriptor true exampleState_wf exampleState_register
    obtain ⟨P, kids, hP, hk, hk', -⟩ := hchild 1 rfl
    have hP0 : P = 0 := by
      have : FindHelper exampleState (some 1) = some (some 0) := by decide
      rw [this] at hP
      exact (Option.some.inj (Option.some.inj hP)).symm
    subst hP0
    have hkids : kids = [2] := by
      have : exampleShape.childrenOf 0 = some [2] := by decide
      rw [this] at hk
      exact (Option.some.inj hk).symm
    subst hkids
    exact ⟨f', hwf', hk'⟩⟩

/-- C6: with three root helpers, of which the first registered has a failing start
callback, one call of `StartHelpers` pops that helper twice and invokes its callback
twice: there are four pops and four invocations for three helpers, all three of them not
started and equipped with a start callback. -/
theorem StartHelpers_revisits_sibling :
    runRegisterCalls State.init threeRootsCalls = some threeRootsState ∧
      HelperWF threeRootsState threeRootsShape ∧
      (StartHelpers threeRootsState true).map Prod.snd =
        some { visited := [2, 0, 1, 0], invoked := [2, 0, 1, 0] } ∧
      threeRootsShape.addrs.length = 3 ∧
      (threeRootsState.helperHeap.filter fun e =>
        decide (e.bStarted = false ∧ e.Attributes.pfnStart ≠ none)).length = 3 :=
  ⟨by decide, ⟨by decide, by decide, by decide⟩, by decide, by decide, by decide⟩

theorem StartHelpers_started_flags_witness :
    HelperWF exampleState exampleShape ∧
      ∃ (s' : State) (t : StartTrace), StartHelpers exampleState true = some (s', t) ∧
        (s'.helperHeap.map fun e => e.bStarted) = [true, false, false] := by
  refine ⟨exampleState_wf, ?_⟩
  obtain ⟨s', t, hr, hflags, -, -, -⟩ :=
    StartHelpers_started_flags exampleState exampleShape exampleState_wf
  refine ⟨s', t, hr, ?_⟩
  have hdec : ∃ r, StartHelpers exampleState true = some r ∧
      (r.1.helperHeap.map fun e => e.bStarted) = [true, false, false] := by decide
  obtain ⟨r, hr', hb⟩ := hdec
  rw [hr] at hr'
  cases hr'
  exact hb

theorem LoadHelperDll_unwinds_on_load_failure_witness :
    DllWF exampleState [0] ∧ (loadLibraryFails 126).allocsOk ∧
      (loadLibraryFails 126).loadFails 126 ∧ (126 : DWORD) ≠ ERROR_SUCCESS ∧
      ∃ s' : State,
        LoadHelperDll exampleState ['x', '.', 'd', 'l', 'l'] true (loadLibraryFails 126) =
          some (126, s') ∧
        s'.pDllListHead = exampleState.pDllListHead ∧
        s'.pDllListTail = exampleState.pDllListTail := by
  refine ⟨exampleState_dllwf, by decide, by decide, by decide, ?_⟩
  obtain ⟨s', h1, h2, h3, -⟩ :=
    LoadHelperDll_unwinds_on_load_failure exampleState [0] ['x', '.', 'd', 'l', 'l'] true
      (loadLibraryFails 126) 126 exampleState_dllwf (by decide) (by decide) (by decide)
  exact ⟨s', h1, h2, h3⟩

/-- Why the statements about failed loads ask for an error value other than `ERROR_SUCCESS`:
`LoadHelperDll` unlinks the entry only when `dwError != ERROR_SUCCESS`.  Outside the
contract of `GetLastError`, with `LoadLibraryW` failing and the last-error code 0, it
would return `ERROR_SUCCESS` and leave the entry linked as head and tail of the list. -/
theorem LoadHelperDll_error_zero_keeps_entry :
    DllWF State.init [] ∧ (loadLibraryFails 0).allocsOk ∧
      (loadLibraryFails 0).loadFails 0 ∧
      State.init.pDllListHead = none ∧
      (LoadHelperDll State.init ['x', '.', 'd', 'l', 'l'] true (loadLibraryFails 0)).map
        (fun r => (r.1, r.2.pDllListHead, r.2.pDllListTail)) =
        some (ERROR_SUCCESS, some 0, some 0) :=
  ⟨⟨by decide, by decide, by decide⟩, by decide, by decide, by decide, by decide⟩

theorem LoadHelperDll_entry_point_failure_witness :
    DllWF exampleState [0] ∧ HelperWF exampleState exampleShape ∧
      (entryPointReturns 5).entryPoint = some (initRegistersOne 5) ∧
      (initRegistersOne 5).dwError ≠ ERROR_SUCCESS ∧
      ∃ s' : State,
        LoadHelperDll exampleState samplePath true (entryPointReturns 5) = some (5, s') ∧
        s'.pDllListHead = some 0 ∧ s'.pDllListTail = some 0 ∧ DllWF s' [0] ∧
        s'.regValues = [] := by
  refine ⟨exampleState_dllwf, exampleState_wf, by decide, by decide, ?_⟩
  obtain ⟨s', h1, h2, h3, -, -, h4, h5⟩ :=
    LoadHelperDll_entry_point_failure exampleState [0] exampleShape samplePath true
      (entryPointReturns 5) (initRegistersOne 5) exampleState_dllwf exampleState_wf
      (by decide) (by decide)
  exact ⟨s', h1, h2, h3, h4, h5⟩

theorem LoadHelperDll_value_name_witness :
    DllWF exampleState [0] ∧ HelperWF exampleState exampleShape ∧
      (entryPointReturns 0).succeeds ∧
      valueNameOf (shortNameOf samplePath) = ['\\', 'i', 'f'] ∧
      ∃ (s' : State) (e : DLL_LIST_ENTRY),
        LoadHelperDll exampleState samplePath true (entryPointReturns 0) =
          some (ERROR_SUCCESS, s') ∧
        s'.pDllListHead = some 1 ∧ DllHeap.get s'.dllHeap 1 = some e ∧
        e.pszValueName = some (valueNameOf (shortNameOf samplePath)) := by
  refine ⟨exampleState_dllwf, exampleState_wf, by decide, by decide, ?_⟩
  obtain ⟨s', e, h1, h2, h3, -, h4, -⟩ :=
    LoadHelperDll_value_name exampleState [0] exampleShape samplePath true
      (entryPointReturns 0) exampleState_dllwf exampleState_wf (by decide)
  exact ⟨s', e, h1, h2, h3, h4⟩

theorem LoadHelperDll_persists_witness :
    DllWF exampleState [0] ∧ HelperWF exampleState exampleShape ∧
      (entryPointReturns 0).succeeds ∧
      ∃ (st : DWORD) (s' : State),
        LoadHelperDll exampleState samplePath true (entryPointReturns 0) = some (st, s') ∧
        s'.regValues = [(['\\', 'i', 'f'], samplePath)] ∧ st = ERROR_SUCCESS := by
  refine ⟨exampleState_dllwf, exampleState_wf, by decide, ?_⟩
  obtain ⟨st, s', h1, h2, -, -, h3⟩ :=
    LoadHelperDll_persists exampleState [0] exampleShape samplePath true
      (entryPointReturns 0) exampleState_dllwf exampleState_wf
  refine ⟨st, s', h1, ?_, h3 (by decide)⟩
  rw [h2]
  decide

theorem LoadHelperDll_current_module_witness :
    DllWF State.init [] ∧ HelperWF State.init .nil ∧ State.init.pCurrentDll = none ∧
      (LoadHelperDll State.init samplePath false (entryPointReturns 0)).map
        (fun r => (r.1, r.2.pCurrentDll, r.2.helperHeap.map fun e => e.pDllEntry)) =
        some (ERROR_SUCCESS, none, [some 0]) ∧
      ∃ s' : State,
        LoadHelperDll State.init samplePath false (entryPointReturns 0) =
          some ((entryPointReturns 0).status, s') ∧ s'.pCurrentDll = none := by
  refine ⟨⟨by decide, by decide, by decide⟩, HelperWF.init, rfl, by decide, ?_⟩
  obtain ⟨s', h1, h2, -⟩ :=
    LoadHelperDll_current_module State.init [] .nil samplePath false (entryPointReturns 0)
      ⟨by decide, by decide, by decide⟩ HelperWF.init rfl
  exact ⟨s', h1, h2⟩

theorem DeleteHelperCommand_removes_first_match_witness :
    DllWF threeModulesState [2, 1, 0] ∧ DllNamed threeModulesState [2, 1, 0] ∧
      (3 : DWORD) ≠ 2 ∧
      (deleteHelperArgs ['b', '.', 'd', 'l', 'l'])[2]? = some ['b', '.', 'd', 'l', 'l'] ∧
      (∃ a ∈ [2, 1, 0], shortNameAt threeModulesState a = some ['b', '.', 'd', 'l', 'l']) ∧
      (DeleteHelperCommand threeModulesState (deleteHelperArgs ['b', '.', 'd', 'l', 'l']) 3
        { regOpenKey := 0, regDeleteValueRemoves := true }).map
        (fun r => (r.2.pDllListHead, r.2.pDllListTail)) = some (some 2, some 0) ∧
      (DeleteHelperCommand threeModulesState (deleteHelperArgs ['b', '.', 'd', 'l', 'l']) 3
        { regOpenKey := 0, regDeleteValueRemoves := true }).map
        (fun r => r.2.dllHeap.map fun c => c.map fun e => (e.pPrev, e.pNext)) =
        some [some (some 2, none), none, some (none, some 0)] ∧
      ∃ (k1 : List Nat) (a : Nat) (k2 : List Nat) (st : DWORD) (s' : State),
        [2, 1, 0] = k1 ++ a :: k2 ∧
        DeleteHelperCommand threeModulesState (deleteHelperArgs ['b', '.', 'd', 'l', 'l']) 3
          { regOpenKey := 0, regDeleteValueRemoves := true } = some (st, s') ∧
        DllWF s' (k1 ++ k2) := by
  have hwf : DllWF threeModulesState [2, 1, 0] := ⟨by decide, by decide, by decide⟩
  have hnamed : DllNamed threeModulesState [2, 1, 0] := by
    intro a ha
    simp only [List.mem_cons, List.mem_singleton, List.not_mem_nil, or_false] at ha
    rcases ha with rfl | rfl | rfl <;> exact ⟨_, rfl, by decide, by decide⟩
  have hm : ∃ a ∈ [2, 1, 0],
      shortNameAt threeModulesState a = some ['b', '.', 'd', 'l', 'l'] :=
    ⟨1, by decide, by decide⟩
  refine ⟨hwf, hnamed, by decide, rfl, hm, by decide, by decide, ?_⟩
  obtain ⟨k1, a, k2, st, s', h1, -, -, h2, h3, -⟩ :=
    DeleteHelperCommand_removes_first_match threeModulesState [2, 1, 0]
      (deleteHelperArgs ['b', '.', 'd', 'l', 'l']) 3
      { regOpenKey := 0, regDeleteValueRemoves := true } ['b', '.', 'd', 'l', 'l']
      hwf hnamed (by decide) rfl hm
  exact ⟨k1, a, k2, st, s', h1, h2, h3⟩

theorem DeleteHelperCommand_keeps_helpers_witness :
    DllWF exampleState [0] ∧ DllNamed exampleState [0] ∧
      ((3 : DWORD) ≠ 2 → ∃ arg : WSTR,
        (deleteHelperArgs ['i', 'f', '.', 'd', 'l', 'l'])[2]? = some arg) ∧
      FindHelper exampleState (some 3) = some (some 2) ∧
      ∃ (st : DWORD) (s' : State),
        DeleteHelperCommand exampleState (deleteHelperArgs ['i', 'f', '.', 'd', 'l', 'l']) 3
          { regOpenKey := 0, regDeleteValueRemoves := true } = some (st, s') ∧
        s'.pDllListHead = none ∧ FindHelper s' (some 3) = some (some 2) := by
  have hnamed : DllNamed exampleState [0] := by
    intro a ha
    simp only [List.mem_singleton] at ha
    subst ha
    exact ⟨_, rfl, by decide, by decide⟩
  have harg : (3 : DWORD) ≠ 2 → ∃ arg : WSTR,
      (deleteHelperArgs ['i', 'f', '.', 'd', 'l', 'l'])[2]? = some arg := fun _ => ⟨_, rfl⟩
  refine ⟨exampleState_dllwf, hnamed, harg, by decide, ?_⟩
  obtain ⟨st, s', h1, -, -, -, h2⟩ :=
    DeleteHelperCommand_keeps_helpers exampleState [0]
      (deleteHelperArgs ['i', 'f', '.', 'd', 'l', 'l']) 3
      { regOpenKey := 0, regDeleteValueRemoves := true } exampleState_dllwf hnamed harg
  refine ⟨st, s', h1, ?_, by rw [h2]; decide⟩
  have hev : DeleteHelperCommand exampleState (deleteHelperArgs ['i', 'f', '.', 'd', 'l', 'l'])
      3 { regOpenKey := 0, regDeleteValueRemoves := true } =
      some (1, { exampleState with dllHeap := [none], pDllListHead := none,
                                   pDllListTail := none }) := by decide
  rw [hev] at h1
  cases h1
  rfl

theorem LoadHelpers_loads_every_reference_witness :
    DllWF twoReferencesState [] ∧ HelperWF twoReferencesState .nil ∧
      firstLoadFails.regOpenKey = ERROR_SUCCESS ∧
      firstLoadFails.regQueryInfoKey = ERROR_SUCCESS ∧
      firstLoadFails.allocNameBuffer = true ∧ firstLoadFails.allocValueBuffer = true ∧
      (∀ j, j < twoReferencesState.regValues.length →
        firstLoadFails.regEnumValue j = ERROR_SUCCESS) ∧
      (∀ j, j < twoReferencesState.regValues.length →
        (firstLoadFails.load j).reportsErrors) ∧
      succeededPaths firstLoadFails 0 twoReferencesState.regValues =
        [['b', '.', 'd', 'l', 'l']] ∧
      (LoadHelpers twoReferencesState firstLoadFails).map (fun r => r.2) =
        some { loads := [(['a', '.', 'd', 'l', 'l'], false, 126),
                         (['b', '.', 'd', 'l', 'l'], false, 0)],
               starts := [{ visited := [0], invoked := [0] }] } ∧
      (LoadHelpers twoReferencesState firstLoadFails).map
        (fun r => (r.1.pDllListHead, r.1.pDllListTail)) = some (some 1, some 1) ∧
      (LoadHelpers twoReferencesState firstLoadFails).map
        (fun r => (dllNameAt r.1 0, dllNameAt r.1 1)) =
        some (none, some ['b', '.', 'd', 'l', 'l']) ∧
      (LoadHelpers twoReferencesState firstLoadFails).map
        (fun r => r.1.helperHeap.map fun e => (e.Attributes.guidHelper, e.bStarted)) =
        some [(4, true)] ∧
      (LoadHelpersLoop firstLoadFails 2 3 0 twoReferencesState).map
        (fun r => r.1.helperHeap.map fun e => (e.Attributes.guidHelper, e.bStarted)) =
        some [(4, false)] ∧
      ∃ (s1 s' : State) (tr : LoadHelpersTrace) (t : StartTrace) (added : List Nat),
        LoadHelpers twoReferencesState firstLoadFails = some (s', tr) ∧
        tr.starts = [t] ∧ StartHelpers s1 firstLoadFails.createStackOk = some (s', t) ∧
        DllWF s' (added ++ []) := by
  have hwf : DllWF twoReferencesState [] := ⟨by decide, by decide, by decide⟩
  have hf : HelperWF twoReferencesState .nil := ⟨by decide, by decide, by decide⟩
  have hlaw : ∀ j, j < twoReferencesState.regValues.length →
      (firstLoadFails.load j).reportsErrors := by
    intro j _
    show (if j = 0 then loadLibraryFails 126 else entryPointReturns 0).reportsErrors
    split <;> decide
  refine ⟨hwf, hf, rfl, rfl, rfl, rfl, fun _ _ => rfl, hlaw, by decide, by decide,
    by decide, by decide, by decide, by decide, ?_⟩
  obtain ⟨s1, s', tr, t, added, f1, h1, -, -, -, -, -, -, -, h2, h3, -, -, h4, -⟩ :=
    LoadHelpers_loads_every_reference twoReferencesState [] .nil firstLoadFails hwf hf
      rfl rfl rfl rfl (fun _ _ => rfl) hlaw
  exact ⟨s1, s', tr, t, added, h1, h2, h3, h4⟩

theorem traversal_loops_terminate_witness :
    HelperWF threeRootsState threeRootsShape ∧
      threeRootsShape.size = 3 ∧ threeRootsShape.cost = 4 ∧
      (StartHelpers threeRootsState true).map (fun r => r.2.visited) = some [2, 0, 1, 0] ∧
      FindHelperLoop threeRootsState.helperHeap 9 5 (StackPush CreateStack 2) = some none ∧
      FindHelperLoop threeRootsState.helperHeap 9 4 (StackPush CreateStack 2) = none ∧
      (∃ r, FindHelper threeRootsState (some 9) = some r) ∧
      ∃ s' t, StartHelpers threeRootsState true = some (s', t) ∧
        t.visited.length = threeRootsShape.cost := by
  have hwf : HelperWF threeRootsState threeRootsShape := ⟨by decide, by decide, by decide⟩
  obtain ⟨-, -, -, -, -, h1, h2⟩ :=
    traversal_loops_terminate threeRootsState threeRootsShape 9 hwf
  exact ⟨hwf, by decide, by decide, by decide, by decide, by decide, h1, h2⟩

end Netsh
